import Mathlib

/-!
# Safe-outputs compiler of gh-aw: configuration builder, tool registry and tool catalog

A shallow embedding of `pkg/workflow/safe_outputs_*.go`.  Go values of type `any` are
embedded as `JVal`; a Go `map[string]any` is an association list whose entries are written
with `setKey` (a write to an existing key replaces the value, as in Go) and read with
`getKey`.  Ranging over a Go map is embedded as a traversal of the list in list order, so
the order of the list stands for the iteration order chosen by the runtime.
-/

set_option autoImplicit false

namespace SafeOutputs

/-! ## Values of type `any` and `map[string]any` -/

/-- Dynamic Go value as it reaches `encoding/json`.  The constructor `unsupported` stands
for every value the encoder rejects (a NaN or infinite `float64`, a channel, a function). -/
inductive JVal where
  | null
  | bool (b : Bool)
  | num (n : Int)
  | str (s : String)
  | arr (xs : List JVal)
  | obj (kvs : List (String × JVal))
  | unsupported
  deriving Inhabited

/-- Go `map[string]any`. -/
abbrev JMap := List (String × JVal)

/-- Map read `m[k]` with the comma-ok result. -/
def getKey {β : Type} (m : List (String × β)) (k : String) : Option β :=
  match m with
  | [] => none
  | (k', v) :: rest => if k' = k then some v else getKey rest k

/-- Map write `m[k] = v`: replaces the value of an existing key, otherwise adds the entry. -/
def setKey {β : Type} (m : List (String × β)) (k : String) (v : β) : List (String × β) :=
  match m with
  | [] => [(k, v)]
  | (k', v') :: rest => if k' = k then (k, v) :: rest else (k', v') :: setKey rest k v

/-- Key presence test `_, ok := m[k]`. -/
def hasKey {β : Type} (m : List (String × β)) (k : String) : Bool := (getKey m k).isSome

/-- Go `[]string` stored in an `any`. -/
def strList (xs : List String) : JVal := JVal.arr (xs.map JVal.str)

/-- Go `map[string]string` stored in an `any`. -/
def strMap (m : List (String × String)) : JVal := JVal.obj (m.map (fun p => (p.1, JVal.str p.2)))

/-- Comparison `v != ""` of a value of type `any` with the string constant `""`: the two are
equal only when the dynamic type is `string` and the string is empty. -/
def neEmptyString : JVal → Bool
  | JVal.str s => s != ""
  | _ => true

/-- Comparison `v != nil` of a value of type `any`. -/
def neNil : JVal → Bool
  | JVal.null => false
  | _ => true

/-- Type assertion `v.(string)`. -/
def asString : Option JVal → Option String
  | some (JVal.str s) => some s
  | _ => none

/-- Type assertion `v.(map[string]any)`. -/
def asMap : Option JVal → Option JMap
  | some (JVal.obj m) => some m
  | _ => none

/-! ## `encoding/json` -/

/-- Hexadecimal digit of `encoding/json` escapes. -/
def hexDigit (n : Nat) : Char :=
  if n < 10 then Char.ofNat (48 + n) else Char.ofNat (87 + n)

/-- Escape of one character inside a JSON string, as `json.Marshal` writes it (HTML-safe
escaping is on for `Marshal` and `MarshalIndent`). -/
def escapeChar (c : Char) : List Char :=
  if c = '"' then ['\\', '"']
  else if c = '\\' then ['\\', '\\']
  else if c = '\n' then ['\\', 'n']
  else if c = '\r' then ['\\', 'r']
  else if c = '\t' then ['\\', 't']
  else if c.toNat = 8 then ['\\', 'b']
  else if c.toNat = 12 then ['\\', 'f']
  else if c.toNat < 32 ∨ c = '<' ∨ c = '>' ∨ c = '&' then
    ['\\', 'u', '0', '0', hexDigit (c.toNat / 16), hexDigit (c.toNat % 16)]
  else if c.toNat = 8232 then ['\\', 'u', '2', '0', '2', '8']
  else if c.toNat = 8233 then ['\\', 'u', '2', '0', '2', '9']
  else [c]

/-- JSON string literal for a Go string. -/
def quoteString (s : String) : String :=
  String.mk ('"' :: (s.data.flatMap escapeChar ++ ['"']))

/-- Lexicographic order on character sequences (Go compares strings bytewise, which on
UTF-8 text is the order of the code points). -/
def leChars : List Char → List Char → Bool
  | [], _ => true
  | _ :: _, [] => false
  | c :: cs, d :: ds =>
    if c.toNat < d.toNat then true
    else if d.toNat < c.toNat then false
    else leChars cs ds

/-- Go string comparison `a <= b`. -/
def strLe (a b : String) : Bool := leChars a.data b.data

/-- Insertion of a rendered field into a list of rendered fields ordered by key. -/
def insertField (p : String × String) : List (String × String) → List (String × String)
  | [] => [p]
  | q :: rest => if strLe p.1 q.1 then p :: q :: rest else q :: insertField p rest

/-- Go sorts the keys of a map before encoding it. -/
def sortFields : List (String × String) → List (String × String)
  | [] => []
  | p :: rest => insertField p (sortFields rest)

mutual
/-- Model of `json.Marshal` on a dynamic value: compact text, map keys sorted; `none` is the
encoder's error result. -/
def marshal : JVal → Option String
  | JVal.null => some "null"
  | JVal.bool b => some (if b then "true" else "false")
  | JVal.num n => some (toString n)
  | JVal.str s => some (quoteString s)
  | JVal.arr xs => (marshalList xs).map (fun ss => "[" ++ ",".intercalate ss ++ "]")
  | JVal.obj kvs =>
    (marshalFields kvs).map (fun ps =>
      "\x7b" ++ ",".intercalate ((sortFields ps).map (fun p => quoteString p.1 ++ ":" ++ p.2))
        ++ "\x7d")
  | JVal.unsupported => none
/-- Encoding of the elements of a slice. -/
def marshalList : List JVal → Option (List String)
  | [] => some []
  | x :: xs =>
    match marshal x, marshalList xs with
    | some s, some ss => some (s :: ss)
    | _, _ => none
/-- Encoding of the values of a map, each paired with its key. -/
def marshalFields : List (String × JVal) → Option (List (String × String))
  | [] => some []
  | (k, v) :: rest =>
    match marshal v, marshalFields rest with
    | some s, some ss => some ((k, s) :: ss)
    | _, _ => none
end

/-! ## Data model -/

/-- Modelled from the spec: the Go struct declarations of the per-kind policies are not part
of the sources.  Section 3 describes one OutputPolicy shape whose attributes vary by kind
(occurrence cap, allow-lists, target selector, expiry, toggles); this record carries every
attribute that the handlers and `addRepoParameterIfNeeded` read. -/
structure OutputPolicy where
  Max : Int := 0
  Target : String := ""
  Allowed : List String := []
  AllowedLabels : List String := []
  AllowedReasons : List String := []
  AllowedRepos : List String := []
  TargetRepoSlug : String := ""
  Reviewers : List String := []
  RequiredCategory : String := ""
  RequiredLabels : List String := []
  RequiredTitlePrefix : String := ""
  DefaultAgent : String := ""
  TargetOwner : String := ""
  TitlePrefix : String := ""
  Labels : List String := []
  Group : Bool := false
  AllowEmpty : Bool := false
  AutoMerge : Bool := false
  CreateIssue : Bool := false
  Expires : Int := 0

/-- Input definition of a custom job (`InputDefinition`); `Default` has Go type `any`, with
`JVal.null` for the nil interface.  The Go field `Type` is written `Type_`. -/
structure InputDefinition where
  Type_ : String := ""
  Description : String := ""
  Required : Bool := false
  Default : JVal := JVal.null
  Options : List String := []

/-- Custom job (`SafeJobConfig`); `Inputs` is a Go map and is listed in iteration order. -/
structure SafeJobConfig where
  Description : String := ""
  Output : String := ""
  Inputs : List (String × InputDefinition) := []

/-- Mentions policy (`MentionsConfig`): the pointer fields are options. -/
structure MentionsConfig where
  Enabled : Option Bool := none
  AllowTeamMembers : Option Bool := none
  AllowContext : Option Bool := none
  Allowed : List String := []
  Max : Option Int := none

/-- Dispatch policy (`DispatchWorkflowConfig`). -/
structure DispatchWorkflowConfig where
  Workflows : List String := []
  WorkflowFiles : List (String × String) := []
  Max : Int := 0

/-- The aggregate `SafeOutputsConfig`: a nil policy pointer is `none`. -/
structure SafeOutputsConfig where
  CreateIssues : Option OutputPolicy := none
  CreateAgentSessions : Option OutputPolicy := none
  AddComments : Option OutputPolicy := none
  CreateDiscussions : Option OutputPolicy := none
  CloseDiscussions : Option OutputPolicy := none
  CloseIssues : Option OutputPolicy := none
  CreatePullRequests : Option OutputPolicy := none
  ClosePullRequests : Option OutputPolicy := none
  CreatePullRequestReviewComments : Option OutputPolicy := none
  CreateCodeScanningAlerts : Option OutputPolicy := none
  AutofixCodeScanningAlert : Option OutputPolicy := none
  AddLabels : Option OutputPolicy := none
  RemoveLabels : Option OutputPolicy := none
  AddReviewer : Option OutputPolicy := none
  AssignMilestone : Option OutputPolicy := none
  AssignToAgent : Option OutputPolicy := none
  AssignToUser : Option OutputPolicy := none
  UpdateIssues : Option OutputPolicy := none
  UpdateDiscussions : Option OutputPolicy := none
  UpdatePullRequests : Option OutputPolicy := none
  MarkPullRequestAsReadyForReview : Option OutputPolicy := none
  PushToPullRequestBranch : Option OutputPolicy := none
  UploadAssets : Option OutputPolicy := none
  MissingTool : Option OutputPolicy := none
  MissingData : Option OutputPolicy := none
  UpdateProjects : Option OutputPolicy := none
  CreateProjectStatusUpdates : Option OutputPolicy := none
  CreateProjects : Option OutputPolicy := none
  UpdateRelease : Option OutputPolicy := none
  LinkSubIssue : Option OutputPolicy := none
  NoOp : Option OutputPolicy := none
  HideComment : Option OutputPolicy := none
  Jobs : List (String × SafeJobConfig) := []
  Mentions : Option MentionsConfig := none
  DispatchWorkflow : Option DispatchWorkflowConfig := none

/-- The part of `WorkflowData` that the safe-outputs compiler reads. -/
structure WorkflowData where
  SafeOutputs : Option SafeOutputsConfig := none

/-! ## Configuration helpers -/

/-- Modelled from the spec: `generateMaxConfig` is called by the handlers but not part of the
sources.  Section 4.1: a handler applies the kind-specific default, "if Max is unset, default
to the documented per-kind default"; section 6 names the key `max`. -/
def generateMaxConfig (max defaultMax : Int) : JMap :=
  [("max", JVal.num (if max > 0 then max else defaultMax))]

/-- Optional list field of a helper's result: written only when the list is non-empty. -/
def withList (config : JMap) (key : String) (xs : List String) : JMap :=
  if xs.length > 0 then setKey config key (strList xs) else config

/-- Optional string field of a helper's result: written only when the string is non-empty. -/
def withString (config : JMap) (key : String) (x : String) : JMap :=
  if x != "" then setKey config key (JVal.str x) else config

/-- Optional toggle of a helper's result: written only when the toggle is on. -/
def withFlag (config : JMap) (key : String) (b : Bool) : JMap :=
  if b then setKey config key (JVal.bool true) else config

/-- Modelled from the spec: `generateMaxWithAllowedLabelsConfig` is not part of the sources;
the cap as in `generateMaxConfig` and the allow-list under the key `allowed_labels` of
section 6. -/
def generateMaxWithAllowedLabelsConfig (max defaultMax : Int) (allowedLabels : List String) :
    JMap :=
  withList (generateMaxConfig max defaultMax) "allowed_labels" allowedLabels

/-- Modelled from the spec: `generateMaxWithTargetConfig` is not part of the sources; the cap
and the target selector under the key `target` of section 6. -/
def generateMaxWithTargetConfig (max defaultMax : Int) (target : String) : JMap :=
  withString (generateMaxConfig max defaultMax) "target" target

/-- Modelled from the spec: `generateMaxWithAllowedConfig` is not part of the sources; the cap
and the allow-list under the key `allowed` of section 6. -/
def generateMaxWithAllowedConfig (max defaultMax : Int) (allowed : List String) : JMap :=
  withList (generateMaxConfig max defaultMax) "allowed" allowed

/-- Modelled from the spec: `generateMaxWithDiscussionFieldsConfig` is not part of the
sources; the cap and the three required-field attributes the handler passes. -/
def generateMaxWithDiscussionFieldsConfig (max defaultMax : Int) (requiredCategory : String)
    (requiredLabels : List String) (requiredTitlePrefix : String) : JMap :=
  withString
    (withList (withString (generateMaxConfig max defaultMax) "required_category" requiredCategory)
      "required_labels" requiredLabels)
    "required_title_prefix" requiredTitlePrefix

/-- Modelled from the spec: `generateMaxWithRequiredFieldsConfig` is not part of the sources;
the cap and the two required-field attributes the handler passes. -/
def generateMaxWithRequiredFieldsConfig (max defaultMax : Int) (requiredLabels : List String)
    (requiredTitlePrefix : String) : JMap :=
  withString (withList (generateMaxConfig max defaultMax) "required_labels" requiredLabels)
    "required_title_prefix" requiredTitlePrefix

/-- Modelled from the spec: `generateMaxWithReviewersConfig` is not part of the sources; the
cap and the reviewer allow-list. -/
def generateMaxWithReviewersConfig (max defaultMax : Int) (reviewers : List String) : JMap :=
  withList (generateMaxConfig max defaultMax) "reviewers" reviewers

/-- Modelled from the spec: `generateHideCommentConfig` is not part of the sources; the cap
and the allow-list of reasons. -/
def generateHideCommentConfig (max defaultMax : Int) (allowedReasons : List String) : JMap :=
  withList (generateMaxConfig max defaultMax) "allowed_reasons" allowedReasons

/-- Modelled from the spec: `generatePullRequestConfig` is not part of the sources and
receives no cap from its handler; the spec documents no cap for it, so the model writes only
the attributes that the handler passes. -/
def generatePullRequestConfig (allowedLabels : List String) (allowEmpty autoMerge : Bool)
    (expires : Int) : JMap :=
  let config := withFlag (withFlag (withList [] "allowed_labels" allowedLabels)
    "allow_empty" allowEmpty) "auto_merge" autoMerge
  if expires > 0 then setKey config "expires" (JVal.num expires) else config

/-- Modelled from the spec: `generateAssignToAgentConfig` is not part of the sources and
receives the cap without a default; the model writes the cap when it is set and the other
attributes that the handler passes. -/
def generateAssignToAgentConfig (max : Int) (defaultAgent target : String)
    (allowed : List String) : JMap :=
  let config : JMap := if max > 0 then [("max", JVal.num max)] else []
  withList (withString (withString config "default_agent" defaultAgent) "target" target)
    "allowed" allowed

/-! ## Tool registry (`safe_outputs_tool_registry.go`) -/

/-- Handler type `SafeOutputToolHandler`: the pair `(config, shouldInclude)`; the nil map
is `none`. -/
abbrev SafeOutputToolHandler := SafeOutputsConfig → Option JMap × Bool

def handleCreateIssue (safeOutputs : SafeOutputsConfig) : Option JMap × Bool :=
  match safeOutputs.CreateIssues with
  | none => (none, false)
  | some p =>
    let config := generateMaxWithAllowedLabelsConfig p.Max 1 p.AllowedLabels
    let config := if p.Group then setKey config "group" (JVal.bool true) else config
    let config := if p.Expires > 0 then setKey config "expires" (JVal.num p.Expires) else config
    (some config, true)

def handleCreateAgentSession (safeOutputs : SafeOutputsConfig) : Option JMap × Bool :=
  match safeOutputs.CreateAgentSessions with
  | none => (none, false)
  | some p => (some (generateMaxConfig p.Max 1), true)

def handleAddComment (safeOutputs : SafeOutputsConfig) : Option JMap × Bool :=
  match safeOutputs.AddComments with
  | none => (none, false)
  | some p => (some (generateMaxWithTargetConfig p.Max 1 p.Target), true)

def handleCreateDiscussion (safeOutputs : SafeOutputsConfig) : Option JMap × Bool :=
  match safeOutputs.CreateDiscussions with
  | none => (none, false)
  | some p =>
    let config := generateMaxWithAllowedLabelsConfig p.Max 1 p.AllowedLabels
    let config := if p.Expires > 0 then setKey config "expires" (JVal.num p.Expires) else config
    (some config, true)

def handleCloseDiscussion (safeOutputs : SafeOutputsConfig) : Option JMap × Bool :=
  match safeOutputs.CloseDiscussions with
  | none => (none, false)
  | some p => (some (generateMaxWithDiscussionFieldsConfig p.Max 1 p.RequiredCategory p.RequiredLabels
      p.RequiredTitlePrefix), true)

def handleCloseIssue (safeOutputs : SafeOutputsConfig) : Option JMap × Bool :=
  match safeOutputs.CloseIssues with
  | none => (none, false)
  | some p => (some (generateMaxWithRequiredFieldsConfig p.Max 1 p.RequiredLabels p.RequiredTitlePrefix), true)

def handleCreatePullRequest (safeOutputs : SafeOutputsConfig) : Option JMap × Bool :=
  match safeOutputs.CreatePullRequests with
  | none => (none, false)
  | some p => (some (generatePullRequestConfig p.AllowedLabels p.AllowEmpty p.AutoMerge p.Expires), true)

def handleCreatePullRequestReviewComment (safeOutputs : SafeOutputsConfig) : Option JMap × Bool :=
  match safeOutputs.CreatePullRequestReviewComments with
  | none => (none, false)
  | some p => (some (generateMaxConfig p.Max 10), true)

def handleCreateCodeScanningAlert (safeOutputs : SafeOutputsConfig) : Option JMap × Bool :=
  match safeOutputs.CreateCodeScanningAlerts with
  | none => (none, false)
  | some p => (some (generateMaxConfig p.Max 0), true)

def handleAutofixCodeScanningAlert (safeOutputs : SafeOutputsConfig) : Option JMap × Bool :=
  match safeOutputs.AutofixCodeScanningAlert with
  | none => (none, false)
  | some p => (some (generateMaxConfig p.Max 10), true)

def handleAddLabels (safeOutputs : SafeOutputsConfig) : Option JMap × Bool :=
  match safeOutputs.AddLabels with
  | none => (none, false)
  | some p => (some (generateMaxWithAllowedConfig p.Max 3 p.Allowed), true)

def handleRemoveLabels (safeOutputs : SafeOutputsConfig) : Option JMap × Bool :=
  match safeOutputs.RemoveLabels with
  | none => (none, false)
  | some p => (some (generateMaxWithAllowedConfig p.Max 3 p.Allowed), true)

def handleAddReviewer (safeOutputs : SafeOutputsConfig) : Option JMap × Bool :=
  match safeOutputs.AddReviewer with
  | none => (none, false)
  | some p => (some (generateMaxWithReviewersConfig p.Max 3 p.Reviewers), true)

def handleAssignMilestone (safeOutputs : SafeOutputsConfig) : Option JMap × Bool :=
  match safeOutputs.AssignMilestone with
  | none => (none, false)
  | some p => (some (generateMaxWithAllowedConfig p.Max 1 p.Allowed), true)

def handleAssignToAgent (safeOutputs : SafeOutputsConfig) : Option JMap × Bool :=
  match safeOutputs.AssignToAgent with
  | none => (none, false)
  | some p => (some (generateAssignToAgentConfig p.Max p.DefaultAgent p.Target p.Allowed), true)

def handleAssignToUser (safeOutputs : SafeOutputsConfig) : Option JMap × Bool :=
  match safeOutputs.AssignToUser with
  | none => (none, false)
  | some p => (some (generateMaxWithAllowedConfig p.Max 1 p.Allowed), true)

def handleUpdateIssue (safeOutputs : SafeOutputsConfig) : Option JMap × Bool :=
  match safeOutputs.UpdateIssues with
  | none => (none, false)
  | some p => (some (generateMaxConfig p.Max 1), true)

def handleUpdateDiscussion (safeOutputs : SafeOutputsConfig) : Option JMap × Bool :=
  match safeOutputs.UpdateDiscussions with
  | none => (none, false)
  | some p => (some (generateMaxWithAllowedLabelsConfig p.Max 1 p.AllowedLabels), true)

def handleUpdatePullRequest (safeOutputs : SafeOutputsConfig) : Option JMap × Bool :=
  match safeOutputs.UpdatePullRequests with
  | none => (none, false)
  | some p => (some (generateMaxConfig p.Max 1), true)

def handleMarkPullRequestAsReadyForReview (safeOutputs : SafeOutputsConfig) : Option JMap × Bool :=
  match safeOutputs.MarkPullRequestAsReadyForReview with
  | none => (none, false)
  | some p => (some (generateMaxConfig p.Max 10), true)

def handlePushToPullRequestBranch (safeOutputs : SafeOutputsConfig) : Option JMap × Bool :=
  match safeOutputs.PushToPullRequestBranch with
  | none => (none, false)
  | some p => (some (generateMaxWithTargetConfig p.Max 0 p.Target), true)

def handleUploadAsset (safeOutputs : SafeOutputsConfig) : Option JMap × Bool :=
  match safeOutputs.UploadAssets with
  | none => (none, false)
  | some p => (some (generateMaxConfig p.Max 0), true)

def handleMissingTool (safeOutputs : SafeOutputsConfig) : Option JMap × Bool :=
  match safeOutputs.MissingTool with
  | none => (none, false)
  | some p =>
    let config : JMap := []
    let config := if p.Max > 0 then setKey config "max" (JVal.num p.Max) else config
    (some config, true)

def handleMissingData (safeOutputs : SafeOutputsConfig) : Option JMap × Bool :=
  match safeOutputs.MissingData with
  | none => (none, false)
  | some p =>
    let config : JMap := []
    let config := if p.Max > 0 then setKey config "max" (JVal.num p.Max) else config
    (some config, true)

def handleUpdateProject (safeOutputs : SafeOutputsConfig) : Option JMap × Bool :=
  match safeOutputs.UpdateProjects with
  | none => (none, false)
  | some p => (some (generateMaxConfig p.Max 10), true)

def handleCreateProjectStatusUpdate (safeOutputs : SafeOutputsConfig) : Option JMap × Bool :=
  match safeOutputs.CreateProjectStatusUpdates with
  | none => (none, false)
  | some p => (some (generateMaxConfig p.Max 10), true)

def handleCreateProject (safeOutputs : SafeOutputsConfig) : Option JMap × Bool :=
  match safeOutputs.CreateProjects with
  | none => (none, false)
  | some p =>
    let config := generateMaxConfig p.Max 1
    let config :=
      if p.TargetOwner != "" then setKey config "target_owner" (JVal.str p.TargetOwner)
      else config
    let config :=
      if p.TitlePrefix != "" then setKey config "title_prefix" (JVal.str p.TitlePrefix)
      else config
    (some config, true)

def handleUpdateRelease (safeOutputs : SafeOutputsConfig) : Option JMap × Bool :=
  match safeOutputs.UpdateRelease with
  | none => (none, false)
  | some p => (some (generateMaxConfig p.Max 1), true)

def handleLinkSubIssue (safeOutputs : SafeOutputsConfig) : Option JMap × Bool :=
  match safeOutputs.LinkSubIssue with
  | none => (none, false)
  | some p => (some (generateMaxConfig p.Max 5), true)

def handleNoOp (safeOutputs : SafeOutputsConfig) : Option JMap × Bool :=
  match safeOutputs.NoOp with
  | none => (none, false)
  | some p => (some (generateMaxConfig p.Max 1), true)

def handleHideComment (safeOutputs : SafeOutputsConfig) : Option JMap × Bool :=
  match safeOutputs.HideComment with
  | none => (none, false)
  | some p => (some (generateHideCommentConfig p.Max 5 p.AllowedReasons), true)

def handleCreateMissingToolIssue (safeOutputs : SafeOutputsConfig) : Option JMap × Bool :=
  match safeOutputs.MissingTool with
  | none => (none, false)
  | some p =>
    if !p.CreateIssue then (none, false)
    else
      let config : JMap := []
      let config := setKey config "max" (JVal.num 1)
      let config :=
        if p.TitlePrefix != "" then setKey config "title_prefix" (JVal.str p.TitlePrefix)
        else config
      let config :=
        if p.Labels.length > 0 then setKey config "labels" (strList p.Labels) else config
      (some config, true)

def handleCreateMissingDataIssue (safeOutputs : SafeOutputsConfig) : Option JMap × Bool :=
  match safeOutputs.MissingData with
  | none => (none, false)
  | some p =>
    if !p.CreateIssue then (none, false)
    else
      let config : JMap := []
      let config := setKey config "max" (JVal.num 1)
      let config :=
        if p.TitlePrefix != "" then setKey config "title_prefix" (JVal.str p.TitlePrefix)
        else config
      let config :=
        if p.Labels.length > 0 then setKey config "labels" (strList p.Labels) else config
      (some config, true)

/-- The registry `toolRegistry`, a Go map literal, listed in the order of the literal. -/
def toolRegistry : List (String × SafeOutputToolHandler) :=
  [("create_issue", handleCreateIssue),
   ("create_agent_session", handleCreateAgentSession),
   ("add_comment", handleAddComment),
   ("create_discussion", handleCreateDiscussion),
   ("close_discussion", handleCloseDiscussion),
   ("close_issue", handleCloseIssue),
   ("create_pull_request", handleCreatePullRequest),
   ("create_pull_request_review_comment", handleCreatePullRequestReviewComment),
   ("create_code_scanning_alert", handleCreateCodeScanningAlert),
   ("autofix_code_scanning_alert", handleAutofixCodeScanningAlert),
   ("add_labels", handleAddLabels),
   ("remove_labels", handleRemoveLabels),
   ("add_reviewer", handleAddReviewer),
   ("assign_milestone", handleAssignMilestone),
   ("assign_to_agent", handleAssignToAgent),
   ("assign_to_user", handleAssignToUser),
   ("update_issue", handleUpdateIssue),
   ("update_discussion", handleUpdateDiscussion),
   ("update_pull_request", handleUpdatePullRequest),
   ("mark_pull_request_as_ready_for_review", handleMarkPullRequestAsReadyForReview),
   ("push_to_pull_request_branch", handlePushToPullRequestBranch),
   ("upload_asset", handleUploadAsset),
   ("missing_tool", handleMissingTool),
   ("missing_data", handleMissingData),
   ("update_project", handleUpdateProject),
   ("create_project_status_update", handleCreateProjectStatusUpdate),
   ("create_project", handleCreateProject),
   ("update_release", handleUpdateRelease),
   ("link_sub_issue", handleLinkSubIssue),
   ("noop", handleNoOp),
   ("hide_comment", handleHideComment),
   ("create_missing_tool_issue", handleCreateMissingToolIssue),
   ("create_missing_data_issue", handleCreateMissingDataIssue)]

/-! ## Configuration builder (`safe_outputs_config_builder.go`) -/

/-- A handler's `config` as stored in a `map[string]any`: the nil map stays a nil map. -/
def mapValue : Option JMap → JVal
  | some m => JVal.obj m
  | none => JVal.null

/-- One iteration of the registry loop of `generateSafeOutputsConfig` (lines 35-41). -/
def registryStep (safeOutputs : SafeOutputsConfig) (safeOutputsConfig : JMap)
    (entry : String × SafeOutputToolHandler) : JMap :=
  let (config, shouldInclude) := entry.2 safeOutputs
  if shouldInclude then setKey safeOutputsConfig entry.1 (mapValue config) else safeOutputsConfig

/-- The map `inputConfig` built for one input of a custom job (lines 63-73). -/
def inputConfig (inputDef : InputDefinition) : JMap :=
  let inputConfig : JMap :=
    [("type", JVal.str inputDef.Type_), ("description", JVal.str inputDef.Description),
     ("required", JVal.bool inputDef.Required)]
  let inputConfig :=
    if neEmptyString inputDef.Default then setKey inputConfig "default" inputDef.Default
    else inputConfig
  let inputConfig :=
    if inputDef.Options.length > 0 then setKey inputConfig "options" (strList inputDef.Options)
    else inputConfig
  inputConfig

/-- The map `inputsConfig` of a custom job (lines 61-75). -/
def inputsConfig (inputs : List (String × InputDefinition)) : JMap :=
  inputs.foldl (fun acc e => setKey acc e.1 (JVal.obj (inputConfig e.2))) []

/-- The map `safeJobConfig` built for one custom job (lines 47-77). -/
def safeJobConfig (jobConfig : SafeJobConfig) : JMap :=
  let safeJobConfig : JMap := []
  let safeJobConfig :=
    if jobConfig.Description != "" then
      setKey safeJobConfig "description" (JVal.str jobConfig.Description)
    else safeJobConfig
  let safeJobConfig :=
    if jobConfig.Output != "" then setKey safeJobConfig "output" (JVal.str jobConfig.Output)
    else safeJobConfig
  let safeJobConfig :=
    if jobConfig.Inputs.length > 0 then
      setKey safeJobConfig "inputs" (JVal.obj (inputsConfig jobConfig.Inputs))
    else safeJobConfig
  safeJobConfig

/-- The map `mentionsConfig` (lines 85-110). -/
def mentionsConfig (mentions : MentionsConfig) : JMap :=
  let mentionsConfig : JMap := []
  let mentionsConfig :=
    match mentions.Enabled with
    | some b => setKey mentionsConfig "enabled" (JVal.bool b)
    | none => mentionsConfig
  let mentionsConfig :=
    match mentions.AllowTeamMembers with
    | some b => setKey mentionsConfig "allowTeamMembers" (JVal.bool b)
    | none => mentionsConfig
  let mentionsConfig :=
    match mentions.AllowContext with
    | some b => setKey mentionsConfig "allowContext" (JVal.bool b)
    | none => mentionsConfig
  let mentionsConfig :=
    if mentions.Allowed.length > 0 then setKey mentionsConfig "allowed" (strList mentions.Allowed)
    else mentionsConfig
  let mentionsConfig :=
    match mentions.Max with
    | some n => setKey mentionsConfig "max" (JVal.num n)
    | none => mentionsConfig
  mentionsConfig

/-- The map `dispatchWorkflowConfig` (lines 120-137). -/
def dispatchWorkflowConfig (dispatch : DispatchWorkflowConfig) : JMap :=
  let dispatchWorkflowConfig : JMap := []
  let dispatchWorkflowConfig :=
    if dispatch.Workflows.length > 0 then
      setKey dispatchWorkflowConfig "workflows" (strList dispatch.Workflows)
    else dispatchWorkflowConfig
  let dispatchWorkflowConfig :=
    if dispatch.WorkflowFiles.length > 0 then
      setKey dispatchWorkflowConfig "workflow_files" (strMap dispatch.WorkflowFiles)
    else dispatchWorkflowConfig
  let maxValue : Int := if dispatch.Max > 0 then dispatch.Max else 1
  setKey dispatchWorkflowConfig "max" (JVal.num maxValue)

/-- The registry loop of `generateSafeOutputsConfig` (lines 31-42), started on the empty
map. -/
def registryConfig (safeOutputs : SafeOutputsConfig) : JMap :=
  toolRegistry.foldl (registryStep safeOutputs) []

/-- The custom job block of `generateSafeOutputsConfig` (lines 45-81). -/
def addJobsConfig (safeOutputs : SafeOutputsConfig) (safeOutputsConfig : JMap) : JMap :=
  if safeOutputs.Jobs.length > 0 then
    safeOutputs.Jobs.foldl (fun acc e => setKey acc e.1 (JVal.obj (safeJobConfig e.2)))
      safeOutputsConfig
  else safeOutputsConfig

/-- The mentions block of `generateSafeOutputsConfig` (lines 84-116). -/
def addMentionsConfig (safeOutputs : SafeOutputsConfig) (safeOutputsConfig : JMap) : JMap :=
  match safeOutputs.Mentions with
  | some mentions =>
    if (mentionsConfig mentions).length > 0 then
      setKey safeOutputsConfig "mentions" (JVal.obj (mentionsConfig mentions))
    else safeOutputsConfig
  | none => safeOutputsConfig

/-- The dispatch block of `generateSafeOutputsConfig` (lines 119-143). -/
def addDispatchConfig (safeOutputs : SafeOutputsConfig) (safeOutputsConfig : JMap) : JMap :=
  match safeOutputs.DispatchWorkflow with
  | some dispatch =>
    if (dispatchWorkflowConfig dispatch).length > 0 then
      setKey safeOutputsConfig "dispatch_workflow" (JVal.obj (dispatchWorkflowConfig dispatch))
    else safeOutputsConfig
  | none => safeOutputsConfig

/-- The map `safeOutputsConfig` that `generateSafeOutputsConfig` assembles for a non-nil
aggregate (lines 31-143), before it is encoded: the four blocks in source order. -/
def safeOutputsConfigMap (safeOutputs : SafeOutputsConfig) : JMap :=
  addDispatchConfig safeOutputs
    (addMentionsConfig safeOutputs (addJobsConfig safeOutputs (registryConfig safeOutputs)))

/-- The function `generateSafeOutputsConfig`: the empty string for a nil aggregate, otherwise
the encoding of the assembled map; the error of `json.Marshal` is discarded (line 145), which
leaves the empty byte slice. -/
def generateSafeOutputsConfig (data : WorkflowData) : String :=
  match data.SafeOutputs with
  | none => ""
  | some safeOutputs =>
    match marshal (JVal.obj (safeOutputsConfigMap safeOutputs)) with
    | some configJSON => configJSON
    | none => ""

/-- One iteration of the loop of `buildEnabledToolsSet` (lines 159-167); the set is the list
of the names mapped to `true`. -/
def enabledStep (safeOutputs : SafeOutputsConfig) (enabledTools : List String)
    (entry : String × SafeOutputToolHandler) : List String :=
  let (_, shouldInclude) := entry.2 safeOutputs
  if shouldInclude then
    if entry.1 != "create_missing_tool_issue" && entry.1 != "create_missing_data_issue" then
      if enabledTools.contains entry.1 then enabledTools else enabledTools ++ [entry.1]
    else enabledTools
  else enabledTools

/-- The function `buildEnabledToolsSet`. -/
def buildEnabledToolsSet (safeOutputs : Option SafeOutputsConfig) : List String :=
  match safeOutputs with
  | none => []
  | some s => toolRegistry.foldl (enabledStep s) []

/-! ## Tool definitions (`safe_outputs_tool_definitions.go`) -/

/-- Insertion into a sorted list of strings. -/
def insertString (a : String) : List String → List String
  | [] => [a]
  | b :: rest => if strLe a b then a :: b :: rest else b :: insertString a rest

/-- Go `sort.Strings`. -/
def sortStrings : List String → List String
  | [] => []
  | a :: rest => insertString a (sortStrings rest)

/-- The map `property` built for one input of a custom job (lines 53-83). -/
def customJobProperty (inputDef : InputDefinition) : JMap :=
  let property : JMap := []
  let property :=
    if inputDef.Description != "" then setKey property "description" (JVal.str inputDef.Description)
    else property
  let property :=
    if inputDef.Type_ = "choice" then
      let property := setKey property "type" (JVal.str "string")
      if inputDef.Options.length > 0 then setKey property "enum" (strList inputDef.Options)
      else property
    else if inputDef.Type_ = "boolean" then setKey property "type" (JVal.str "boolean")
    else if inputDef.Type_ = "number" then setKey property "type" (JVal.str "number")
    else setKey property "type" (JVal.str "string")
  let property :=
    if neNil inputDef.Default then setKey property "default" inputDef.Default else property
  property

/-- One iteration of the input loop of `generateCustomJobToolDefinition` (lines 52-91): the
state is the `properties` map and the slice `requiredFields`. -/
def customJobInputStep (st : JMap × List String) (e : String × InputDefinition) :
    JMap × List String :=
  (setKey st.1 e.1 (JVal.obj (customJobProperty e.2)),
   if e.2.Required then st.2 ++ [e.1] else st.2)

/-- The function `generateCustomJobToolDefinition`. -/
def generateCustomJobToolDefinition (jobName : String) (jobConfig : SafeJobConfig) : JMap :=
  let tool : JMap := [("name", JVal.str jobName)]
  let tool :=
    if jobConfig.Description != "" then setKey tool "description" (JVal.str jobConfig.Description)
    else setKey tool "description" (JVal.str ("Execute the " ++ jobName ++ " custom job"))
  let st : JMap × List String :=
    if jobConfig.Inputs.length > 0 then jobConfig.Inputs.foldl customJobInputStep ([], [])
    else ([], [])
  let inputSchema : JMap := [("type", JVal.str "object"), ("properties", JVal.obj st.1)]
  let inputSchema :=
    if st.2.length > 0 then setKey inputSchema "required" (strList (sortStrings st.2))
    else inputSchema
  let inputSchema := setKey inputSchema "additionalProperties" (JVal.bool false)
  setKey tool "inputSchema" (JVal.obj inputSchema)

/-- Type assertion `v.(bool)`. -/
def asBool : Option JVal → Option Bool
  | some (JVal.bool b) => some b
  | _ => none

/-- Type assertion `v.([]any)`. -/
def asArr : Option JVal → Option (List JVal)
  | some (JVal.arr xs) => some xs
  | _ => none

/-- One iteration of the input loop of `generateDispatchWorkflowTool` (lines 125-184): the
state is the `properties` map and the slice `required`. -/
def dispatchInputStep (workflowName : String) (st : JMap × List String) (e : String × JVal) :
    JMap × List String :=
  match asMap (some e.2) with
  | none => st
  | some inputDefMap =>
    let inputDescription :=
      match asString (getKey inputDefMap "description") with
      | some desc =>
        if desc != "" then desc
        else "Input parameter \'" ++ e.1 ++ "\' for workflow " ++ workflowName
      | none => "Input parameter \'" ++ e.1 ++ "\' for workflow " ++ workflowName
    let inputRequired :=
      match asBool (getKey inputDefMap "required") with
      | some req => req
      | none => false
    let required := if inputRequired then st.2 ++ [e.1] else st.2
    let plain (inputType : String) : JMap × List String :=
      let property : JMap :=
        [("type", JVal.str inputType), ("description", JVal.str inputDescription)]
      let property :=
        match getKey inputDefMap "default" with
        | some defaultVal => setKey property "default" defaultVal
        | none => property
      (setKey st.1 e.1 (JVal.obj property), required)
    match asString (getKey inputDefMap "type") with
    | some typeStr =>
      if typeStr = "number" then plain "number"
      else if typeStr = "boolean" then plain "boolean"
      else if typeStr = "choice" then
        match asArr (getKey inputDefMap "options") with
        | some options =>
          if options.length > 0 then
            (setKey st.1 e.1 (JVal.obj
              [("type", JVal.str "string"), ("description", JVal.str inputDescription),
               ("enum", JVal.arr options)]), required)
          else plain "string"
        | none => plain "string"
      else plain "string"
    | none => plain "string"

/-- The function `generateDispatchWorkflowTool`; the identifier normaliser of package
`stringutil` is not part of the sources and is passed in. -/
def generateDispatchWorkflowTool (NormalizeSafeOutputIdentifier : String → String)
    (workflowName : String) (workflowInputs : JMap) : JMap :=
  let toolName := NormalizeSafeOutputIdentifier workflowName
  let description := "Dispatch the \'" ++ workflowName ++
    "\' workflow with workflow_dispatch trigger. This workflow must support workflow_dispatch and be in .github/workflows/ directory in the same repository."
  let st := workflowInputs.foldl (dispatchInputStep workflowName) ([], [])
  let inputSchema : JMap :=
    [("type", JVal.str "object"), ("properties", JVal.obj st.1),
     ("additionalProperties", JVal.bool false)]
  let inputSchema :=
    if st.2.length > 0 then setKey inputSchema "required" (strList st.2) else inputSchema
  [("name", JVal.str toolName), ("description", JVal.str description),
   ("_workflow_name", JVal.str workflowName), ("inputSchema", JVal.obj inputSchema)]

/-! ## Repo parameter injection (`safe_outputs_repo_parameters.go`) -/

/-- The assignments `hasAllowedRepos = len(config.AllowedRepos) > 0` and
`targetRepoSlug = config.TargetRepoSlug` under the guard `config != nil`; both variables keep
their zero values otherwise. -/
def repoFields : Option OutputPolicy → Bool × String
  | some config => (decide (config.AllowedRepos.length > 0), config.TargetRepoSlug)
  | none => (false, "")

/-- The `switch toolName` of `addRepoParameterIfNeeded` (lines 30-135): the values of
`hasAllowedRepos` and `targetRepoSlug` after it. -/
def repoSwitch (toolName : String) (safeOutputs : SafeOutputsConfig) : Bool × String :=
  if toolName = "create_issue" then repoFields safeOutputs.CreateIssues
  else if toolName = "create_discussion" then repoFields safeOutputs.CreateDiscussions
  else if toolName = "add_comment" then repoFields safeOutputs.AddComments
  else if toolName = "create_pull_request" then repoFields safeOutputs.CreatePullRequests
  else if toolName = "create_pull_request_review_comment" then
    repoFields safeOutputs.CreatePullRequestReviewComments
  else if toolName = "create_agent_session" then repoFields safeOutputs.CreateAgentSessions
  else if toolName = "close_issue" ∨ toolName = "update_issue" then
    if safeOutputs.CloseIssues.isSome ∧ toolName = "close_issue" then
      repoFields safeOutputs.CloseIssues
    else if safeOutputs.UpdateIssues.isSome ∧ toolName = "update_issue" then
      repoFields safeOutputs.UpdateIssues
    else (false, "")
  else if toolName = "close_discussion" ∨ toolName = "update_discussion" then
    if safeOutputs.CloseDiscussions.isSome ∧ toolName = "close_discussion" then
      repoFields safeOutputs.CloseDiscussions
    else if safeOutputs.UpdateDiscussions.isSome ∧ toolName = "update_discussion" then
      repoFields safeOutputs.UpdateDiscussions
    else (false, "")
  else if toolName = "close_pull_request" ∨ toolName = "update_pull_request" then
    if safeOutputs.ClosePullRequests.isSome ∧ toolName = "close_pull_request" then
      repoFields safeOutputs.ClosePullRequests
    else if safeOutputs.UpdatePullRequests.isSome ∧ toolName = "update_pull_request" then
      repoFields safeOutputs.UpdatePullRequests
    else (false, "")
  else if toolName = "add_labels" then repoFields safeOutputs.AddLabels
  else if toolName = "remove_labels" then repoFields safeOutputs.RemoveLabels
  else if toolName = "hide_comment" then repoFields safeOutputs.HideComment
  else if toolName = "link_sub_issue" then repoFields safeOutputs.LinkSubIssue
  else if toolName = "mark_pull_request_as_ready_for_review" then
    repoFields safeOutputs.MarkPullRequestAsReadyForReview
  else if toolName = "add_reviewer" then repoFields safeOutputs.AddReviewer
  else if toolName = "assign_milestone" then repoFields safeOutputs.AssignMilestone
  else if toolName = "assign_to_agent" then repoFields safeOutputs.AssignToAgent
  else if toolName = "assign_to_user" then repoFields safeOutputs.AssignToUser
  else (false, "")

/-- Go `strconv.IsPrint`.  The test of the runes up to U+00FF is the fast path of the
library: space to `~`, and U+00A1 to U+00FF without the soft hyphen U+00AD.  The runes above
U+00FF are decided by the tables `isPrint16`, `isNotPrint16`, `isPrint32` and `isNotPrint32`
of the Go release, which are not part of the sources and are passed in as `wide`. -/
def IsPrint (wide : Char → Bool) (c : Char) : Bool :=
  if c.toNat ≤ 255 then
    if 32 ≤ c.toNat ∧ c.toNat ≤ 126 then true
    else if 161 ≤ c.toNat ∧ c.toNat ≤ 255 then c.toNat != 173
    else false
  else wide c

/-- Escape of one rune by the verb `%q` of `fmt` (`strconv.Quote`, function
`appendEscapedRune` with the quote `"`): the quote and the backslash are backslashed, a
printable rune is kept, and every other rune is written as its named escape, as `\x` with two
digits below space and at U+007F, as `\u` with four digits below U+10000 and as `\U` with
eight digits above.  A string of the embedding is a sequence of valid runes, so the escapes
of invalid UTF-8 do not arise. -/
def goQuoteChar (wide : Char → Bool) (c : Char) : List Char :=
  if c.toNat = 34 then [Char.ofNat 92, Char.ofNat 34]
  else if c.toNat = 92 then [Char.ofNat 92, Char.ofNat 92]
  else if IsPrint wide c then [c]
  else if c.toNat = 7 then [Char.ofNat 92, 'a']
  else if c.toNat = 8 then [Char.ofNat 92, 'b']
  else if c.toNat = 12 then [Char.ofNat 92, 'f']
  else if c.toNat = 10 then [Char.ofNat 92, 'n']
  else if c.toNat = 13 then [Char.ofNat 92, 'r']
  else if c.toNat = 9 then [Char.ofNat 92, 't']
  else if c.toNat = 11 then [Char.ofNat 92, 'v']
  else if c.toNat < 32 ∨ c.toNat = 127 then
    [Char.ofNat 92, 'x', hexDigit (c.toNat / 16), hexDigit (c.toNat % 16)]
  else if c.toNat < 65536 then
    [Char.ofNat 92, 'u', hexDigit (c.toNat / 4096 % 16), hexDigit (c.toNat / 256 % 16),
     hexDigit (c.toNat / 16 % 16), hexDigit (c.toNat % 16)]
  else
    [Char.ofNat 92, 'U', hexDigit (c.toNat / 268435456 % 16),
     hexDigit (c.toNat / 16777216 % 16), hexDigit (c.toNat / 1048576 % 16),
     hexDigit (c.toNat / 65536 % 16), hexDigit (c.toNat / 4096 % 16),
     hexDigit (c.toNat / 256 % 16), hexDigit (c.toNat / 16 % 16), hexDigit (c.toNat % 16)]

/-- The verb `%q` applied to a string. -/
def goQuote (wide : Char → Bool) (s : String) : String :=
  String.mk (Char.ofNat 34 :: (s.data.flatMap (goQuoteChar wide) ++ [Char.ofNat 34]))

/-- The text `repoDescription` (lines 154-157); `wide` is the table of `strconv.IsPrint`
that `%q` consults. -/
def repoDescription (wide : Char → Bool) (targetRepoSlug : String) : String :=
  if targetRepoSlug != "" then
    "Target repository for this operation in \'owner/repo\' format. Default is " ++
      goQuote wide targetRepoSlug ++ ". Must be the target-repo or in the allowed-repos list."
  else
    "Target repository for this operation in \'owner/repo\' format. Must be the target-repo or in the allowed-repos list."

/-- The function `addRepoParameterIfNeeded`; the in-place write to the `properties` map of
the tool is returned as the updated tool.  The first argument is the table of
`strconv.IsPrint` that the verb `%q` of the description consults. -/
def addRepoParameterIfNeeded (wide : Char → Bool) (tool : JMap) (toolName : String)
    (safeOutputs : Option SafeOutputsConfig) : JMap :=
  match safeOutputs with
  | none => tool
  | some s =>
    let (hasAllowedRepos, targetRepoSlug) := repoSwitch toolName s
    if !hasAllowedRepos then tool
    else
      match asMap (getKey tool "inputSchema") with
      | none => tool
      | some inputSchema =>
        match asMap (getKey inputSchema "properties") with
        | none => tool
        | some properties =>
          let properties := setKey properties "repo"
            (JVal.obj [("type", JVal.str "string"),
              ("description", JVal.str (repoDescription wide targetRepoSlug))])
          setKey tool "inputSchema" (JVal.obj (setKey inputSchema "properties" (JVal.obj properties)))

/-! ## Tool catalog (`safe_outputs_tool_filter.go`, `safe_outputs_config_builder.go`) -/

/-- Result of `findWorkflowFile`, with the fields that the callers read. -/
structure WorkflowFileResult where
  lockExists : Bool := false
  lockPath : String := ""
  ymlExists : Bool := false
  ymlPath : String := ""

/-- The collaborators of the catalog generator that are not part of the sources: the parsed
static universe (`json.Unmarshal` of `GetSafeOutputsToolsJSON()`, `none` when parsing
fails), `enhanceToolDescription`, `stringutil.NormalizeSafeOutputIdentifier`,
`findWorkflowFile` and `extractWorkflowDispatchInputs` (`none` is their error result), and
the table of `strconv.IsPrint` for the runes above U+00FF. -/
structure Collaborators where
  isPrintWide : Char → Bool
  allTools : Option (List JMap)
  enhanceToolDescription : String → String → SafeOutputsConfig → String
  NormalizeSafeOutputIdentifier : String → String
  findWorkflowFile : String → String → Option WorkflowFileResult
  extractWorkflowDispatchInputs : String → Option JMap

/-- The body of the filter loop of `generateFilteredToolsJSON` for one enabled universe
tool (lines 50-65): shallow copy, enhanced description, repo parameter. -/
def enhanceTool (env : Collaborators) (safeOutputs : SafeOutputsConfig) (toolName : String)
    (tool : JMap) : JMap :=
  let enhancedTool := tool
  let enhancedTool :=
    match asString (getKey enhancedTool "description") with
    | some description =>
      setKey enhancedTool "description"
        (JVal.str (env.enhanceToolDescription toolName description safeOutputs))
    | none => enhancedTool
  addRepoParameterIfNeeded env.isPrintWide enhancedTool toolName (some safeOutputs)

/-- One iteration of the filter loop of `generateFilteredToolsJSON` (lines 44-67). -/
def filterStep (env : Collaborators) (safeOutputs : SafeOutputsConfig)
    (enabledTools : List String) (filteredTools : List JMap) (tool : JMap) : List JMap :=
  match asString (getKey tool "name") with
  | none => filteredTools
  | some toolName =>
    if enabledTools.contains toolName then
      filteredTools ++ [enhanceTool env safeOutputs toolName tool]
    else filteredTools

/-- The function `addCustomJobTools`: the list with the custom job tools appended. -/
def addCustomJobTools (env : Collaborators) (filteredTools : List JMap)
    (safeOutputs : SafeOutputsConfig) : List JMap :=
  if safeOutputs.Jobs.length = 0 then filteredTools
  else
    let jobNames := sortStrings (safeOutputs.Jobs.map Prod.fst)
    jobNames.foldl
      (fun acc jobName =>
        match getKey safeOutputs.Jobs jobName with
        | some jobConfig =>
          acc ++ [generateCustomJobToolDefinition (env.NormalizeSafeOutputIdentifier jobName)
            jobConfig]
        | none => acc)
      filteredTools

/-- One iteration of the loop of `addDispatchWorkflowTools` (lines 213-255): the state is
the tool list and the `WorkflowFiles` map. -/
def dispatchToolStep (env : Collaborators) (markdownPath : String)
    (st : List JMap × List (String × String)) (workflowName : String) :
    List JMap × List (String × String) :=
  match env.findWorkflowFile workflowName markdownPath with
  | none =>
    (st.1 ++ [generateDispatchWorkflowTool env.NormalizeSafeOutputIdentifier workflowName []],
     st.2)
  | some fileResult =>
    if fileResult.lockExists then
      let workflowInputs :=
        match env.extractWorkflowDispatchInputs fileResult.lockPath with
        | some inputs => inputs
        | none => []
      (st.1 ++ [generateDispatchWorkflowTool env.NormalizeSafeOutputIdentifier workflowName
         workflowInputs], setKey st.2 workflowName ".lock.yml")
    else if fileResult.ymlExists then
      let workflowInputs :=
        match env.extractWorkflowDispatchInputs fileResult.ymlPath with
        | some inputs => inputs
        | none => []
      (st.1 ++ [generateDispatchWorkflowTool env.NormalizeSafeOutputIdentifier workflowName
         workflowInputs], setKey st.2 workflowName ".yml")
    else
      (st.1 ++ [generateDispatchWorkflowTool env.NormalizeSafeOutputIdentifier workflowName []],
       st.2)

/-- The function `addDispatchWorkflowTools`: the list with the dispatch tools appended and
the aggregate with the updated `WorkflowFiles`. -/
def addDispatchWorkflowTools (env : Collaborators) (filteredTools : List JMap)
    (safeOutputs : SafeOutputsConfig) (markdownPath : String) :
    List JMap × SafeOutputsConfig :=
  match safeOutputs.DispatchWorkflow with
  | none => (filteredTools, safeOutputs)
  | some dispatch =>
    if dispatch.Workflows.length = 0 then (filteredTools, safeOutputs)
    else
      let st := dispatch.Workflows.foldl (dispatchToolStep env markdownPath)
        (filteredTools, dispatch.WorkflowFiles)
      (st.1, { safeOutputs with
        DispatchWorkflow := some { dispatch with WorkflowFiles := st.2 } })

/-- The slice `filteredTools` of `generateFilteredToolsJSON` when it is encoded (lines
39-77), for a parsed universe and a non-nil aggregate, and the aggregate as
`addDispatchWorkflowTools` leaves it. -/
def filteredToolsList (env : Collaborators) (allTools : List JMap)
    (safeOutputs : SafeOutputsConfig) (markdownPath : String) :
    List JMap × SafeOutputsConfig :=
  let enabledTools := buildEnabledToolsSet (some safeOutputs)
  let filteredTools := allTools.foldl (filterStep env safeOutputs enabledTools) []
  let filteredTools := addCustomJobTools env filteredTools safeOutputs
  addDispatchWorkflowTools env filteredTools safeOutputs markdownPath

/-- Indentation of `json.MarshalIndent` with prefix `""` and indent `"  "`. -/
def indentOf : Nat → String
  | 0 => ""
  | n + 1 => "  " ++ indentOf n

/-- Layout of the elements of a non-empty array or object by `json.Indent`. -/
def layout (depth : Nat) (opening closing : String) (items : List String) : String :=
  if items.isEmpty then opening ++ closing
  else
    opening ++ "\n" ++ indentOf (depth + 1) ++
      (",\n" ++ indentOf (depth + 1)).intercalate items ++ "\n" ++ indentOf depth ++ closing

mutual
/-- Model of `json.MarshalIndent(v, "", "  ")` at nesting depth `depth`. -/
def marshalIndent (depth : Nat) : JVal → Option String
  | JVal.null => some "null"
  | JVal.bool b => some (if b then "true" else "false")
  | JVal.num n => some (toString n)
  | JVal.str s => some (quoteString s)
  | JVal.arr xs => (marshalIndentList (depth + 1) xs).map (layout depth "[" "]")
  | JVal.obj kvs =>
    (marshalIndentFields (depth + 1) kvs).map (fun ps =>
      layout depth "\x7b" "\x7d" ((sortFields ps).map (fun p => quoteString p.1 ++ ": " ++ p.2)))
  | JVal.unsupported => none
/-- Indented encoding of the elements of a slice. -/
def marshalIndentList (depth : Nat) : List JVal → Option (List String)
  | [] => some []
  | x :: xs =>
    match marshalIndent depth x, marshalIndentList depth xs with
    | some s, some ss => some (s :: ss)
    | _, _ => none
/-- Indented encoding of the values of a map, each paired with its key. -/
def marshalIndentFields (depth : Nat) : List (String × JVal) → Option (List (String × String))
  | [] => some []
  | (k, v) :: rest =>
    match marshalIndent depth v, marshalIndentFields depth rest with
    | some s, some ss => some ((k, s) :: ss)
    | _, _ => none
end

/-- The function `generateFilteredToolsJSON`: the Go result pair `(string, error)`, with
`none` for the nil error, and the workflow data as the call leaves it.  The slice
`filteredTools` is declared without a value, so it is nil, and encoded as `null`, when no
tool was appended. -/
def generateFilteredToolsJSON (env : Collaborators) (data : WorkflowData)
    (markdownPath : String) : (String × Option String) × WorkflowData :=
  match data.SafeOutputs with
  | none => (("[]", none), data)
  | some safeOutputs =>
    match env.allTools with
    | none => (("", some "failed to parse safe outputs tools JSON"), data)
    | some allTools =>
      let r := filteredToolsList env allTools safeOutputs markdownPath
      let encoded :=
        if r.1.isEmpty then some "null" else marshalIndent 0 (JVal.arr (r.1.map JVal.obj))
      match encoded with
      | some filteredJSON => ((filteredJSON, none), { data with SafeOutputs := some r.2 })
      | none =>
        (("", some "failed to marshal filtered tools"), { data with SafeOutputs := some r.2 })

/-! ## Dispatch workflow files (`safe_outputs_dispatch_workflows.go`) -/

/-- One iteration of the loop of `populateDispatchWorkflowFiles` (lines 35-57): the state is
the `WorkflowFiles` map. -/
def populateStep (env : Collaborators) (markdownPath : String)
    (workflowFiles : List (String × String)) (workflowName : String) :
    List (String × String) :=
  match env.findWorkflowFile workflowName markdownPath with
  | none => workflowFiles
  | some fileResult =>
    if fileResult.lockExists then setKey workflowFiles workflowName ".lock.yml"
    else if fileResult.ymlExists then setKey workflowFiles workflowName ".yml"
    else workflowFiles

/-- The function `populateDispatchWorkflowFiles`: the workflow data with the updated
`WorkflowFiles`. -/
def populateDispatchWorkflowFiles (env : Collaborators) (data : WorkflowData)
    (markdownPath : String) : WorkflowData :=
  match data.SafeOutputs with
  | none => data
  | some safeOutputs =>
    match safeOutputs.DispatchWorkflow with
    | none => data
    | some dispatch =>
      if dispatch.Workflows.length = 0 then data
      else
        { data with SafeOutputs := some { safeOutputs with
            DispatchWorkflow := some { dispatch with
              WorkflowFiles :=
                dispatch.Workflows.foldl (populateStep env markdownPath)
                  dispatch.WorkflowFiles } } }

/-! ## Campaign project validation (`campaign_project_validation.go`) -/

/-- Go `unicode.IsSpace`. -/
def isSpace (c : Char) : Bool :=
  (9 ≤ c.toNat && c.toNat ≤ 13) || c.toNat = 32 || c.toNat = 133 || c.toNat = 160 ||
    c.toNat = 5760 || (8192 ≤ c.toNat && c.toNat ≤ 8202) || c.toNat = 8232 || c.toNat = 8233 ||
    c.toNat = 8239 || c.toNat = 8287 || c.toNat = 12288

/-- Go `strings.TrimSpace`. -/
def TrimSpace (s : String) : String :=
  String.mk ((s.data.dropWhile isSpace).reverse.dropWhile isSpace).reverse

/-- Go `strings.Contains` on character sequences. -/
def containsChars : List Char → List Char → Bool
  | [], sub => sub.isEmpty
  | c :: rest, sub => sub.isPrefixOf (c :: rest) || containsChars rest sub

/-- Go `strings.Contains`. -/
def Contains (s substr : String) : Bool := containsChars s.data substr.data

/-- Go `strings.HasPrefix`. -/
def HasPrefix (s pre : String) : Bool := pre.data.isPrefixOf s.data

/-- The constant `constants.AgenticCampaignLabel`; its declaration is not part of the
sources, the value is the one that the header and `detectCampaignWorkflow` name and that the
tests use. -/
def AgenticCampaignLabel : String := "agentic-campaign"

/-- The constant `constants.CampaignLabelPrefix`; as for `AgenticCampaignLabel`, the value is
the one named in the sources (`z_campaign_*`). -/
def CampaignLabelPrefix : String := "z_campaign_"

/-- The function `isCampaignLabel`. -/
def isCampaignLabel (label : String) : Bool :=
  if label = AgenticCampaignLabel then true
  else if HasPrefix label CampaignLabelPrefix then true
  else false

/-- The loops of `hasLabelsInConfig` over a list of labels (lines 164-168 and 174-178): some
element is a string that is a campaign label. -/
def anyCampaignLabel (labels : List JVal) : Bool :=
  labels.any (fun label =>
    match asString (some label) with
    | some labelStr => isCampaignLabel labelStr
    | none => false)

/-- The function `hasLabelsInConfig`. -/
def hasLabelsInConfig (safeOutputs : JMap) (configKey : String) : Bool :=
  match asMap (getKey safeOutputs configKey) with
  | none => false
  | some config =>
    let inAllowed :=
      if configKey = "add-labels" then
        match asArr (getKey config "allowed") with
        | some allowed => anyCampaignLabel allowed
        | none => false
      else false
    if inAllowed then true
    else
      match asArr (getKey config "labels") with
      | some labels => anyCampaignLabel labels
      | none => false

/-- The function `hasCampaignLabels`. -/
def hasCampaignLabels (frontmatter : JMap) : Bool :=
  match asMap (getKey frontmatter "safe-outputs") with
  | none => false
  | some safeOutputs =>
    ["add-labels", "create-issue", "create-pull-request", "create-discussion"].any
      (fun configKey => hasLabelsInConfig safeOutputs configKey)

/-- The test of one repo-memory configuration in `hasCampaignID` (lines 215-219 and
224-228): `campaign-id` exists, is not nil and is a string that is not blank. -/
def hasCampaignIDEntry (config : JMap) : Bool :=
  match getKey config "campaign-id" with
  | none => false
  | some campaignID =>
    if neNil campaignID then
      match asString (some campaignID) with
      | some idStr => TrimSpace idStr != ""
      | none => false
    else false

/-- The function `hasCampaignID`. -/
def hasCampaignID (frontmatter : JMap) : Bool :=
  match asMap (getKey frontmatter "tools") with
  | none => false
  | some tools =>
    match getKey tools "repo-memory" with
    | none => false
    | some (JVal.obj v) => hasCampaignIDEntry v
    | some (JVal.arr v) =>
      v.any (fun item =>
        match asMap (some item) with
        | some itemMap => hasCampaignIDEntry itemMap
        | none => false)
    | some _ => false

/-- The function `detectCampaignWorkflow`. -/
def detectCampaignWorkflow (frontmatter : JMap) : Bool × String :=
  if hasCampaignLabels frontmatter then
    (true, "campaign labels in safe-outputs (agentic-campaign or z_campaign_*)")
  else if hasCampaignID frontmatter then (true, "campaign-id in repo-memory configuration")
  else (false, "")

/-- The function `hasProjectURLInMarkdown`. -/
def hasProjectURLInMarkdown (markdownContent : String) : Bool :=
  if Contains markdownContent "https://github.com/orgs/" &&
      Contains markdownContent "/projects/" then true
  else if Contains markdownContent "https://github.com/users/" &&
      Contains markdownContent "/projects/" then true
  else false

/-- The function `validateCampaignProject`: `none` is the nil error, `some` carries the
message of the error. -/
def validateCampaignProject (frontmatter : JMap) (markdownContent : String) : Option String :=
  let (isCampaignWorkflow, campaignSource) := detectCampaignWorkflow frontmatter
  if !isCampaignWorkflow then none
  else
    let fallback : Option String :=
      if hasProjectURLInMarkdown markdownContent then none
      else
        some ("campaign orchestrator requires a GitHub Project URL to track work items. Please add a \'project\' field to the frontmatter with a valid GitHub Project URL (e.g., project: https://github.com/orgs/myorg/projects/123), or include a project URL in the markdown body. Campaign detected via: "
          ++ campaignSource)
    match getKey frontmatter "project" with
    | none => fallback
    | some projectData =>
      if neNil projectData then
        match projectData with
        | JVal.str v =>
          if TrimSpace v == "" then
            some ("campaign orchestrator requires a non-empty GitHub Project URL. Campaign detected via: "
              ++ campaignSource)
          else none
        | JVal.obj v =>
          match getKey v "url" with
          | none =>
            some ("campaign orchestrator project configuration must include a \'url\' field with a valid GitHub Project URL. Campaign detected via: "
              ++ campaignSource)
          | some url =>
            if !neNil url then
              some ("campaign orchestrator project configuration must include a \'url\' field with a valid GitHub Project URL. Campaign detected via: "
                ++ campaignSource)
            else
              match asString (some url) with
              | some urlStr =>
                if TrimSpace urlStr == "" then
                  some ("campaign orchestrator project URL must be a non-empty string. Campaign detected via: "
                    ++ campaignSource)
                else none
              | none =>
                some ("campaign orchestrator project URL must be a non-empty string. Campaign detected via: "
                  ++ campaignSource)
        | _ =>
          some ("campaign orchestrator \'project\' field must be a string URL or configuration object. Campaign detected via: "
            ++ campaignSource)
      else fallback

/-! ## Vocabulary of the properties -/

/-- The policy field that the handler of a registry kind tests against nil. -/
def governingPolicy (kind : String) (s : SafeOutputsConfig) : Option OutputPolicy :=
  if kind = "create_issue" then s.CreateIssues
  else if kind = "create_agent_session" then s.CreateAgentSessions
  else if kind = "add_comment" then s.AddComments
  else if kind = "create_discussion" then s.CreateDiscussions
  else if kind = "close_discussion" then s.CloseDiscussions
  else if kind = "close_issue" then s.CloseIssues
  else if kind = "create_pull_request" then s.CreatePullRequests
  else if kind = "create_pull_request_review_comment" then s.CreatePullRequestReviewComments
  else if kind = "create_code_scanning_alert" then s.CreateCodeScanningAlerts
  else if kind = "autofix_code_scanning_alert" then s.AutofixCodeScanningAlert
  else if kind = "add_labels" then s.AddLabels
  else if kind = "remove_labels" then s.RemoveLabels
  else if kind = "add_reviewer" then s.AddReviewer
  else if kind = "assign_milestone" then s.AssignMilestone
  else if kind = "assign_to_agent" then s.AssignToAgent
  else if kind = "assign_to_user" then s.AssignToUser
  else if kind = "update_issue" then s.UpdateIssues
  else if kind = "update_discussion" then s.UpdateDiscussions
  else if kind = "update_pull_request" then s.UpdatePullRequests
  else if kind = "mark_pull_request_as_ready_for_review" then s.MarkPullRequestAsReadyForReview
  else if kind = "push_to_pull_request_branch" then s.PushToPullRequestBranch
  else if kind = "upload_asset" then s.UploadAssets
  else if kind = "missing_tool" then s.MissingTool
  else if kind = "missing_data" then s.MissingData
  else if kind = "update_project" then s.UpdateProjects
  else if kind = "create_project_status_update" then s.CreateProjectStatusUpdates
  else if kind = "create_project" then s.CreateProjects
  else if kind = "update_release" then s.UpdateRelease
  else if kind = "link_sub_issue" then s.LinkSubIssue
  else if kind = "noop" then s.NoOp
  else if kind = "hide_comment" then s.HideComment
  else if kind = "create_missing_tool_issue" then s.MissingTool
  else if kind = "create_missing_data_issue" then s.MissingData
  else none

/-- The two shadow kinds. -/
def isShadowKind (kind : String) : Bool :=
  kind == "create_missing_tool_issue" || kind == "create_missing_data_issue"

/-- The names of the registry kinds. -/
def registryKinds : List String := toolRegistry.map Prod.fst

/-- The default cap that the handler of a kind passes to its `generateMax...` helper (the
literal second argument in `safe_outputs_tool_registry.go`); `none` for the kinds whose
handler passes no default. -/
def defaultCap (kind : String) : Option Int :=
  if kind = "create_issue" then some 1
  else if kind = "create_agent_session" then some 1
  else if kind = "add_comment" then some 1
  else if kind = "create_discussion" then some 1
  else if kind = "close_discussion" then some 1
  else if kind = "close_issue" then some 1
  else if kind = "create_pull_request_review_comment" then some 10
  else if kind = "create_code_scanning_alert" then some 0
  else if kind = "autofix_code_scanning_alert" then some 10
  else if kind = "add_labels" then some 3
  else if kind = "remove_labels" then some 3
  else if kind = "add_reviewer" then some 3
  else if kind = "assign_milestone" then some 1
  else if kind = "assign_to_user" then some 1
  else if kind = "update_issue" then some 1
  else if kind = "update_discussion" then some 1
  else if kind = "update_pull_request" then some 1
  else if kind = "mark_pull_request_as_ready_for_review" then some 10
  else if kind = "push_to_pull_request_branch" then some 0
  else if kind = "upload_asset" then some 0
  else if kind = "update_project" then some 10
  else if kind = "create_project_status_update" then some 10
  else if kind = "create_project" then some 1
  else if kind = "update_release" then some 1
  else if kind = "link_sub_issue" then some 5
  else if kind = "noop" then some 1
  else if kind = "hide_comment" then some 5
  else none

/-- The name of a catalog entry: `tool["name"].(string)`. -/
def toolName (tool : JMap) : Option String := asString (getKey tool "name")

mutual
/-- A value that `encoding/json` can encode: no unsupported value occurs in it. -/
def encodable : JVal → Bool
  | JVal.unsupported => false
  | JVal.arr xs => encodableList xs
  | JVal.obj kvs => encodableFields kvs
  | _ => true
/-- Every element of a slice is encodable. -/
def encodableList : List JVal → Bool
  | [] => true
  | x :: xs => encodable x && encodableList xs
/-- Every value of a map is encodable. -/
def encodableFields : List (String × JVal) → Bool
  | [] => true
  | (_, v) :: rest => encodable v && encodableFields rest
end

/-- Every declared default of every custom job input is encodable. -/
def defaultsEncodable (s : SafeOutputsConfig) : Prop :=
  ∀ job ∈ s.Jobs, ∀ input ∈ job.2.Inputs, encodable input.2.Default = true

/-- The configuration of a shadow kind as the claim describes it: `max` = 1, `title_prefix`
exactly when the prefix is non-empty, `labels` exactly when the list is non-empty. -/
def shadowConfig (p : OutputPolicy) : JMap :=
  [("max", JVal.num 1)] ++
    (if p.TitlePrefix = "" then [] else [("title_prefix", JVal.str p.TitlePrefix)]) ++
    (if p.Labels = [] then [] else [("labels", strList p.Labels)])

/-- No field of a mentions policy is set. -/
def mentionsUnset (m : MentionsConfig) : Prop :=
  m.Enabled = none ∧ m.AllowTeamMembers = none ∧ m.AllowContext = none ∧ m.Allowed = [] ∧
    m.Max = none

/-- A static universe with the descriptors of four kinds, used to evaluate the catalog
generator on concrete inputs. -/
def sampleUniverse : List JMap :=
  [[("name", JVal.str "create_issue"), ("description", JVal.str "Create an issue"),
    ("inputSchema", JVal.obj [("type", JVal.str "object"), ("properties", JVal.obj [])])],
   [("name", JVal.str "missing_tool"), ("description", JVal.str "Report a missing tool"),
    ("inputSchema", JVal.obj [("type", JVal.str "object"), ("properties", JVal.obj [])])],
   [("name", JVal.str "create_missing_tool_issue"),
    ("description", JVal.str "Create an issue for a missing tool"),
    ("inputSchema", JVal.obj [("type", JVal.str "object"), ("properties", JVal.obj [])])],
   [("name", JVal.str "create_missing_data_issue"),
    ("description", JVal.str "Create an issue for missing data"),
    ("inputSchema", JVal.obj [("type", JVal.str "object"), ("properties", JVal.obj [])])]]

/-- A table of `strconv.IsPrint` in which no rune above U+00FF is printable, used to evaluate
on concrete inputs; the sample inputs are ASCII, for which the table is not consulted. -/
def sampleWide : Char → Bool := fun _ => false

/-- An instance of the collaborators, used to evaluate the catalog generator on concrete
inputs: the sample universe, descriptions left as they are, dashes normalised to
underscores, no sibling workflow file found, and the sample table of printable runes. -/
def sampleCollaborators : Collaborators :=
  { isPrintWide := sampleWide
    allTools := some sampleUniverse
    enhanceToolDescription := fun _ description _ => description
    NormalizeSafeOutputIdentifier := fun name =>
      String.mk (name.data.map (fun c => if c = '-' then '_' else c))
    findWorkflowFile := fun _ _ => none
    extractWorkflowDispatchInputs := fun _ => none }

/-- The names of the inputs of a custom job whose `Required` flag is true, in iteration
order. -/
def requiredInputs (job : SafeJobConfig) : List String :=
  (job.Inputs.filter (fun e => e.2.Required)).map Prod.fst

/-- The `inputSchema` of a tool, as a map. -/
def inputSchemaOf (tool : JMap) : JMap := (asMap (getKey tool "inputSchema")).getD []

/-- The `properties` of the `inputSchema` of a tool, as a map. -/
def propertiesOf (tool : JMap) : JMap :=
  (asMap (getKey (inputSchemaOf tool) "properties")).getD []

/-- The rule table of section 4.4 for the schema type of a declared input type. -/
def schemaType (declared : String) : String :=
  if declared = "boolean" then "boolean"
  else if declared = "number" then "number"
  else "string"

/-- The declared type of a workflow input: `inputDefMap["type"].(string)`, with the empty
string when the key is missing or not a string. -/
def declaredType (inputDefMap : JMap) : String :=
  (asString (getKey inputDefMap "type")).getD ""

/-- The declared options of a workflow input: `inputDefMap["options"].([]any)`, empty when
the key is missing or not a list. -/
def declaredOptions (inputDefMap : JMap) : List JVal :=
  (asArr (getKey inputDefMap "options")).getD []

/-- The files map that a workflow data holds, empty without a dispatch policy. -/
def workflowFilesOf (data : WorkflowData) : List (String × String) :=
  match data.SafeOutputs with
  | some s =>
    match s.DispatchWorkflow with
    | some d => d.WorkflowFiles
    | none => []
  | none => []

/-- The policy that the `switch` of `addRepoParameterIfNeeded` associates with a tool
name. -/
def repoPolicy (toolName : String) (s : SafeOutputsConfig) : Option OutputPolicy :=
  if toolName = "create_issue" then s.CreateIssues
  else if toolName = "create_discussion" then s.CreateDiscussions
  else if toolName = "add_comment" then s.AddComments
  else if toolName = "create_pull_request" then s.CreatePullRequests
  else if toolName = "create_pull_request_review_comment" then s.CreatePullRequestReviewComments
  else if toolName = "create_agent_session" then s.CreateAgentSessions
  else if toolName = "close_issue" then s.CloseIssues
  else if toolName = "update_issue" then s.UpdateIssues
  else if toolName = "close_discussion" then s.CloseDiscussions
  else if toolName = "update_discussion" then s.UpdateDiscussions
  else if toolName = "close_pull_request" then s.ClosePullRequests
  else if toolName = "update_pull_request" then s.UpdatePullRequests
  else if toolName = "add_labels" then s.AddLabels
  else if toolName = "remove_labels" then s.RemoveLabels
  else if toolName = "hide_comment" then s.HideComment
  else if toolName = "link_sub_issue" then s.LinkSubIssue
  else if toolName = "mark_pull_request_as_ready_for_review" then
    s.MarkPullRequestAsReadyForReview
  else if toolName = "add_reviewer" then s.AddReviewer
  else if toolName = "assign_milestone" then s.AssignMilestone
  else if toolName = "assign_to_agent" then s.AssignToAgent
  else if toolName = "assign_to_user" then s.AssignToUser
  else none

/-- The property that `addRepoParameterIfNeeded` injects for a target slug. -/
def repoProperty (wide : Char → Bool) (targetRepoSlug : String) : JVal :=
  JVal.obj [("type", JVal.str "string"),
    ("description", JVal.str (repoDescription wide targetRepoSlug))]

/-- A rune that the verb `%q` writes as it is: printable, and neither the double quote nor
the backslash. -/
def plainChar (wide : Char → Bool) (c : Char) : Bool :=
  !(c.toNat = 34 || c.toNat = 92) && IsPrint wide c

/-- The `properties` map that `generateCustomJobToolDefinition` builds: one write per input,
in iteration order. -/
def customJobProperties (job : SafeJobConfig) : JMap :=
  job.Inputs.foldl (fun acc e => setKey acc e.1 (JVal.obj (customJobProperty e.2))) []

/-- The description of the property of a workflow input (lines 133-138): the declared
description when it is a non-empty string, otherwise the generated sentence. -/
def dispatchDescription (workflowName name : String) (inputDefMap : JMap) : String :=
  match asString (getKey inputDefMap "description") with
  | some desc =>
    if desc != "" then desc
    else "Input parameter \'" ++ name ++ "\' for workflow " ++ workflowName
  | none => "Input parameter \'" ++ name ++ "\' for workflow " ++ workflowName

/-- The `required` flag of a workflow input (lines 140-142). -/
def dispatchRequired (inputDefMap : JMap) : Bool :=
  (asBool (getKey inputDefMap "required")).getD false

/-- The property that `generateDispatchWorkflowTool` writes for a workflow input whose
definition is a map, in closed form: the `enum` form for a choice with options, otherwise
type and description with the declared default. -/
def dispatchProperty (workflowName name : String) (inputDefMap : JMap) : JMap :=
  if declaredType inputDefMap = "choice" ∧ (declaredOptions inputDefMap).length > 0 then
    [("type", JVal.str "string"),
     ("description", JVal.str (dispatchDescription workflowName name inputDefMap)),
     ("enum", JVal.arr (declaredOptions inputDefMap))]
  else
    match getKey inputDefMap "default" with
    | some defaultVal =>
      [("type", JVal.str (schemaType (declaredType inputDefMap))),
       ("description", JVal.str (dispatchDescription workflowName name inputDefMap)),
       ("default", defaultVal)]
    | none =>
      [("type", JVal.str (schemaType (declaredType inputDefMap))),
       ("description", JVal.str (dispatchDescription workflowName name inputDefMap))]

/-- The names that `generateDispatchWorkflowTool` appends to `required`: the inputs whose
definition is a map with the `required` flag, in iteration order. -/
def dispatchRequiredInputs (workflowInputs : JMap) : List String :=
  workflowInputs.filterMap (fun e =>
    match asMap (some e.2) with
    | some m => if dispatchRequired m then some e.1 else none
    | none => none)

/-- The `properties` map that `generateDispatchWorkflowTool` builds. -/
def dispatchProperties (workflowName : String) (workflowInputs : JMap) : JMap :=
  (workflowInputs.foldl (dispatchInputStep workflowName) ([], [])).1

/-- A universe descriptor with one declared property, used to evaluate
`addRepoParameterIfNeeded` on concrete inputs. -/
def sampleTool : JMap :=
  [("name", JVal.str "create_issue"), ("description", JVal.str "Create an issue"),
   ("inputSchema", JVal.obj [("type", JVal.str "object"),
     ("properties", JVal.obj [("title", JVal.obj [("type", JVal.str "string")])])])]

/-- The extension that the precedence rule resolves for a workflow from the locator result:
the lock artifact first, then the raw artifact, `none` when neither exists or the lookup
fails. -/
def resolvedExtension (env : Collaborators) (markdownPath workflowName : String) :
    Option String :=
  match env.findWorkflowFile workflowName markdownPath with
  | none => none
  | some fileResult =>
    if fileResult.lockExists then some ".lock.yml"
    else if fileResult.ymlExists then some ".yml"
    else none

/-- An instance of the collaborators whose locator finds both artifacts of `both`, only the
raw artifact of `raw`, no artifact of `source`, and fails on every other identifier. -/
def sampleLocator : Collaborators :=
  { sampleCollaborators with
    findWorkflowFile := fun workflowName _ =>
      if workflowName = "both" then
        some { lockExists := true, lockPath := "both.lock.yml", ymlExists := true,
               ymlPath := "both.yml" }
      else if workflowName = "raw" then some { ymlExists := true, ymlPath := "raw.yml" }
      else if workflowName = "source" then some {}
      else none }

/-- The tool names that the `switch` of `addRepoParameterIfNeeded` handles. -/
def repoToolNames : List String :=
  ["create_issue", "create_discussion", "add_comment", "create_pull_request",
   "create_pull_request_review_comment", "create_agent_session", "close_issue", "update_issue",
   "close_discussion", "update_discussion", "close_pull_request", "update_pull_request",
   "add_labels", "remove_labels", "hide_comment", "link_sub_issue",
   "mark_pull_request_as_ready_for_review", "add_reviewer", "assign_milestone",
   "assign_to_agent", "assign_to_user"]

/-- A frontmatter `project` value that the claim calls valid: a string that is non-blank
after trimming, or a map whose `url` is a non-blank string. -/
def validProjectValue : JVal → Bool
  | JVal.str v => TrimSpace v != ""
  | JVal.obj v =>
    match getKey v "url" with
    | some (JVal.str url) => TrimSpace url != ""
    | _ => false
  | _ => false

/-- A frontmatter that `detectCampaignWorkflow` classifies as a campaign through the
`campaign-id` of its repo-memory tool. -/
def sampleCampaign (project : Option JVal) : JMap :=
  [("tools", JVal.obj [("repo-memory", JVal.obj [("campaign-id", JVal.str "burndown")])])] ++
    (match project with
     | some v => [("project", v)]
     | none => [])

/-- The inputs that `addDispatchWorkflowTools` passes to `generateDispatchWorkflowTool` for
a workflow: the extracted inputs of the resolved artifact, and the empty map when the lookup
fails, when neither artifact exists, or when the extraction fails. -/
def dispatchInputsOf (env : Collaborators) (markdownPath workflowName : String) : JMap :=
  match env.findWorkflowFile workflowName markdownPath with
  | none => []
  | some fileResult =>
    if fileResult.lockExists then
      (env.extractWorkflowDispatchInputs fileResult.lockPath).getD []
    else if fileResult.ymlExists then
      (env.extractWorkflowDispatchInputs fileResult.ymlPath).getD []
    else []

/-- The tool that `addDispatchWorkflowTools` appends for a workflow. -/
def dispatchToolOf (env : Collaborators) (markdownPath workflowName : String) : JMap :=
  generateDispatchWorkflowTool env.NormalizeSafeOutputIdentifier workflowName
    (dispatchInputsOf env markdownPath workflowName)

/-- The dispatch tools of an aggregate, one per configured workflow in list order. -/
def dispatchToolsOf (env : Collaborators) (s : SafeOutputsConfig) (markdownPath : String) :
    List JMap :=
  match s.DispatchWorkflow with
  | some d => d.Workflows.map (dispatchToolOf env markdownPath)
  | none => []

/-- A workflow whose lookup fails, whose artifacts are both missing, or whose input
extraction fails. -/
def dispatchResolutionFails (env : Collaborators) (markdownPath workflowName : String) : Prop :=
  env.findWorkflowFile workflowName markdownPath = none ∨
  (∃ r, env.findWorkflowFile workflowName markdownPath = some r ∧ r.lockExists = false ∧
    r.ymlExists = false) ∨
  (∃ r, env.findWorkflowFile workflowName markdownPath = some r ∧ r.lockExists = true ∧
    env.extractWorkflowDispatchInputs r.lockPath = none) ∨
  (∃ r, env.findWorkflowFile workflowName markdownPath = some r ∧ r.lockExists = false ∧
    r.ymlExists = true ∧ env.extractWorkflowDispatchInputs r.ymlPath = none)

/-- The custom job tools of a `Jobs` map: for each job name in the order of `sort.Strings`,
the tool of the job of that name. -/
def customJobToolsOf (env : Collaborators) (jobs : List (String × SafeJobConfig)) :
    List JMap :=
  (sortStrings (jobs.map Prod.fst)).filterMap (fun jobName =>
    (getKey jobs jobName).map (fun jobConfig =>
      generateCustomJobToolDefinition (env.NormalizeSafeOutputIdentifier jobName) jobConfig))

/-- The jobs of a `Jobs` map in the order of `sort.Strings` of their names. -/
def sortedJobs (jobs : List (String × SafeJobConfig)) : List (String × SafeJobConfig) :=
  (sortStrings (jobs.map Prod.fst)).filterMap (fun jobName =>
    (getKey jobs jobName).map (fun jobConfig => (jobName, jobConfig)))

/-- The enhanced copies of the universe descriptors whose name is enabled, in universe
order. -/
def enabledUniverseTools (env : Collaborators) (s : SafeOutputsConfig)
    (allTools : List JMap) : List JMap :=
  allTools.filterMap (fun tool =>
    match toolName tool with
    | some name =>
      if (buildEnabledToolsSet (some s)).contains name then some (enhanceTool env s name tool)
      else none
    | none => none)

/-- The encoding step of `generateFilteredToolsJSON` (lines 81-88) on a tool list. -/
def encodeCatalog (tools : List JMap) : String × Option String :=
  match (if tools.isEmpty then some "null"
    else marshalIndent 0 (JVal.arr (tools.map JVal.obj))) with
  | some filteredJSON => (filteredJSON, none)
  | none => ("", some "failed to marshal filtered tools")

/-- The map that `generateSafeOutputsConfig` assembles when the registry is iterated in the
order `registry`. -/
def safeOutputsConfigMapIn (registry : List (String × SafeOutputToolHandler))
    (s : SafeOutputsConfig) : JMap :=
  addDispatchConfig s
    (addMentionsConfig s (addJobsConfig s (registry.foldl (registryStep s) [])))

/-- The function `generateSafeOutputsConfig` with the registry iterated in the order
`registry`. -/
def generateSafeOutputsConfigIn (registry : List (String × SafeOutputToolHandler))
    (data : WorkflowData) : String :=
  match data.SafeOutputs with
  | none => ""
  | some safeOutputs =>
    match marshal (JVal.obj (safeOutputsConfigMapIn registry safeOutputs)) with
    | some configJSON => configJSON
    | none => ""

/-- The same custom job with its `Inputs` map iterated in another order. -/
def sameJobUpToOrder (j j' : SafeJobConfig) : Prop :=
  j'.Description = j.Description ∧ j'.Output = j.Output ∧ j'.Inputs.Perm j.Inputs

/-- The same `Jobs` map iterated in another order, every job with its `Inputs` map iterated
in another order. -/
def sameJobsUpToOrder (jobs jobs' : List (String × SafeJobConfig)) : Prop :=
  ∃ l, jobs.Perm l ∧
    List.Forall₂ (fun a b => a.1 = b.1 ∧ sameJobUpToOrder a.2 b.2) l jobs'

/-- Two maps whose values have the same encoding under every key. -/
def sameEncodings (m₁ m₂ : JMap) : Prop :=
  ∀ k, (getKey m₁ k).map marshal = (getKey m₂ k).map marshal

/-- An aggregate with an issue policy and two custom jobs, the job `deploy` with two inputs. -/
def sampleOrdered : SafeOutputsConfig :=
  { CreateIssues := some {},
    Jobs :=
      [("deploy",
        { Description := "Deploy",
          Inputs := [("env", { Type_ := "string" }), ("dry", { Type_ := "boolean" })] }),
       ("audit", { Output := "done" })] }

/-- The `Jobs` map of `sampleOrdered` iterated in another order, the inputs of `deploy`
iterated in another order. -/
def sampleReorderedJobs : List (String × SafeJobConfig) :=
  [("audit", { Output := "done" }),
   ("deploy",
    { Description := "Deploy",
      Inputs := [("dry", { Type_ := "boolean" }), ("env", { Type_ := "string" })] })]

/-- The rest of `cs` after the leading characters `pre`; `none` when `cs` does not start with
`pre`. -/
def afterLeading : List Char → List Char → Option (List Char)
  | [], cs => some cs
  | _ :: _, [] => none
  | p :: pre, c :: cs => if p = c then afterLeading pre cs else none

/-- A character of the owner segment of a URL: neither `/` nor white space. -/
def ownerChar (c : Char) : Bool := c != '/' && !isSpace c

/-- A URL of the form `<base>{owner}/projects/{number}` starts at the head of `cs`: the base,
a non-empty owner segment, the segment `/projects/` and a digit. -/
def projectURLAt (base : String) (cs : List Char) : Bool :=
  match afterLeading base.data cs with
  | none => false
  | some rest =>
    !(rest.takeWhile ownerChar).isEmpty &&
      (match afterLeading "/projects/".data (rest.dropWhile ownerChar) with
       | some (d :: _) => d.isDigit
       | _ => false)

/-- The markdown contains a GitHub Project URL of the form
`https://github.com/orgs/{org}/projects/{number}` or
`https://github.com/users/{user}/projects/{number}`. -/
def containsProjectURL (markdownContent : String) : Bool :=
  markdownContent.data.tails.any (fun cs =>
    projectURLAt "https://github.com/orgs/" cs || projectURLAt "https://github.com/users/" cs)

/-- A repo-memory configuration whose `campaign-id` is a string that is not blank after
trimming. -/
def hasValidCampaignID (config : JMap) : Prop :=
  ∃ idStr, getKey config "campaign-id" = some (JVal.str idStr) ∧ TrimSpace idStr ≠ ""

/-- The workflow identifiers that an aggregate configures for dispatch. -/
def configuredWorkflows (s : SafeOutputsConfig) : List String :=
  match s.DispatchWorkflow with
  | some d => d.Workflows
  | none => []

/-- The `required` list of the `inputSchema` of a tool, empty when the key is missing. -/
def requiredOf (tool : JMap) : List JVal :=
  (asArr (getKey (inputSchemaOf tool) "required")).getD []

/-- An aggregate whose only policy is `ClosePullRequests`, with one allowed repository. -/
def sampleClosePullRequests : SafeOutputsConfig :=
  { ClosePullRequests := some { AllowedRepos := ["octo/infra"] } }

/-- The universe descriptor of the tool `close_pull_request`, used to evaluate the catalog
generator on concrete inputs. -/
def sampleClosePullRequestTool : JMap :=
  [("name", JVal.str "close_pull_request"), ("description", JVal.str "Close a pull request"),
   ("inputSchema", JVal.obj [("type", JVal.str "object"), ("properties", JVal.obj [])])]

/-- The names of the universe descriptors that `buildEnabledToolsSet` enables, in universe
order: the names of the first part of the catalog. -/
def enabledUniverseNames (s : SafeOutputsConfig) (allTools : List JMap) : List String :=
  (allTools.filterMap toolName).filter
    (fun name => (buildEnabledToolsSet (some s)).contains name)

/-! ## Lemmas on maps -/

theorem getKey_setKey_self {β : Type} (m : List (String × β)) (k : String) (v : β) :
    getKey (setKey m k v) k = some v := by
  induction m with
  | nil => simp [setKey, getKey]
  | cons e rest ih =>
    obtain ⟨k', v'⟩ := e
    by_cases h : k' = k
    · simp [setKey, getKey, h]
    · simp [setKey, getKey, h, ih]

theorem getKey_setKey_ne {β : Type} (m : List (String × β)) (k k' : String) (v : β)
    (h : k' ≠ k) : getKey (setKey m k v) k' = getKey m k' := by
  induction m with
  | nil => simp [setKey, getKey, Ne.symm h]
  | cons e rest ih =>
    obtain ⟨k₀, v₀⟩ := e
    by_cases h₀ : k₀ = k
    · subst h₀
      simp [setKey, getKey, Ne.symm h]
    · by_cases h₁ : k₀ = k'
      · subst h₁
        simp [setKey, getKey, h₀]
      · simp [setKey, getKey, h₀, h₁, ih]

theorem getKey_withList_ne (config : JMap) (key k : String) (xs : List String) (h : k ≠ key) :
    getKey (withList config key xs) k = getKey config k := by
  unfold withList
  split
  · exact getKey_setKey_ne _ _ _ _ h
  · rfl

theorem getKey_withString_ne (config : JMap) (key k x : String) (h : k ≠ key) :
    getKey (withString config key x) k = getKey config k := by
  unfold withString
  split
  · exact getKey_setKey_ne _ _ _ _ h
  · rfl

theorem getKey_ite_setKey_ne {β : Type} (c : Prop) [Decidable c] (m : List (String × β))
    (k k' : String) (v : β) (h : k' ≠ k) :
    getKey (if c then setKey m k v else m) k' = getKey m k' := by
  split
  · exact getKey_setKey_ne _ _ _ _ h
  · rfl

theorem getKey_ite_setKey_ne_right {β : Type} (c : Prop) [Decidable c] (m : List (String × β))
    (k k' : String) (v : β) (h : k' ≠ k) :
    getKey (if c then m else setKey m k v) k' = getKey m k' := by
  split
  · rfl
  · exact getKey_setKey_ne _ _ _ _ h

theorem getKey_generateMaxConfig (max defaultMax : Int) :
    getKey (generateMaxConfig max defaultMax) "max" =
      some (JVal.num (if max > 0 then max else defaultMax)) := by
  simp [generateMaxConfig, getKey]

/-! ## Lemmas on the registry -/

/-- A handler signals inclusion exactly when the policy it reads is present and, for the two
shadow kinds, the `CreateIssue` flag of that policy is set. -/
theorem handler_include_iff (s : SafeOutputsConfig) :
    ∀ e ∈ toolRegistry, ((e.2 s).2 = true ↔
      ∃ p, governingPolicy e.1 s = some p ∧ (isShadowKind e.1 = true → p.CreateIssue = true)) := by
  intro e he
  simp only [toolRegistry, List.mem_cons, List.mem_singleton, List.mem_nil_iff, or_false] at he
  rcases he with he | he | he | he | he | he | he | he | he | he | he | he | he | he | he | he | he | he | he | he | he | he | he | he | he | he | he | he | he | he | he | he | he <;>
  subst he
  all_goals simp only [governingPolicy, isShadowKind,
    handleCreateIssue, handleCreateAgentSession, handleAddComment,
    handleCreateDiscussion, handleCloseDiscussion, handleCloseIssue,
    handleCreatePullRequest, handleCreatePullRequestReviewComment, handleCreateCodeScanningAlert,
    handleAutofixCodeScanningAlert, handleAddLabels, handleRemoveLabels,
    handleAddReviewer, handleAssignMilestone, handleAssignToAgent,
    handleAssignToUser, handleUpdateIssue, handleUpdateDiscussion,
    handleUpdatePullRequest, handleMarkPullRequestAsReadyForReview, handlePushToPullRequestBranch,
    handleUploadAsset, handleMissingTool, handleMissingData,
    handleUpdateProject, handleCreateProjectStatusUpdate, handleCreateProject,
    handleUpdateRelease, handleLinkSubIssue, handleNoOp,
    handleHideComment, handleCreateMissingToolIssue, handleCreateMissingDataIssue]
  all_goals split <;> simp_all
  all_goals split <;> simp_all

theorem registryKinds_nodup : registryKinds.Nodup := by
  decide

theorem mem_foldl_enabledStep (s : SafeOutputsConfig) (l : List (String × SafeOutputToolHandler)) :
    ∀ (acc : List String) (k : String), k ∈ l.foldl (enabledStep s) acc ↔
      (k ∈ acc ∨ ∃ e ∈ l, e.1 = k ∧ (e.2 s).2 = true ∧ isShadowKind e.1 = false) := by
  induction l with
  | nil => intro acc k; simp
  | cons e rest ih =>
    intro acc k
    rw [List.foldl_cons, ih]
    have hstep : ∀ k, k ∈ enabledStep s acc e ↔
        (k ∈ acc ∨ (e.1 = k ∧ (e.2 s).2 = true ∧ isShadowKind e.1 = false)) := by
      intro k
      unfold enabledStep isShadowKind
      by_cases h1 : (e.2 s).2 = true
      · by_cases h2 : e.1 = "create_missing_tool_issue"
        · simp [h1, h2]
        · by_cases h3 : e.1 = "create_missing_data_issue"
          · simp [h1, h3]
          · by_cases h4 : e.1 ∈ acc
            · simp [h1, h2, h3, h4]
              intro hk
              exact hk ▸ h4
            · simp [h1, h2, h3, h4]
              constructor
              · rintro (h | h)
                · exact Or.inl h
                · exact Or.inr h.symm
              · rintro (h | h)
                · exact Or.inl h
                · exact Or.inr h.symm
      · simp [h1]
    rw [hstep]
    simp only [List.mem_cons, exists_eq_or_imp]
    tauto

/-! ## C2: the enabled-name set -/

/-- C2: for a non-nil aggregate `s`, a name `k` is in `buildEnabledToolsSet s` exactly when
`k` is a registry kind other than `create_missing_tool_issue` and
`create_missing_data_issue` and the policy field governing `k` is non-nil; for a nil
aggregate the set is empty. -/
theorem buildEnabledToolsSet_iff (s : SafeOutputsConfig) (k : String) :
    (k ∈ buildEnabledToolsSet (some s) ↔
      (k ∈ registryKinds ∧ k ≠ "create_missing_tool_issue" ∧ k ≠ "create_missing_data_issue" ∧
        (governingPolicy k s).isSome = true)) ∧
    buildEnabledToolsSet none = [] := by
  refine ⟨?_, rfl⟩
  unfold buildEnabledToolsSet
  rw [mem_foldl_enabledStep]
  constructor
  · rintro (h | ⟨e, he, rfl, hinc, hsh⟩)
    · simp at h
    · obtain ⟨p, hp, _⟩ := (handler_include_iff s e he).1 hinc
      refine ⟨List.mem_map_of_mem Prod.fst he, ?_, ?_, by simp [hp]⟩
      · intro h; simp [isShadowKind, h] at hsh
      · intro h; simp [isShadowKind, h] at hsh
  · rintro ⟨hk, h1, h2, hp⟩
    obtain ⟨e, he, rfl⟩ := List.mem_map.1 hk
    have hsh : isShadowKind e.1 = false := by simp [isShadowKind, h1, h2]
    obtain ⟨p, hp⟩ := Option.isSome_iff_exists.1 hp
    exact Or.inr ⟨e, he, rfl, (handler_include_iff s e he).2 ⟨p, hp, by simp [hsh]⟩, hsh⟩

/-! ## C4: shadow gating in the registry -/

/-- C4: `handleCreateMissingToolIssue` (resp. `handleCreateMissingDataIssue`) signals
inclusion if and only if `MissingTool` (resp. `MissingData`) is non-nil and its `CreateIssue`
flag is true, and when it does the config is `max` = 1, `title_prefix` exactly when the
prefix is non-empty, `labels` exactly when the list is non-empty, and nothing else. -/
theorem shadow_handlers_gating (s : SafeOutputsConfig) :
    (((handleCreateMissingToolIssue s).2 = true ↔
        ∃ p, s.MissingTool = some p ∧ p.CreateIssue = true) ∧
      (∀ p, s.MissingTool = some p → p.CreateIssue = true →
        (handleCreateMissingToolIssue s).1 = some (shadowConfig p))) ∧
    (((handleCreateMissingDataIssue s).2 = true ↔
        ∃ p, s.MissingData = some p ∧ p.CreateIssue = true) ∧
      (∀ p, s.MissingData = some p → p.CreateIssue = true →
        (handleCreateMissingDataIssue s).1 = some (shadowConfig p))) := by
  refine ⟨⟨?_, ?_⟩, ⟨?_, ?_⟩⟩
  · unfold handleCreateMissingToolIssue
    cases h : s.MissingTool with
    | none => simp
    | some p => cases hc : p.CreateIssue <;> simp [hc]
  · intro p hp hc
    unfold handleCreateMissingToolIssue shadowConfig
    by_cases h1 : p.TitlePrefix = "" <;> by_cases h2 : p.Labels = [] <;>
      simp [hp, hc, h1, h2, setKey, List.length_pos]
  · unfold handleCreateMissingDataIssue
    cases h : s.MissingData with
    | none => simp
    | some p => cases hc : p.CreateIssue <;> simp [hc]
  · intro p hp hc
    unfold handleCreateMissingDataIssue shadowConfig
    by_cases h1 : p.TitlePrefix = "" <;> by_cases h2 : p.Labels = [] <;>
      simp [hp, hc, h1, h2, setKey, List.length_pos]

/-- Witness for C4 on an aggregate whose `MissingTool` and `MissingData` policies set the
flag. -/
theorem shadow_handlers_gating_witness :
    (handleCreateMissingToolIssue
        { MissingTool := some { CreateIssue := true, TitlePrefix := "[gap]" },
          MissingData := some { CreateIssue := true, Labels := ["data"] } }).2 = true ∧
    (handleCreateMissingDataIssue
        { MissingTool := some { CreateIssue := true, TitlePrefix := "[gap]" },
          MissingData := some { CreateIssue := true, Labels := ["data"] } }).1 =
      some (shadowConfig { CreateIssue := true, Labels := ["data"] }) ∧
    shadowConfig { CreateIssue := true, Labels := ["data"] } =
      [("max", JVal.num 1), ("labels", strList ["data"])] :=
  ⟨((shadow_handlers_gating _).1.1).2 ⟨_, rfl, rfl⟩,
   (shadow_handlers_gating _).2.2 _ rfl rfl, rfl⟩

/-! ## C3: default caps -/

/-- C3, counterexample: with a `MissingTool` (resp. `MissingData`) policy that sets no cap,
`handleMissingTool` (resp. `handleMissingData`) signals inclusion and returns the empty
config, which has no `max`; and with a `MissingTool` policy whose `CreateIssue` flag is off
the handler of `create_missing_tool_issue` does not signal inclusion. -/
theorem missing_tool_no_default_cap :
    (handleMissingTool { MissingTool := some { Max := 0 } }).2 = true ∧
    (handleMissingTool { MissingTool := some { Max := 0 } }).1 = some [] ∧
    getKey ([] : JMap) "max" = none ∧
    (handleMissingData { MissingData := some { Max := 0 } }).1 = some [] ∧
    (handleCreateMissingToolIssue { MissingTool := some { Max := 0 } }).2 = false :=
  ⟨rfl, rfl, rfl, rfl, rfl⟩

/-- C3, amended: for a registry kind whose policy is present with `Max = 0`, the handler
signals inclusion unless the kind is a shadow kind; the config carries the default cap that
the handler passes to its helper under `max` (for the kinds that pass one); the config of
`missing_tool` and `missing_data` is empty; a shadow kind is included exactly when
`CreateIssue` is set and then carries `max` = 1. -/
theorem default_cap_when_present (s : SafeOutputsConfig) (e : String × SafeOutputToolHandler)
    (he : e ∈ toolRegistry) (p : OutputPolicy) (hp : governingPolicy e.1 s = some p)
    (hmax : p.Max = 0) :
    (isShadowKind e.1 = false → (e.2 s).2 = true) ∧
    (∀ d, defaultCap e.1 = some d →
      ∃ cfg, (e.2 s).1 = some cfg ∧ getKey cfg "max" = some (JVal.num d)) ∧
    ((e.1 = "missing_tool" ∨ e.1 = "missing_data") → (e.2 s).1 = some []) ∧
    (isShadowKind e.1 = true →
      (((e.2 s).2 = true ↔ p.CreateIssue = true) ∧
        (p.CreateIssue = true →
          ∃ cfg, (e.2 s).1 = some cfg ∧ getKey cfg "max" = some (JVal.num 1)))) := by
  simp only [toolRegistry, List.mem_cons, List.mem_singleton, List.mem_nil_iff, or_false] at he
  rcases he with he | he | he | he | he | he | he | he | he | he | he | he | he | he | he | he | he | he | he | he | he | he | he | he | he | he | he | he | he | he | he | he | he <;>
  subst he
  all_goals simp only [governingPolicy] at hp
  all_goals simp at hp
  all_goals simp [isShadowKind, defaultCap,
    handleCreateIssue, handleCreateAgentSession, handleAddComment,
    handleCreateDiscussion, handleCloseDiscussion, handleCloseIssue,
    handleCreatePullRequest, handleCreatePullRequestReviewComment, handleCreateCodeScanningAlert,
    handleAutofixCodeScanningAlert, handleAddLabels, handleRemoveLabels,
    handleAddReviewer, handleAssignMilestone, handleAssignToAgent,
    handleAssignToUser, handleUpdateIssue, handleUpdateDiscussion,
    handleUpdatePullRequest, handleMarkPullRequestAsReadyForReview, handlePushToPullRequestBranch,
    handleUploadAsset, handleMissingTool, handleMissingData,
    handleUpdateProject, handleCreateProjectStatusUpdate, handleCreateProject,
    handleUpdateRelease, handleLinkSubIssue, handleNoOp,
    handleHideComment, handleCreateMissingToolIssue, handleCreateMissingDataIssue,
    hp, hmax, generateMaxWithAllowedLabelsConfig, generateMaxWithTargetConfig,
    generateMaxWithAllowedConfig, generateMaxWithDiscussionFieldsConfig,
    generateMaxWithRequiredFieldsConfig, generateMaxWithReviewersConfig,
    generateHideCommentConfig, getKey_withList_ne, getKey_withString_ne,
    getKey_generateMaxConfig, getKey_setKey_ne, getKey_ite_setKey_ne, getKey_ite_setKey_ne_right,
    getKey_setKey_self]
  all_goals cases hc : p.CreateIssue <;>
    simp [getKey_setKey_ne, getKey_ite_setKey_ne, getKey_ite_setKey_ne_right, getKey_setKey_self]

/-! ## Lemmas on the configuration map -/

theorem getKey_foldl_setKey_ne {β γ : Type} (f : γ → β) (k : String) (l : List (String × γ)) :
    ∀ (acc : List (String × β)), (∀ e ∈ l, e.1 ≠ k) →
      getKey (l.foldl (fun acc e => setKey acc e.1 (f e.2)) acc) k = getKey acc k := by
  induction l with
  | nil => intro acc _; rfl
  | cons e rest ih =>
    intro acc h
    rw [List.foldl_cons, ih _ (fun e' he' => h e' (List.mem_cons_of_mem _ he'))]
    exact getKey_setKey_ne _ _ _ _ (Ne.symm (h e (List.mem_cons_self _ _)))

theorem isSome_getKey_setKey {β : Type} (m : List (String × β)) (k k' : String) (v : β)
    (h : (getKey m k').isSome = true) : (getKey (setKey m k v) k').isSome = true := by
  by_cases hk : k' = k
  · subst hk
    simp [getKey_setKey_self]
  · rw [getKey_setKey_ne _ _ _ _ hk]
    exact h

theorem isSome_getKey_foldl_setKey {β γ : Type} (f : γ → β) (k : String)
    (l : List (String × γ)) :
    ∀ (acc : List (String × β)), (getKey acc k).isSome = true →
      (getKey (l.foldl (fun acc e => setKey acc e.1 (f e.2)) acc) k).isSome = true := by
  induction l with
  | nil => intro acc h; exact h
  | cons e rest ih =>
    intro acc h
    rw [List.foldl_cons]
    exact ih _ (isSome_getKey_setKey _ _ _ _ h)

theorem getKey_foldl_registryStep_skip (s : SafeOutputsConfig) (k : String)
    (l : List (String × SafeOutputToolHandler)) :
    ∀ (acc : JMap), (∀ e ∈ l, e.1 = k → (e.2 s).2 = false) →
      getKey (l.foldl (registryStep s) acc) k = getKey acc k := by
  induction l with
  | nil => intro acc _; rfl
  | cons e rest ih =>
    intro acc h
    rw [List.foldl_cons, ih _ (fun e' he' => h e' (List.mem_cons_of_mem _ he'))]
    unfold registryStep
    by_cases hinc : (e.2 s).2 = true
    · have hk : k ≠ e.1 := fun hk => by
        have := h e (List.mem_cons_self _ _) hk.symm
        simp [hinc] at this
      simp [hinc, getKey_setKey_ne _ _ _ _ hk]
    · simp [hinc]

theorem getKey_foldl_registryStep_included (s : SafeOutputsConfig)
    (e : String × SafeOutputToolHandler) (l : List (String × SafeOutputToolHandler)) :
    ∀ (acc : JMap), (l.map Prod.fst).Nodup → e ∈ l → (e.2 s).2 = true →
      getKey (l.foldl (registryStep s) acc) e.1 = some (mapValue (e.2 s).1) := by
  induction l with
  | nil => intro acc _ he; simp at he
  | cons e' rest ih =>
    intro acc hnd he hinc
    rw [List.foldl_cons]
    rw [List.map_cons, List.nodup_cons] at hnd
    rcases List.mem_cons.1 he with rfl | hmem
    · rw [getKey_foldl_registryStep_skip]
      · simp [registryStep, hinc, getKey_setKey_self]
      · intro e' he' hk
        exact absurd (hk ▸ List.mem_map_of_mem Prod.fst he') hnd.1
    · exact ih _ hnd.2 hmem hinc

theorem getKey_addJobsConfig_ne (s : SafeOutputsConfig) (cfg : JMap) (k : String)
    (h : ∀ j ∈ s.Jobs, j.1 ≠ k) : getKey (addJobsConfig s cfg) k = getKey cfg k := by
  unfold addJobsConfig
  split
  · exact getKey_foldl_setKey_ne (fun j => JVal.obj (safeJobConfig j)) k s.Jobs cfg h
  · rfl

theorem isSome_getKey_addJobsConfig (s : SafeOutputsConfig) (cfg : JMap) (k : String)
    (h : (getKey cfg k).isSome = true) : (getKey (addJobsConfig s cfg) k).isSome = true := by
  unfold addJobsConfig
  split
  · exact isSome_getKey_foldl_setKey (fun j => JVal.obj (safeJobConfig j)) k s.Jobs cfg h
  · exact h

theorem getKey_addMentionsConfig_ne (s : SafeOutputsConfig) (cfg : JMap) (k : String)
    (h : k ≠ "mentions") : getKey (addMentionsConfig s cfg) k = getKey cfg k := by
  unfold addMentionsConfig
  split
  · split
    · exact getKey_setKey_ne _ _ _ _ h
    · rfl
  · rfl

theorem getKey_addDispatchConfig_ne (s : SafeOutputsConfig) (cfg : JMap) (k : String)
    (h : k ≠ "dispatch_workflow") : getKey (addDispatchConfig s cfg) k = getKey cfg k := by
  unfold addDispatchConfig
  split
  · split
    · exact getKey_setKey_ne _ _ _ _ h
    · rfl
  · rfl

theorem registryKinds_ne_blocks :
    ∀ k ∈ registryKinds, k ≠ "mentions" ∧ k ≠ "dispatch_workflow" := by
  decide

theorem registry_entry_ne_blocks (e : String × SafeOutputToolHandler) (he : e ∈ toolRegistry) :
    e.1 ≠ "mentions" ∧ e.1 ≠ "dispatch_workflow" :=
  registryKinds_ne_blocks e.1 (List.mem_map_of_mem Prod.fst he)

/-- The value of the assembled map at a registry kind that no custom job is named after is
the value that the registry loop wrote. -/
theorem getKey_configMap_kind (s : SafeOutputsConfig) (k : String) (hk : k ∈ registryKinds)
    (hjobs : ∀ j ∈ s.Jobs, j.1 ≠ k) :
    getKey (safeOutputsConfigMap s) k = getKey (registryConfig s) k := by
  obtain ⟨h1, h2⟩ := registryKinds_ne_blocks k hk
  unfold safeOutputsConfigMap
  rw [getKey_addDispatchConfig_ne _ _ _ h2, getKey_addMentionsConfig_ne _ _ _ h1,
    getKey_addJobsConfig_ne _ _ _ hjobs]

/-! ## C6: the registry block of the runtime configuration -/

/-- C6, counterexample: with a `CreateIssues` policy and a custom job named `create_issue`,
the handler signals inclusion with the config `max` = 1, but the runtime configuration maps
`create_issue` to the (empty) config of the custom job. -/
theorem custom_job_overrides_kind :
    (handleCreateIssue { CreateIssues := some {}, Jobs := [("create_issue", {})] }).2 = true ∧
    (handleCreateIssue { CreateIssues := some {}, Jobs := [("create_issue", {})] }).1 =
      some [("max", JVal.num 1)] ∧
    getKey (safeOutputsConfigMap { CreateIssues := some {}, Jobs := [("create_issue", {})] })
      "create_issue" = some (JVal.obj []) ∧
    generateSafeOutputsConfig
      { SafeOutputs := some { CreateIssues := some {}, Jobs := [("create_issue", {})] } } =
      "\x7b\"create_issue\":\x7b\x7d\x7d" :=
  ⟨rfl, rfl, rfl, by decide⟩

/-- C6, amended: for every registry kind whose handler signals inclusion and after which no
custom job is named, the runtime configuration maps the kind to exactly the handler's
result, for every choice of mentions and dispatch policy. -/
theorem config_maps_kind_to_handler_result (s : SafeOutputsConfig)
    (e : String × SafeOutputToolHandler) (he : e ∈ toolRegistry) (hinc : (e.2 s).2 = true)
    (hjobs : ∀ j ∈ s.Jobs, j.1 ≠ e.1) :
    getKey (safeOutputsConfigMap s) e.1 = some (mapValue (e.2 s).1) := by
  rw [getKey_configMap_kind s e.1 (List.mem_map_of_mem Prod.fst he) hjobs]
  exact getKey_foldl_registryStep_included s e toolRegistry [] registryKinds_nodup he hinc

/-- Witness for C6 (amended): `add_labels` with a custom job of another name, a mentions
policy and a dispatch policy. -/
theorem config_maps_kind_to_handler_result_witness :
    getKey (safeOutputsConfigMap
        { AddLabels := some { Allowed := ["bug"] }, Jobs := [("deploy", {})],
          Mentions := some { Enabled := some true }, DispatchWorkflow := some {} })
      "add_labels" =
    some (mapValue (handleAddLabels
        { AddLabels := some { Allowed := ["bug"] }, Jobs := [("deploy", {})],
          Mentions := some { Enabled := some true }, DispatchWorkflow := some {} }).1) :=
  config_maps_kind_to_handler_result _ ("add_labels", handleAddLabels)
    (by simp [toolRegistry]) rfl (by decide)

/-- Witness for C3 (amended): `add_labels` with a policy that sets no cap carries the
default 3. -/
theorem default_cap_when_present_witness :
    ("add_labels", handleAddLabels) ∈ toolRegistry ∧
    governingPolicy "add_labels" { AddLabels := some {} } = some {} ∧
    (handleAddLabels { AddLabels := some {} }).2 = true ∧
    ∃ cfg, (handleAddLabels { AddLabels := some {} }).1 = some cfg ∧
      getKey cfg "max" = some (JVal.num 3) :=
  ⟨by simp [toolRegistry], rfl,
   (default_cap_when_present { AddLabels := some {} } ("add_labels", handleAddLabels)
      (by simp [toolRegistry]) {} rfl rfl).1 rfl,
   (default_cap_when_present { AddLabels := some {} } ("add_labels", handleAddLabels)
      (by simp [toolRegistry]) {} rfl rfl).2.1 3 rfl⟩

/-! ## C8: the mentions block -/

theorem mentionsConfig_fields (m : MentionsConfig) :
    getKey (mentionsConfig m) "enabled" = m.Enabled.map JVal.bool ∧
    getKey (mentionsConfig m) "allowTeamMembers" = m.AllowTeamMembers.map JVal.bool ∧
    getKey (mentionsConfig m) "allowContext" = m.AllowContext.map JVal.bool ∧
    getKey (mentionsConfig m) "max" = m.Max.map JVal.num ∧
    getKey (mentionsConfig m) "allowed" =
      (if m.Allowed = [] then none else some (strList m.Allowed)) ∧
    (∀ k, (getKey (mentionsConfig m) k).isSome = true →
      k ∈ ["enabled", "allowTeamMembers", "allowContext", "allowed", "max"]) ∧
    (mentionsConfig m = [] ↔ mentionsUnset m) := by
  obtain ⟨en, tm, cx, al, mx⟩ := m
  unfold mentionsConfig mentionsUnset
  cases en <;> cases tm <;> cases cx <;> cases mx <;> cases al <;>
    simp [setKey, getKey]
  all_goals
    intro k h
    by_contra hne
    simp only [not_or] at hne
    obtain ⟨h1, h2, h3, h4, h5⟩ := hne
    simp [Ne.symm h1, Ne.symm h2, Ne.symm h3, Ne.symm h4, Ne.symm h5] at h


/-- C8, counterexample: with no mentions policy and a custom job named `mentions`, the
runtime configuration has the key `mentions` (it holds the config of the custom job). -/
theorem custom_job_named_mentions :
    ({ Jobs := [("mentions", { Description := "notify" })] } : SafeOutputsConfig).Mentions =
      none ∧
    getKey (safeOutputsConfigMap { Jobs := [("mentions", { Description := "notify" })] })
      "mentions" = some (JVal.obj [("description", JVal.str "notify")]) ∧
    generateSafeOutputsConfig
      { SafeOutputs := some { Jobs := [("mentions", { Description := "notify" })] } } =
      "\x7b\"mentions\":\x7b\"description\":\"notify\"\x7d\x7d" :=
  ⟨rfl, rfl, by decide⟩

/-- C8, amended: the mentions block holds `enabled`, `allowTeamMembers`, `allowContext` and
`max` exactly for the fields whose pointer is non-nil, with the pointed-to value, `allowed`
exactly when the list is non-empty, and no other key; the runtime configuration maps
`mentions` to this block when at least one field is set; and when the mentions policy is nil
or sets none of the five fields, the key `mentions` is absent provided that no custom job is
named `mentions`. -/
theorem mentions_block (s : SafeOutputsConfig) :
    (∀ m, s.Mentions = some m →
      (getKey (mentionsConfig m) "enabled" = m.Enabled.map JVal.bool ∧
        getKey (mentionsConfig m) "allowTeamMembers" = m.AllowTeamMembers.map JVal.bool ∧
        getKey (mentionsConfig m) "allowContext" = m.AllowContext.map JVal.bool ∧
        getKey (mentionsConfig m) "max" = m.Max.map JVal.num ∧
        getKey (mentionsConfig m) "allowed" =
          (if m.Allowed = [] then none else some (strList m.Allowed)) ∧
        (∀ k, (getKey (mentionsConfig m) k).isSome = true →
          k ∈ ["enabled", "allowTeamMembers", "allowContext", "allowed", "max"])) ∧
      (¬ mentionsUnset m →
        getKey (safeOutputsConfigMap s) "mentions" = some (JVal.obj (mentionsConfig m)))) ∧
    ((s.Mentions = none ∨ ∃ m, s.Mentions = some m ∧ mentionsUnset m) →
      (∀ j ∈ s.Jobs, j.1 ≠ "mentions") →
      getKey (safeOutputsConfigMap s) "mentions" = none) := by
  have hreg : getKey (registryConfig s) "mentions" = none := by
    unfold registryConfig
    rw [getKey_foldl_registryStep_skip]
    · rfl
    · intro e he hk
      exact absurd hk (registry_entry_ne_blocks e he).1
  constructor
  · intro m hm
    obtain ⟨h1, h2, h3, h4, h5, h6, h7⟩ := mentionsConfig_fields m
    refine ⟨⟨h1, h2, h3, h4, h5, h6⟩, ?_⟩
    intro hset
    have hne : mentionsConfig m ≠ [] := fun h => hset (h7.1 h)
    unfold safeOutputsConfigMap
    rw [getKey_addDispatchConfig_ne _ _ _ (by decide)]
    unfold addMentionsConfig
    simp [hm, List.length_pos, hne, getKey_setKey_self]
  · intro hm hjobs
    unfold safeOutputsConfigMap
    rw [getKey_addDispatchConfig_ne _ _ _ (by decide)]
    have hskip : addMentionsConfig s (addJobsConfig s (registryConfig s)) =
        addJobsConfig s (registryConfig s) := by
      unfold addMentionsConfig
      rcases hm with hm | ⟨m, hm, hu⟩
      · simp [hm]
      · simp [hm, (mentionsConfig_fields m).2.2.2.2.2.2.2 hu]
    rw [hskip, getKey_addJobsConfig_ne _ _ _ hjobs, hreg]

/-- Witness for C8 (amended): an explicit `false` and an explicit 0 are kept, and an unset
policy without a custom job named `mentions` leaves the key out. -/
theorem mentions_block_witness :
    getKey (safeOutputsConfigMap
        { Mentions := some { Enabled := some false, Max := some 0 } }) "mentions" =
      some (JVal.obj (mentionsConfig { Enabled := some false, Max := some 0 })) ∧
    mentionsConfig { Enabled := some false, Max := some 0 } =
      [("enabled", JVal.bool false), ("max", JVal.num 0)] ∧
    getKey (safeOutputsConfigMap { Mentions := some {}, Jobs := [("deploy", {})] })
      "mentions" = none :=
  ⟨((mentions_block { Mentions := some { Enabled := some false, Max := some 0 } }).1
      { Enabled := some false, Max := some 0 } rfl).2 (by simp [mentionsUnset]),
   rfl,
   (mentions_block { Mentions := some {}, Jobs := [("deploy", {})] }).2
     (Or.inr ⟨{}, rfl, by simp [mentionsUnset]⟩) (by decide)⟩

/-! ## C9: the dispatch cap -/

/-- C9: whenever `DispatchWorkflow` is non-nil, the runtime configuration has a
`dispatch_workflow` block whose `max` is `DispatchWorkflow.Max` if that is positive and 1 if
it is zero or negative. -/
theorem dispatch_cap_default (s : SafeOutputsConfig) (d : DispatchWorkflowConfig)
    (h : s.DispatchWorkflow = some d) :
    getKey (safeOutputsConfigMap s) "dispatch_workflow" =
      some (JVal.obj (dispatchWorkflowConfig d)) ∧
    getKey (dispatchWorkflowConfig d) "max" =
      some (JVal.num (if d.Max > 0 then d.Max else 1)) := by
  have hmax : getKey (dispatchWorkflowConfig d) "max" =
      some (JVal.num (if d.Max > 0 then d.Max else 1)) := by
    unfold dispatchWorkflowConfig
    exact getKey_setKey_self _ _ _
  refine ⟨?_, hmax⟩
  have hne : dispatchWorkflowConfig d ≠ [] := by
    intro h0
    rw [h0] at hmax
    simp [getKey] at hmax
  unfold safeOutputsConfigMap addDispatchConfig
  simp [h, List.length_pos, hne, getKey_setKey_self]

/-- Witness for C9: a negative cap is replaced by 1. -/
theorem dispatch_cap_default_witness :
    ({ DispatchWorkflow := some { Workflows := ["ci"], Max := -2 } } :
      SafeOutputsConfig).DispatchWorkflow = some { Workflows := ["ci"], Max := -2 } ∧
    (getKey (safeOutputsConfigMap
        { DispatchWorkflow := some { Workflows := ["ci"], Max := -2 } }) "dispatch_workflow" =
      some (JVal.obj (dispatchWorkflowConfig { Workflows := ["ci"], Max := -2 })) ∧
    getKey (dispatchWorkflowConfig { Workflows := ["ci"], Max := -2 }) "max" =
      some (JVal.num (if (-2 : Int) > 0 then -2 else 1))) :=
  ⟨rfl, dispatch_cap_default _ _ rfl⟩

/-! ## C10: defaults and options of custom job inputs -/

/-- C10, the code at the failing input: an input whose `Default` is nil gets the key
`default` (with the value `null`) in the runtime configuration, whereas
`generateCustomJobToolDefinition` writes no `default` for it; an input whose declared default
is the empty string gets no `default` key in the runtime configuration. -/
theorem inputConfig_default_of_nil :
    getKey (inputConfig { Type_ := "string", Default := JVal.null }) "default" =
      some JVal.null ∧
    getKey (customJobProperty { Type_ := "string", Default := JVal.null }) "default" = none ∧
    getKey (inputConfig { Type_ := "string", Default := JVal.str "" }) "default" = none ∧
    generateSafeOutputsConfig
      { SafeOutputs := some
          { Jobs := [("deploy", { Inputs := [("env", { Type_ := "string" })] })] } } =
      "\x7b\"deploy\":\x7b\"inputs\":\x7b\"env\":\x7b\"default\":null,\"description\":\"\",\"required\":false,\"type\":\"string\"\x7d\x7d\x7d\x7d" :=
  ⟨rfl, rfl, rfl, by decide⟩

/-! ## C7: the text returned by `generateSafeOutputsConfig` -/

theorem encodableFields_setKey (m : JMap) (k : String) (v : JVal)
    (hm : encodableFields m = true) (hv : encodable v = true) :
    encodableFields (setKey m k v) = true := by
  induction m with
  | nil => simp [setKey, encodableFields, hv]
  | cons e rest ih =>
    obtain ⟨k', v'⟩ := e
    simp only [encodableFields, Bool.and_eq_true] at hm
    by_cases h : k' = k
    · simp [setKey, h, encodableFields, hv, hm.2]
    · simp [setKey, h, encodableFields, hm.1, ih hm.2]

theorem encodable_strList (xs : List String) : encodable (strList xs) = true := by
  unfold strList
  rw [encodable]
  induction xs with
  | nil => simp [encodableList]
  | cons x rest ih => simp [encodableList, encodable, ih]

theorem encodable_strMap (m : List (String × String)) : encodable (strMap m) = true := by
  unfold strMap
  rw [encodable]
  induction m with
  | nil => simp [encodableFields]
  | cons x rest ih => simp [encodableFields, encodable, ih]

theorem encodableFields_ite_setKey (c : Prop) [Decidable c] (m : JMap) (k : String) (v : JVal)
    (hm : encodableFields m = true) (hv : encodable v = true) :
    encodableFields (if c then setKey m k v else m) = true := by
  split
  · exact encodableFields_setKey m k v hm hv
  · exact hm

theorem encodableFields_ite_setKey_right (c : Prop) [Decidable c] (m : JMap) (k : String)
    (v : JVal) (hm : encodableFields m = true) (hv : encodable v = true) :
    encodableFields (if c then m else setKey m k v) = true := by
  split
  · exact hm
  · exact encodableFields_setKey m k v hm hv

theorem encodableFields_withList (m : JMap) (k : String) (xs : List String)
    (hm : encodableFields m = true) : encodableFields (withList m k xs) = true :=
  encodableFields_ite_setKey _ m k _ hm (encodable_strList xs)

theorem encodableFields_withString (m : JMap) (k x : String)
    (hm : encodableFields m = true) : encodableFields (withString m k x) = true :=
  encodableFields_ite_setKey _ m k _ hm (by simp [encodable])

theorem encodableFields_withFlag (m : JMap) (k : String) (b : Bool)
    (hm : encodableFields m = true) : encodableFields (withFlag m k b) = true :=
  encodableFields_ite_setKey _ m k _ hm (by simp [encodable])

theorem encodableFields_generateMaxConfig (max defaultMax : Int) :
    encodableFields (generateMaxConfig max defaultMax) = true := by
  simp [generateMaxConfig, encodableFields, encodable]

theorem encodable_str (x : String) : encodable (JVal.str x) = true := by simp [encodable]

theorem encodable_num (n : Int) : encodable (JVal.num n) = true := by simp [encodable]

theorem encodable_bool (b : Bool) : encodable (JVal.bool b) = true := by simp [encodable]

theorem encodableFields_nil : encodableFields [] = true := by simp [encodableFields]

/-- Every config returned by a handler is encodable. -/
theorem handler_config_encodable (s : SafeOutputsConfig) :
    ∀ e ∈ toolRegistry, encodable (mapValue (e.2 s).1) = true := by
  intro e he
  simp only [toolRegistry, List.mem_cons, List.mem_singleton, List.mem_nil_iff, or_false] at he
  rcases he with he | he | he | he | he | he | he | he | he | he | he | he | he | he | he | he | he | he | he | he | he | he | he | he | he | he | he | he | he | he | he | he | he <;>
  subst he
  all_goals simp only [
    handleCreateIssue, handleCreateAgentSession, handleAddComment,
    handleCreateDiscussion, handleCloseDiscussion, handleCloseIssue,
    handleCreatePullRequest, handleCreatePullRequestReviewComment, handleCreateCodeScanningAlert,
    handleAutofixCodeScanningAlert, handleAddLabels, handleRemoveLabels,
    handleAddReviewer, handleAssignMilestone, handleAssignToAgent,
    handleAssignToUser, handleUpdateIssue, handleUpdateDiscussion,
    handleUpdatePullRequest, handleMarkPullRequestAsReadyForReview, handlePushToPullRequestBranch,
    handleUploadAsset, handleMissingTool, handleMissingData,
    handleUpdateProject, handleCreateProjectStatusUpdate, handleCreateProject,
    handleUpdateRelease, handleLinkSubIssue, handleNoOp,
    handleHideComment, handleCreateMissingToolIssue, handleCreateMissingDataIssue]
  all_goals split
  all_goals try split
  all_goals try simp only [mapValue, encodable]
  all_goals
    try simp only [generateMaxWithAllowedLabelsConfig, generateMaxWithTargetConfig,
      generateMaxWithAllowedConfig, generateMaxWithDiscussionFieldsConfig,
      generateMaxWithRequiredFieldsConfig, generateMaxWithReviewersConfig,
      generateHideCommentConfig, generatePullRequestConfig, generateAssignToAgentConfig]
  all_goals
    repeat' first
      | exact encodableFields_nil
      | exact encodableFields_generateMaxConfig _ _
      | exact encodable_str _
      | exact encodable_num _
      | exact encodable_bool _
      | exact encodable_strList _
      | apply encodableFields_withList
      | apply encodableFields_withString
      | apply encodableFields_withFlag
      | apply encodableFields_ite_setKey
      | apply encodableFields_ite_setKey_right
      | apply encodableFields_setKey

theorem encodableFields_foldl_registryStep (s : SafeOutputsConfig)
    (l : List (String × SafeOutputToolHandler)) (hl : ∀ e ∈ l, e ∈ toolRegistry) :
    ∀ (acc : JMap), encodableFields acc = true →
      encodableFields (l.foldl (registryStep s) acc) = true := by
  induction l with
  | nil => intro acc h; exact h
  | cons e rest ih =>
    intro acc h
    rw [List.foldl_cons]
    apply ih (fun e' he' => hl e' (List.mem_cons_of_mem _ he'))
    unfold registryStep
    apply encodableFields_ite_setKey _ _ _ _ h
    exact handler_config_encodable s e (hl e (List.mem_cons_self _ _))

theorem encodableFields_inputConfig (d : InputDefinition) (h : encodable d.Default = true) :
    encodableFields (inputConfig d) = true := by
  unfold inputConfig
  apply encodableFields_ite_setKey _ _ _ _ _ (encodable_strList _)
  apply encodableFields_ite_setKey _ _ _ _ _ h
  simp [encodableFields, encodable]

theorem encodableFields_inputsConfig (inputs : List (String × InputDefinition)) :
    ∀ (acc : JMap), encodableFields acc = true →
      (∀ input ∈ inputs, encodable input.2.Default = true) →
      encodableFields
        (inputs.foldl (fun acc e => setKey acc e.1 (JVal.obj (inputConfig e.2))) acc) = true := by
  induction inputs with
  | nil => intro acc h _; exact h
  | cons e rest ih =>
    intro acc h hall
    rw [List.foldl_cons]
    apply ih _ _ (fun i hi => hall i (List.mem_cons_of_mem _ hi))
    apply encodableFields_setKey _ _ _ h
    rw [encodable]
    exact encodableFields_inputConfig e.2 (hall e (List.mem_cons_self _ _))

theorem encodableFields_safeJobConfig (job : SafeJobConfig)
    (h : ∀ input ∈ job.Inputs, encodable input.2.Default = true) :
    encodableFields (safeJobConfig job) = true := by
  unfold safeJobConfig
  apply encodableFields_ite_setKey
  · apply encodableFields_ite_setKey _ _ _ _ _ (encodable_str _)
    apply encodableFields_ite_setKey _ _ _ _ _ (encodable_str _)
    exact encodableFields_nil
  · rw [encodable]
    exact encodableFields_inputsConfig job.Inputs [] encodableFields_nil h

theorem encodableFields_foldl_jobs (jobs : List (String × SafeJobConfig)) :
    ∀ (acc : JMap), encodableFields acc = true →
      (∀ job ∈ jobs, ∀ input ∈ job.2.Inputs, encodable input.2.Default = true) →
      encodableFields
        (jobs.foldl (fun acc e => setKey acc e.1 (JVal.obj (safeJobConfig e.2))) acc) = true := by
  induction jobs with
  | nil => intro acc h _; exact h
  | cons e rest ih =>
    intro acc h hall
    rw [List.foldl_cons]
    apply ih _ _ (fun j hj => hall j (List.mem_cons_of_mem _ hj))
    apply encodableFields_setKey _ _ _ h
    rw [encodable]
    exact encodableFields_safeJobConfig e.2 (hall e (List.mem_cons_self _ _))

theorem encodableFields_mentionsConfig (m : MentionsConfig) :
    encodableFields (mentionsConfig m) = true := by
  obtain ⟨en, tm, cx, al, mx⟩ := m
  unfold mentionsConfig
  cases en <;> cases tm <;> cases cx <;> cases mx <;>
    simp only [] <;>
    repeat' first
      | exact encodableFields_nil
      | exact encodable_num _
      | exact encodable_bool _
      | exact encodable_strList _
      | apply encodableFields_ite_setKey
      | apply encodableFields_setKey

theorem encodableFields_dispatchWorkflowConfig (d : DispatchWorkflowConfig) :
    encodableFields (dispatchWorkflowConfig d) = true := by
  unfold dispatchWorkflowConfig
  repeat' first
    | exact encodableFields_nil
    | exact encodable_num _
    | exact encodable_strList _
    | exact encodable_strMap _
    | apply encodableFields_ite_setKey
    | apply encodableFields_setKey

/-- The assembled map is encodable when the declared defaults of the custom job inputs
are. -/
theorem encodable_safeOutputsConfigMap (s : SafeOutputsConfig) (h : defaultsEncodable s) :
    encodable (JVal.obj (safeOutputsConfigMap s)) = true := by
  rw [encodable]
  have h1 : encodableFields (registryConfig s) = true :=
    encodableFields_foldl_registryStep s toolRegistry (fun _ he => he) [] encodableFields_nil
  have h2 : encodableFields (addJobsConfig s (registryConfig s)) = true := by
    unfold addJobsConfig
    split
    · exact encodableFields_foldl_jobs s.Jobs _ h1 h
    · exact h1
  have h3 : encodableFields (addMentionsConfig s (addJobsConfig s (registryConfig s))) = true := by
    unfold addMentionsConfig
    split
    · apply encodableFields_ite_setKey _ _ _ _ h2
      rw [encodable]
      exact encodableFields_mentionsConfig _
    · exact h2
  unfold safeOutputsConfigMap addDispatchConfig
  split
  · apply encodableFields_ite_setKey _ _ _ _ h3
    rw [encodable]
    exact encodableFields_dispatchWorkflowConfig _
  · exact h3

mutual
/-- The encoder succeeds on every encodable value. -/
theorem marshal_isSome : ∀ (v : JVal), encodable v = true → (marshal v).isSome = true
  | JVal.null, _ => by simp [marshal]
  | JVal.bool _, _ => by simp [marshal]
  | JVal.num _, _ => by simp [marshal]
  | JVal.str _, _ => by simp [marshal]
  | JVal.arr xs, h => by
    rw [encodable] at h
    have := marshalList_isSome xs h
    obtain ⟨ss, hss⟩ := Option.isSome_iff_exists.1 this
    simp [marshal, hss]
  | JVal.obj kvs, h => by
    rw [encodable] at h
    have := marshalFields_isSome kvs h
    obtain ⟨ps, hps⟩ := Option.isSome_iff_exists.1 this
    simp [marshal, hps]
  | JVal.unsupported, h => by simp [encodable] at h
/-- The encoder succeeds on every slice of encodable values. -/
theorem marshalList_isSome :
    ∀ (xs : List JVal), encodableList xs = true → (marshalList xs).isSome = true
  | [], _ => by simp [marshalList]
  | x :: rest, h => by
    simp only [encodableList, Bool.and_eq_true] at h
    obtain ⟨a, ha⟩ := Option.isSome_iff_exists.1 (marshal_isSome x h.1)
    obtain ⟨b, hb⟩ := Option.isSome_iff_exists.1 (marshalList_isSome rest h.2)
    simp [marshalList, ha, hb]
/-- The encoder succeeds on every map of encodable values. -/
theorem marshalFields_isSome :
    ∀ (kvs : List (String × JVal)), encodableFields kvs = true →
      (marshalFields kvs).isSome = true
  | [], _ => by simp [marshalFields]
  | (k, v) :: rest, h => by
    simp only [encodableFields, Bool.and_eq_true] at h
    obtain ⟨a, ha⟩ := Option.isSome_iff_exists.1 (marshal_isSome v h.1)
    obtain ⟨b, hb⟩ := Option.isSome_iff_exists.1 (marshalFields_isSome rest h.2)
    simp [marshalFields, ha, hb]
end

/-- C7, counterexample: for a non-nil aggregate with a custom job input whose declared default
is a value that `encoding/json` rejects, `json.Marshal` fails, its error is discarded, and
`generateSafeOutputsConfig` returns the empty string. -/
theorem generateSafeOutputsConfig_empty_on_unencodable :
    marshal (JVal.obj (safeOutputsConfigMap
      { Jobs := [("report", { Inputs := [("ratio",
          { Type_ := "number", Default := JVal.unsupported })] })] })) = none ∧
    generateSafeOutputsConfig
      { SafeOutputs := some
          { Jobs := [("report", { Inputs := [("ratio",
              { Type_ := "number", Default := JVal.unsupported })] })] } } = "" :=
  ⟨rfl, rfl⟩

/-- C7, amended: `generateSafeOutputsConfig` returns the empty string when `SafeOutputs` is
nil, and for every non-nil aggregate in which every declared default of a custom job input
is a value that JSON can encode it returns a non-empty JSON object text: an opening brace,
the encoded fields of the assembled map in key order, a closing brace. -/
theorem generateSafeOutputsConfig_text (s : SafeOutputsConfig) (h : defaultsEncodable s) :
    generateSafeOutputsConfig { SafeOutputs := none } = "" ∧
    (∃ fields, marshalFields (safeOutputsConfigMap s) = some fields ∧
      generateSafeOutputsConfig { SafeOutputs := some s } =
        "\x7b" ++ ",".intercalate
          ((sortFields fields).map (fun p => quoteString p.1 ++ ":" ++ p.2)) ++ "\x7d") ∧
    generateSafeOutputsConfig { SafeOutputs := some s } ≠ "" := by
  have henc := encodable_safeOutputsConfigMap s h
  rw [encodable] at henc
  obtain ⟨fields, hf⟩ := Option.isSome_iff_exists.1 (marshalFields_isSome _ henc)
  have hgen : generateSafeOutputsConfig { SafeOutputs := some s } =
      "\x7b" ++ ",".intercalate
        ((sortFields fields).map (fun p => quoteString p.1 ++ ":" ++ p.2)) ++ "\x7d" := by
    simp [generateSafeOutputsConfig, marshal, hf]
  refine ⟨rfl, ⟨fields, hf, hgen⟩, ?_⟩
  rw [hgen]
  intro h0
  have hlen := congrArg String.length h0
  simp only [String.length_append] at hlen
  have h1 : ("\x7d" : String).length = 1 := by decide
  have h2 : ("" : String).length = 0 := by decide
  omega

/-- Witness for C7 (amended): an aggregate without custom jobs yields the text of the empty
object. -/
theorem generateSafeOutputsConfig_text_witness :
    defaultsEncodable {} ∧
    generateSafeOutputsConfig { SafeOutputs := some {} } ≠ "" ∧
    generateSafeOutputsConfig { SafeOutputs := some {} } = "\x7b\x7d" :=
  ⟨by simp [defaultsEncodable],
   (generateSafeOutputsConfig_text {} (by simp [defaultsEncodable])).2.2, by decide⟩

/-! ## Lemmas on the catalog -/

theorem getKey_addRepoParameterIfNeeded_ne (wide : Char → Bool) (tool : JMap) (name : String)
    (so : Option SafeOutputsConfig) (k : String) (hk : k ≠ "inputSchema") :
    getKey (addRepoParameterIfNeeded wide tool name so) k = getKey tool k := by
  unfold addRepoParameterIfNeeded
  cases so with
  | none => rfl
  | some s =>
    simp only []
    repeat' split
    all_goals first | rfl | exact getKey_setKey_ne _ _ _ _ hk

theorem toolName_enhanceTool (env : Collaborators) (s : SafeOutputsConfig) (name : String)
    (tool : JMap) : toolName (enhanceTool env s name tool) = toolName tool := by
  unfold toolName enhanceTool
  rw [getKey_addRepoParameterIfNeeded_ne _ _ _ _ _ (by decide)]
  split
  · rw [getKey_setKey_ne _ _ _ _ (by decide)]
  · rfl

theorem toolName_generateCustomJobToolDefinition (jobName : String) (jobConfig : SafeJobConfig) :
    toolName (generateCustomJobToolDefinition jobName jobConfig) = some jobName := by
  unfold toolName generateCustomJobToolDefinition
  simp only []
  rw [getKey_setKey_ne _ _ _ _ (by decide)]
  split <;> rw [getKey_setKey_ne _ _ _ _ (by decide)] <;> simp [getKey, asString]

theorem toolName_generateDispatchWorkflowTool (norm : String → String) (workflowName : String)
    (workflowInputs : JMap) :
    toolName (generateDispatchWorkflowTool norm workflowName workflowInputs) =
      some (norm workflowName) := by
  simp [toolName, generateDispatchWorkflowTool, getKey, asString]

theorem mem_insertString (a x : String) (l : List String) :
    x ∈ insertString a l ↔ x = a ∨ x ∈ l := by
  induction l with
  | nil => simp [insertString]
  | cons b rest ih =>
    unfold insertString
    split
    · simp
    · simp [ih]
      tauto

theorem mem_sortStrings (x : String) (l : List String) : x ∈ sortStrings l ↔ x ∈ l := by
  induction l with
  | nil => simp [sortStrings]
  | cons a rest ih => simp [sortStrings, mem_insertString, ih]

theorem mem_foldl_filterStep (env : Collaborators) (s : SafeOutputsConfig)
    (enabled : List String) (allTools : List JMap) :
    ∀ (acc : List JMap) (t : JMap), t ∈ allTools.foldl (filterStep env s enabled) acc →
      t ∈ acc ∨ ∃ u ∈ allTools, ∃ name, toolName u = some name ∧ name ∈ enabled ∧
        t = enhanceTool env s name u := by
  induction allTools with
  | nil => intro acc t h; exact Or.inl h
  | cons u rest ih =>
    intro acc t h
    rw [List.foldl_cons] at h
    rcases ih _ t h with h | ⟨u', hu', name, hn, hen, ht⟩
    · unfold filterStep at h
      cases hname : asString (getKey u "name") with
      | none => simp [hname] at h; exact Or.inl h
      | some name =>
        by_cases hen : name ∈ enabled
        · simp [hname, hen] at h
          rcases h with h | h
          · exact Or.inl h
          · exact Or.inr ⟨u, List.mem_cons_self _ _, name, hname, hen, h⟩
        · simp [hname, hen] at h
          exact Or.inl h
    · exact Or.inr ⟨u', List.mem_cons_of_mem _ hu', name, hn, hen, ht⟩

theorem mem_foldl_customJob (env : Collaborators) (jobs : List (String × SafeJobConfig))
    (names : List String) :
    ∀ (acc : List JMap) (t : JMap),
      t ∈ names.foldl
        (fun acc jobName =>
          match getKey jobs jobName with
          | some jobConfig =>
            acc ++ [generateCustomJobToolDefinition (env.NormalizeSafeOutputIdentifier jobName)
              jobConfig]
          | none => acc) acc →
      t ∈ acc ∨ ∃ jobName ∈ names, ∃ jobConfig,
        t = generateCustomJobToolDefinition (env.NormalizeSafeOutputIdentifier jobName)
          jobConfig := by
  induction names with
  | nil => intro acc t h; exact Or.inl h
  | cons n rest ih =>
    intro acc t h
    rw [List.foldl_cons] at h
    rcases ih _ t h with h | ⟨jn, hjn, jc, ht⟩
    · cases hj : getKey jobs n with
      | none => simp [hj] at h; exact Or.inl h
      | some jc =>
        simp [hj] at h
        rcases h with h | h
        · exact Or.inl h
        · exact Or.inr ⟨n, List.mem_cons_self _ _, jc, h⟩
    · exact Or.inr ⟨jn, List.mem_cons_of_mem _ hjn, jc, ht⟩

theorem mem_addCustomJobTools (env : Collaborators) (acc : List JMap) (s : SafeOutputsConfig)
    (t : JMap) (h : t ∈ addCustomJobTools env acc s) :
    t ∈ acc ∨ ∃ j ∈ s.Jobs, ∃ jobConfig,
      t = generateCustomJobToolDefinition (env.NormalizeSafeOutputIdentifier j.1) jobConfig := by
  unfold addCustomJobTools at h
  split at h
  · exact Or.inl h
  · rcases mem_foldl_customJob env s.Jobs _ acc t h with h | ⟨jn, hjn, jc, ht⟩
    · exact Or.inl h
    · rw [mem_sortStrings] at hjn
      obtain ⟨j, hj, rfl⟩ := List.mem_map.1 hjn
      exact Or.inr ⟨j, hj, jc, ht⟩

theorem mem_foldl_dispatchToolStep (env : Collaborators) (path : String)
    (workflows : List String) :
    ∀ (st : List JMap × List (String × String)) (t : JMap),
      t ∈ (workflows.foldl (dispatchToolStep env path) st).1 →
      t ∈ st.1 ∨ ∃ w ∈ workflows, ∃ inputs,
        t = generateDispatchWorkflowTool env.NormalizeSafeOutputIdentifier w inputs := by
  induction workflows with
  | nil => intro st t h; exact Or.inl h
  | cons w rest ih =>
    intro st t h
    rw [List.foldl_cons] at h
    rcases ih _ t h with h | ⟨w', hw', inputs, ht⟩
    · unfold dispatchToolStep at h
      repeat' split at h
      all_goals
        simp only [List.mem_append, List.mem_singleton] at h
        rcases h with h | h
        · exact Or.inl h
        · exact Or.inr ⟨w, List.mem_cons_self _ _, _, h⟩
    · exact Or.inr ⟨w', List.mem_cons_of_mem _ hw', inputs, ht⟩

theorem mem_addDispatchWorkflowTools (env : Collaborators) (acc : List JMap)
    (s : SafeOutputsConfig) (path : String) (t : JMap)
    (h : t ∈ (addDispatchWorkflowTools env acc s path).1) :
    t ∈ acc ∨ ∃ d, s.DispatchWorkflow = some d ∧ ∃ w ∈ d.Workflows, ∃ inputs,
      t = generateDispatchWorkflowTool env.NormalizeSafeOutputIdentifier w inputs := by
  unfold addDispatchWorkflowTools at h
  split at h
  · exact Or.inl h
  · rename_i d hd
    split at h
    · exact Or.inl h
    · rcases mem_foldl_dispatchToolStep env path d.Workflows _ t h with h | h
      · exact Or.inl h
      · exact Or.inr ⟨d, hd, h⟩

/-- The name of every catalog entry: the name of an enabled universe descriptor, the
normalised name of a custom job, or the normalised identifier of a dispatch target. -/
theorem catalog_entry_name (env : Collaborators) (allTools : List JMap)
    (s : SafeOutputsConfig) (path : String) (t : JMap)
    (h : t ∈ (filteredToolsList env allTools s path).1) :
    (∃ name ∈ buildEnabledToolsSet (some s), toolName t = some name) ∨
    (∃ j ∈ s.Jobs, toolName t = some (env.NormalizeSafeOutputIdentifier j.1)) ∨
    (∃ d, s.DispatchWorkflow = some d ∧ ∃ w ∈ d.Workflows,
      toolName t = some (env.NormalizeSafeOutputIdentifier w)) := by
  unfold filteredToolsList at h
  rcases mem_addDispatchWorkflowTools env _ s path t h with h | ⟨d, hd, w, hw, inputs, rfl⟩
  · rcases mem_addCustomJobTools env _ s t h with h | ⟨j, hj, jc, rfl⟩
    · rcases mem_foldl_filterStep env s _ allTools [] t h with h | ⟨u, _, name, hn, hen, rfl⟩
      · simp at h
      · exact Or.inl ⟨name, hen, by rw [toolName_enhanceTool]; exact hn⟩
    · exact Or.inr (Or.inl ⟨j, hj, toolName_generateCustomJobToolDefinition _ _⟩)
  · exact Or.inr (Or.inr ⟨d, hd, w, hw, toolName_generateDispatchWorkflowTool _ _ _⟩)

/-! ## C1: absence implies exclusion -/

/-- Every enabled name is a non-shadow kind whose policy is present. -/
theorem buildEnabledToolsSet_enabled (s : SafeOutputsConfig) (k : String) :
    k ∈ buildEnabledToolsSet (some s) →
      isShadowKind k = false ∧ (governingPolicy k s).isSome = true := by
  intro h
  unfold buildEnabledToolsSet at h
  rw [mem_foldl_enabledStep] at h
  rcases h with h | ⟨e, he, rfl, hinc, hsh⟩
  · simp at h
  · obtain ⟨p, hp, _⟩ := (handler_include_iff s e he).1 hinc
    exact ⟨hsh, by simp [hp]⟩


/-- C1, counterexample: with no `CreateIssues` policy and a custom job named `create_issue`,
the runtime configuration has the key `create_issue` and the catalog has a tool named
`create_issue` (the tool generated for the custom job). -/
theorem custom_job_named_like_absent_kind :
    "create_issue" ∈ registryKinds ∧
    governingPolicy "create_issue" { Jobs := [("create_issue", {})] } = none ∧
    getKey (safeOutputsConfigMap { Jobs := [("create_issue", {})] }) "create_issue" =
      some (JVal.obj []) ∧
    generateSafeOutputsConfig { SafeOutputs := some { Jobs := [("create_issue", {})] } } =
      "\x7b\"create_issue\":\x7b\x7d\x7d" ∧
    (filteredToolsList sampleCollaborators sampleUniverse { Jobs := [("create_issue", {})] }
      "").1.map toolName = [some "create_issue"] :=
  ⟨by decide, rfl, rfl, by decide, by decide⟩

/-- C1, amended: for every registry kind `k` whose policy is nil, the runtime configuration
has no key `k` unless a custom job is named `k`, and the catalog has no tool named `k` unless
the normalised name of a custom job or of a dispatch target is `k`. -/
theorem absent_policy_excluded (env : Collaborators) (allTools : List JMap)
    (s : SafeOutputsConfig) (path : String) (k : String) (hk : k ∈ registryKinds)
    (hp : governingPolicy k s = none) :
    ((∀ j ∈ s.Jobs, j.1 ≠ k) → getKey (safeOutputsConfigMap s) k = none) ∧
    ((∀ j ∈ s.Jobs, env.NormalizeSafeOutputIdentifier j.1 ≠ k) →
      (∀ d, s.DispatchWorkflow = some d →
        ∀ w ∈ d.Workflows, env.NormalizeSafeOutputIdentifier w ≠ k) →
      ∀ t ∈ (filteredToolsList env allTools s path).1, toolName t ≠ some k) := by
  have hexcl : ∀ e ∈ toolRegistry, e.1 = k → (e.2 s).2 = false := by
    intro e he hek
    by_contra hinc
    obtain ⟨p, hp', _⟩ := (handler_include_iff s e he).1 (by simpa using hinc)
    rw [hek, hp] at hp'
    exact Option.noConfusion hp'
  constructor
  · intro hjobs
    rw [getKey_configMap_kind s k hk hjobs]
    unfold registryConfig
    rw [getKey_foldl_registryStep_skip s k toolRegistry [] hexcl]
    rfl
  · intro hjobs hdisp t ht hname
    rcases catalog_entry_name env allTools s path t ht with
      ⟨name, hen, hn⟩ | ⟨j, hj, hn⟩ | ⟨d, hd, w, hw, hn⟩
    · rw [hn] at hname
      have hnk : name = k := Option.some.inj hname
      subst hnk
      have := (buildEnabledToolsSet_enabled s name hen).2
      rw [hp] at this
      simp at this
    · rw [hn] at hname
      exact hjobs j hj (Option.some.inj hname)
    · rw [hn] at hname
      exact hdisp d hd w hw (Option.some.inj hname)

/-- Witness for C1 (amended): with only an `AddLabels` policy and a custom job `deploy`, the
kind `create_issue` is in neither output. -/
theorem absent_policy_excluded_witness :
    "create_issue" ∈ registryKinds ∧
    governingPolicy "create_issue"
      { AddLabels := some {}, Jobs := [("deploy", {})] } = none ∧
    getKey (safeOutputsConfigMap { AddLabels := some {}, Jobs := [("deploy", {})] })
      "create_issue" = none ∧
    ∀ t ∈ (filteredToolsList sampleCollaborators sampleUniverse
        { AddLabels := some {}, Jobs := [("deploy", {})] } "").1,
      toolName t ≠ some "create_issue" :=
  ⟨by decide, rfl,
   (absent_policy_excluded sampleCollaborators sampleUniverse
      { AddLabels := some {}, Jobs := [("deploy", {})] } "" "create_issue" (by decide) rfl).1
      (by decide),
   (absent_policy_excluded sampleCollaborators sampleUniverse
      { AddLabels := some {}, Jobs := [("deploy", {})] } "" "create_issue" (by decide) rfl).2
      (by decide) (by simp)⟩

/-! ## C5: the shadow tools and the catalog -/

/-- C5, counterexample: the universe has descriptors named `create_missing_tool_issue` and
`create_missing_data_issue`, both policies set `CreateIssue`, and the catalog consists of the
tool `missing_tool` alone: neither shadow tool is in it. -/
theorem shadow_tools_not_in_catalog :
    sampleUniverse.map toolName =
      [some "create_issue", some "missing_tool", some "create_missing_tool_issue",
       some "create_missing_data_issue"] ∧
    buildEnabledToolsSet (some
      { MissingTool := some { CreateIssue := true },
        MissingData := some { CreateIssue := true } }) = ["missing_tool", "missing_data"] ∧
    (filteredToolsList sampleCollaborators sampleUniverse
      { MissingTool := some { CreateIssue := true },
        MissingData := some { CreateIssue := true } } "").1.map toolName =
      [some "missing_tool"] :=
  ⟨by decide, by decide, by decide⟩

/-- C5, amended: the catalog never takes a shadow tool from the static universe, whatever the
`CreateIssue` flags: a catalog entry named `create_missing_tool_issue` or
`create_missing_data_issue` can only be the tool generated for a custom job or a dispatch
target of that normalised name.  Setting `CreateIssue` on the `MissingTool` (resp.
`MissingData`) policy activates the shadow kind in the runtime configuration, which then has
the key `create_missing_tool_issue` (resp. `create_missing_data_issue`). -/
theorem shadow_kinds_only_in_config (env : Collaborators) (allTools : List JMap)
    (s : SafeOutputsConfig) (path : String) :
    (∀ k, isShadowKind k = true →
      (∀ j ∈ s.Jobs, env.NormalizeSafeOutputIdentifier j.1 ≠ k) →
      (∀ d, s.DispatchWorkflow = some d →
        ∀ w ∈ d.Workflows, env.NormalizeSafeOutputIdentifier w ≠ k) →
      ∀ t ∈ (filteredToolsList env allTools s path).1, toolName t ≠ some k) ∧
    (∀ p, s.MissingTool = some p → p.CreateIssue = true →
      (getKey (safeOutputsConfigMap s) "create_missing_tool_issue").isSome = true) ∧
    (∀ p, s.MissingData = some p → p.CreateIssue = true →
      (getKey (safeOutputsConfigMap s) "create_missing_data_issue").isSome = true) := by
  have hkey : ∀ e ∈ toolRegistry, (e.2 s).2 = true →
      (getKey (safeOutputsConfigMap s) e.1).isSome = true := by
    intro e he hinc
    obtain ⟨h1, h2⟩ := registry_entry_ne_blocks e he
    unfold safeOutputsConfigMap
    rw [getKey_addDispatchConfig_ne _ _ _ h2, getKey_addMentionsConfig_ne _ _ _ h1]
    apply isSome_getKey_addJobsConfig
    unfold registryConfig
    rw [getKey_foldl_registryStep_included s e toolRegistry [] registryKinds_nodup he hinc]
    rfl
  refine ⟨?_, ?_, ?_⟩
  · intro k hsh hjobs hdisp t ht hname
    rcases catalog_entry_name env allTools s path t ht with
      ⟨name, hen, hn⟩ | ⟨j, hj, hn⟩ | ⟨d, hd, w, hw, hn⟩
    · rw [hn] at hname
      have hnk : name = k := Option.some.inj hname
      subst hnk
      have := (buildEnabledToolsSet_enabled s name hen).1
      rw [hsh] at this
      exact Bool.noConfusion this
    · rw [hn] at hname
      exact hjobs j hj (Option.some.inj hname)
    · rw [hn] at hname
      exact hdisp d hd w hw (Option.some.inj hname)
  · intro p hp hc
    exact hkey ("create_missing_tool_issue", handleCreateMissingToolIssue)
      (by simp [toolRegistry]) (by simp [handleCreateMissingToolIssue, hp, hc])
  · intro p hp hc
    exact hkey ("create_missing_data_issue", handleCreateMissingDataIssue)
      (by simp [toolRegistry]) (by simp [handleCreateMissingDataIssue, hp, hc])

/-- Witness for C5 (amended): with `CreateIssue` set on `MissingTool`, the runtime
configuration has the key `create_missing_tool_issue` and no catalog entry has that name. -/
theorem shadow_kinds_only_in_config_witness :
    isShadowKind "create_missing_tool_issue" = true ∧
    (getKey (safeOutputsConfigMap { MissingTool := some { CreateIssue := true } })
      "create_missing_tool_issue").isSome = true ∧
    ∀ t ∈ (filteredToolsList sampleCollaborators sampleUniverse
        { MissingTool := some { CreateIssue := true } } "").1,
      toolName t ≠ some "create_missing_tool_issue" :=
  ⟨rfl,
   (shadow_kinds_only_in_config sampleCollaborators sampleUniverse
      { MissingTool := some { CreateIssue := true } } "").2.1 { CreateIssue := true } rfl rfl,
   (shadow_kinds_only_in_config sampleCollaborators sampleUniverse
      { MissingTool := some { CreateIssue := true } } "").1 "create_missing_tool_issue" rfl
      (by simp) (by simp)⟩

/-! ## The keys of the input config of a custom job (C10) -/

/-- What the runtime configuration does for every input: `default` is written exactly when
the declared default differs from the string `""` (so also for a nil default), and `options`
exactly when the list is non-empty. -/
theorem inputConfig_keys (d : InputDefinition) :
    ((getKey (inputConfig d) "default").isSome = true ↔ neEmptyString d.Default = true) ∧
    ((getKey (inputConfig d) "options").isSome = true ↔ d.Options ≠ []) := by
  unfold inputConfig
  constructor
  · rw [getKey_ite_setKey_ne _ _ _ _ _ (by decide)]
    by_cases h : neEmptyString d.Default = true
    · simp [h, getKey_setKey_self]
    · simp [h, getKey]
  · by_cases h : d.Options = []
    · simp [h, getKey_ite_setKey_ne, getKey, List.length_pos]
    · simp [h, getKey_setKey_self, List.length_pos]

/-! ## C11: custom jobs in the runtime configuration -/

theorem getKey_foldl_setKey_mem {β γ : Type} (f : γ → β) (l : List (String × γ)) :
    ∀ (acc : List (String × β)), (l.map Prod.fst).Nodup → ∀ e ∈ l,
      getKey (l.foldl (fun acc e => setKey acc e.1 (f e.2)) acc) e.1 = some (f e.2) := by
  induction l with
  | nil => intro acc _ e he; simp at he
  | cons e' rest ih =>
    intro acc hnd e he
    rw [List.foldl_cons]
    rw [List.map_cons, List.nodup_cons] at hnd
    rcases List.mem_cons.1 he with rfl | hmem
    · rw [getKey_foldl_setKey_ne f e.1 rest _
        (fun x hx hk => hnd.1 (hk ▸ List.mem_map_of_mem Prod.fst hx))]
      exact getKey_setKey_self _ _ _
    · exact ih _ hnd.2 e hmem

theorem isSome_getKey_setKey_imp {β : Type} (m : List (String × β)) (k k' : String) (v : β)
    (h : (getKey (setKey m k v) k').isSome = true) :
    k' = k ∨ (getKey m k').isSome = true := by
  by_cases hk : k' = k
  · exact Or.inl hk
  · rw [getKey_setKey_ne _ _ _ _ hk] at h
    exact Or.inr h

theorem isSome_getKey_foldl_setKey_imp {β γ : Type} (f : γ → β) (k : String)
    (l : List (String × γ)) :
    ∀ (acc : List (String × β)),
      (getKey (l.foldl (fun acc e => setKey acc e.1 (f e.2)) acc) k).isSome = true →
      (getKey acc k).isSome = true ∨ k ∈ l.map Prod.fst := by
  induction l with
  | nil => intro acc h; exact Or.inl h
  | cons e rest ih =>
    intro acc h
    rw [List.foldl_cons] at h
    rcases ih _ h with h | h
    · rcases isSome_getKey_setKey_imp _ _ _ _ h with h | h
      · exact Or.inr (by simp [h])
      · exact Or.inl h
    · exact Or.inr (by simp [h])

theorem inputConfig_fields (d : InputDefinition) :
    getKey (inputConfig d) "type" = some (JVal.str d.Type_) ∧
    getKey (inputConfig d) "description" = some (JVal.str d.Description) ∧
    getKey (inputConfig d) "required" = some (JVal.bool d.Required) := by
  unfold inputConfig
  refine ⟨?_, ?_, ?_⟩ <;>
    rw [getKey_ite_setKey_ne _ _ _ _ _ (by decide), getKey_ite_setKey_ne _ _ _ _ _ (by decide)] <;>
    simp [getKey]

theorem safeJobConfig_fields (job : SafeJobConfig) :
    getKey (safeJobConfig job) "description" =
      (if job.Description = "" then none else some (JVal.str job.Description)) ∧
    getKey (safeJobConfig job) "output" =
      (if job.Output = "" then none else some (JVal.str job.Output)) ∧
    getKey (safeJobConfig job) "inputs" =
      (if job.Inputs.isEmpty then none else some (JVal.obj (inputsConfig job.Inputs))) ∧
    (∀ k, (getKey (safeJobConfig job) k).isSome = true →
      k ∈ ["description", "output", "inputs"]) := by
  unfold safeJobConfig
  refine ⟨?_, ?_, ?_, ?_⟩
  · rw [getKey_ite_setKey_ne _ _ _ _ _ (by decide), getKey_ite_setKey_ne _ _ _ _ _ (by decide)]
    by_cases h : job.Description = "" <;> simp [h, getKey, getKey_setKey_self]
  · rw [getKey_ite_setKey_ne _ _ _ _ _ (by decide)]
    by_cases h : job.Output = ""
    · simp [h, getKey_ite_setKey_ne_right, getKey]
    · simp [h, getKey_setKey_self]
  · cases h : job.Inputs with
    | nil => simp [getKey_ite_setKey_ne_right, getKey]
    | cons e rest => simp [getKey_setKey_self]
  · intro k hk
    by_contra hne
    simp only [List.mem_cons, List.mem_singleton, List.mem_nil_iff, or_false, not_or] at hne
    obtain ⟨h1, h2, h3⟩ := hne
    rw [getKey_ite_setKey_ne _ _ _ _ _ h3, getKey_ite_setKey_ne _ _ _ _ _ h2,
      getKey_ite_setKey_ne _ _ _ _ _ h1] at hk
    simp [getKey] at hk

/-- C11: for every custom job whose name is not `mentions` or `dispatch_workflow` (the names
of a Go map are distinct), the runtime config maps the un-normalised job name to the job's
config; that config has `description` and `output` exactly when they are non-empty, with
their values, and `inputs` exactly when the job declares an input; the `inputs` map has one
entry per declared input, with `type`, `description` and `required` of the input, and no
other entry. -/
theorem custom_job_folding (s : SafeOutputsConfig) (hnd : (s.Jobs.map Prod.fst).Nodup)
    (j : String × SafeJobConfig) (hj : j ∈ s.Jobs) (h1 : j.1 ≠ "mentions")
    (h2 : j.1 ≠ "dispatch_workflow") :
    getKey (safeOutputsConfigMap s) j.1 = some (JVal.obj (safeJobConfig j.2)) ∧
    getKey (safeJobConfig j.2) "description" =
      (if j.2.Description = "" then none else some (JVal.str j.2.Description)) ∧
    getKey (safeJobConfig j.2) "output" =
      (if j.2.Output = "" then none else some (JVal.str j.2.Output)) ∧
    getKey (safeJobConfig j.2) "inputs" =
      (if j.2.Inputs.isEmpty then none else some (JVal.obj (inputsConfig j.2.Inputs))) ∧
    (∀ k, (getKey (inputsConfig j.2.Inputs) k).isSome = true → k ∈ j.2.Inputs.map Prod.fst) ∧
    ((j.2.Inputs.map Prod.fst).Nodup → ∀ i ∈ j.2.Inputs,
      getKey (inputsConfig j.2.Inputs) i.1 = some (JVal.obj (inputConfig i.2)) ∧
      getKey (inputConfig i.2) "type" = some (JVal.str i.2.Type_) ∧
      getKey (inputConfig i.2) "description" = some (JVal.str i.2.Description) ∧
      getKey (inputConfig i.2) "required" = some (JVal.bool i.2.Required)) := by
  obtain ⟨hd, ho, hi, _⟩ := safeJobConfig_fields j.2
  refine ⟨?_, hd, ho, hi, ?_, ?_⟩
  · unfold safeOutputsConfigMap
    rw [getKey_addDispatchConfig_ne _ _ _ h2, getKey_addMentionsConfig_ne _ _ _ h1]
    unfold addJobsConfig
    have hpos : s.Jobs.length > 0 := List.length_pos_of_mem hj
    simp only [hpos, if_true]
    exact getKey_foldl_setKey_mem (fun jc => JVal.obj (safeJobConfig jc)) s.Jobs _ hnd j hj
  · intro k hk
    unfold inputsConfig at hk
    rcases isSome_getKey_foldl_setKey_imp (fun d => JVal.obj (inputConfig d)) k _ _ hk with h | h
    · simp [getKey] at h
    · exact h
  · intro hin i hi'
    refine ⟨?_, inputConfig_fields i.2⟩
    unfold inputsConfig
    exact getKey_foldl_setKey_mem (fun d => JVal.obj (inputConfig d)) j.2.Inputs _ hin i hi'

/-- Witness for C11: a job `deploy` with a description and one input, next to a registry
policy. -/
theorem custom_job_folding_witness :
    getKey (safeOutputsConfigMap
        { AddLabels := some {},
          Jobs := [("deploy", { Description := "Deploy", Inputs := [("env", { Type_ := "string" })] })] })
      "deploy" =
      some (JVal.obj (safeJobConfig
        { Description := "Deploy", Inputs := [("env", { Type_ := "string" })] })) ∧
    getKey (safeJobConfig { Description := "Deploy", Inputs := [("env", { Type_ := "string" })] })
      "description" = some (JVal.str "Deploy") ∧
    getKey (safeJobConfig { Description := "Deploy", Inputs := [("env", { Type_ := "string" })] })
      "output" = none :=
  ⟨(custom_job_folding
      { AddLabels := some {},
        Jobs := [("deploy", { Description := "Deploy", Inputs := [("env", { Type_ := "string" })] })] }
      (by decide)
      ("deploy", { Description := "Deploy", Inputs := [("env", { Type_ := "string" })] })
      (by simp) (by decide) (by decide)).1,
   rfl, rfl⟩

/-! ## Lemmas on the order of strings and on `sort.Strings` -/

theorem leChars_total : ∀ (a b : List Char), leChars a b = true ∨ leChars b a = true
  | [], _ => Or.inl (by simp [leChars])
  | _ :: _, [] => Or.inr (by simp [leChars])
  | c :: cs, d :: ds => by
    rcases Nat.lt_trichotomy c.toNat d.toNat with h | h | h
    · exact Or.inl (by simp [leChars, h])
    · rcases leChars_total cs ds with h' | h'
      · exact Or.inl (by simp [leChars, h, h'])
      · exact Or.inr (by simp [leChars, h, h'])
    · exact Or.inr (by simp [leChars, h])

theorem leChars_trans : ∀ (a b c : List Char),
    leChars a b = true → leChars b c = true → leChars a c = true
  | [], _, _, _, _ => by simp [leChars]
  | _ :: _, [], _, h, _ => by simp [leChars] at h
  | _ :: _, _ :: _, [], _, h => by simp [leChars] at h
  | x :: xs, y :: ys, z :: zs, h1, h2 => by
    simp only [leChars] at h1 h2 ⊢
    by_cases hxy : x.toNat < y.toNat
    · by_cases hyz : y.toNat < z.toNat
      · have : x.toNat < z.toNat := by omega
        simp [this]
      · by_cases hzy : z.toNat < y.toNat
        · simp [hyz, hzy] at h2
        · have : x.toNat < z.toNat := by omega
          simp [this]
    · by_cases hyx : y.toNat < x.toNat
      · simp [hxy, hyx] at h1
      · simp only [hxy, hyx, if_false] at h1
        by_cases hyz : y.toNat < z.toNat
        · have : x.toNat < z.toNat := by omega
          simp [this]
        · by_cases hzy : z.toNat < y.toNat
          · simp [hyz, hzy] at h2
          · simp only [hyz, hzy, if_false] at h2
            have h3 : ¬ x.toNat < z.toNat := by omega
            have h4 : ¬ z.toNat < x.toNat := by omega
            simp only [h3, h4, if_false]
            exact leChars_trans xs ys zs h1 h2

theorem leChars_antisymm : ∀ (a b : List Char),
    leChars a b = true → leChars b a = true → a = b
  | [], [], _, _ => rfl
  | [], _ :: _, _, h => by simp [leChars] at h
  | _ :: _, [], h, _ => by simp [leChars] at h
  | x :: xs, y :: ys, h1, h2 => by
    simp only [leChars] at h1 h2
    by_cases hxy : x.toNat < y.toNat
    · have : ¬ y.toNat < x.toNat := by omega
      simp [hxy, this] at h2
    · by_cases hyx : y.toNat < x.toNat
      · simp [hxy, hyx] at h1
      · simp only [hxy, hyx, if_false] at h1 h2
        have hn : x.toNat = y.toNat := by omega
        have hc : x = y := Char.ext (UInt32.ext hn)
        rw [hc, leChars_antisymm xs ys h1 h2]

theorem strLe_total (a b : String) : strLe a b = true ∨ strLe b a = true :=
  leChars_total a.data b.data

theorem strLe_trans (a b c : String) (h1 : strLe a b = true) (h2 : strLe b c = true) :
    strLe a c = true :=
  leChars_trans a.data b.data c.data h1 h2

theorem strLe_antisymm (a b : String) (h1 : strLe a b = true) (h2 : strLe b a = true) :
    a = b :=
  String.ext (leChars_antisymm a.data b.data h1 h2)

theorem insertString_perm (a : String) (l : List String) :
    (insertString a l).Perm (a :: l) := by
  induction l with
  | nil => simp [insertString]
  | cons b rest ih =>
    unfold insertString
    split
    · exact List.Perm.refl _
    · exact (List.Perm.cons b ih).trans (List.Perm.swap a b rest)

theorem sortStrings_perm (l : List String) : (sortStrings l).Perm l := by
  induction l with
  | nil => simp [sortStrings]
  | cons a rest ih =>
    unfold sortStrings
    exact (insertString_perm a _).trans (List.Perm.cons a ih)

theorem insertString_sorted (a : String) (l : List String)
    (h : List.Pairwise (fun x y => strLe x y = true) l) :
    List.Pairwise (fun x y => strLe x y = true) (insertString a l) := by
  induction l with
  | nil => simp [insertString]
  | cons b rest ih =>
    rw [List.pairwise_cons] at h
    unfold insertString
    split
    · rename_i hab
      refine List.pairwise_cons.2 ⟨?_, List.pairwise_cons.2 h⟩
      intro x hx
      rcases List.mem_cons.1 hx with rfl | hx
      · exact hab
      · exact strLe_trans _ _ _ hab (h.1 x hx)
    · rename_i hab
      have hba : strLe b a = true := by
        rcases strLe_total a b with h' | h'
        · exact absurd h' hab
        · exact h'
      refine List.pairwise_cons.2 ⟨?_, ih h.2⟩
      intro x hx
      rcases (mem_insertString a x rest).1 hx with rfl | hx
      · exact hba
      · exact h.1 x hx

theorem sortStrings_sorted (l : List String) :
    List.Pairwise (fun x y => strLe x y = true) (sortStrings l) := by
  induction l with
  | nil => simp [sortStrings]
  | cons a rest ih =>
    unfold sortStrings
    exact insertString_sorted a _ ih

/-- Two sorted lists with the same elements, counted with multiplicity, are equal. -/
theorem sorted_perm_eq : ∀ (l₁ l₂ : List String), l₁.Perm l₂ →
    List.Pairwise (fun x y => strLe x y = true) l₁ →
    List.Pairwise (fun x y => strLe x y = true) l₂ → l₁ = l₂ := by
  intro l₁ l₂ hp h1 h2
  have : IsAntisymm String (fun x y => strLe x y = true) := ⟨strLe_antisymm⟩
  exact List.eq_of_perm_of_sorted hp h1 h2

/-- The result of `sort.Strings` does not depend on the order of its input. -/
theorem sortStrings_eq_of_perm (l₁ l₂ : List String) (h : l₁.Perm l₂) :
    sortStrings l₁ = sortStrings l₂ :=
  sorted_perm_eq _ _ (((sortStrings_perm l₁).trans h).trans (sortStrings_perm l₂).symm)
    (sortStrings_sorted l₁) (sortStrings_sorted l₂)

/-! ## Lemmas on `generateCustomJobToolDefinition` -/

theorem foldl_customJobInputStep (inputs : List (String × InputDefinition)) :
    ∀ (st : JMap × List String),
      inputs.foldl customJobInputStep st =
        (inputs.foldl (fun acc e => setKey acc e.1 (JVal.obj (customJobProperty e.2))) st.1,
         st.2 ++ (inputs.filter (fun e => e.2.Required)).map Prod.fst) := by
  induction inputs with
  | nil => intro st; simp
  | cons e rest ih =>
    intro st
    rw [List.foldl_cons, ih]
    unfold customJobInputStep
    by_cases h : e.2.Required = true
    · simp [h, List.filter_cons]
    · simp [h, List.filter_cons]

/-- The `inputSchema` of a custom job tool in closed form. -/
theorem inputSchemaOf_customJob (jobName : String) (job : SafeJobConfig) :
    inputSchemaOf (generateCustomJobToolDefinition jobName job) =
      setKey
        (if (requiredInputs job).length > 0 then
          setKey [("type", JVal.str "object"), ("properties", JVal.obj (customJobProperties job))]
            "required" (strList (sortStrings (requiredInputs job)))
        else [("type", JVal.str "object"), ("properties", JVal.obj (customJobProperties job))])
        "additionalProperties" (JVal.bool false) := by
  have hst : (if job.Inputs.length > 0 then job.Inputs.foldl customJobInputStep ([], [])
      else ([], [])) = (customJobProperties job, requiredInputs job) := by
    cases h : job.Inputs with
    | nil => simp [customJobProperties, requiredInputs, h]
    | cons e rest =>
      simp only [List.length_cons, Nat.zero_lt_succ, if_true, gt_iff_lt]
      rw [foldl_customJobInputStep]
      simp [customJobProperties, requiredInputs, h]
  unfold inputSchemaOf generateCustomJobToolDefinition
  simp only [hst, getKey_setKey_self, asMap, Option.getD_some]

theorem getKey_inputSchemaOf_customJob (jobName : String) (job : SafeJobConfig) :
    getKey (inputSchemaOf (generateCustomJobToolDefinition jobName job)) "type" =
      some (JVal.str "object") ∧
    getKey (inputSchemaOf (generateCustomJobToolDefinition jobName job)) "properties" =
      some (JVal.obj (customJobProperties job)) ∧
    getKey (inputSchemaOf (generateCustomJobToolDefinition jobName job)) "additionalProperties" =
      some (JVal.bool false) ∧
    getKey (inputSchemaOf (generateCustomJobToolDefinition jobName job)) "required" =
      (if (requiredInputs job).length > 0 then
        some (strList (sortStrings (requiredInputs job))) else none) := by
  rw [inputSchemaOf_customJob]
  refine ⟨?_, ?_, ?_, ?_⟩
  · rw [getKey_setKey_ne _ _ _ _ (by decide), getKey_ite_setKey_ne _ _ _ _ _ (by decide)]
    simp [getKey]
  · rw [getKey_setKey_ne _ _ _ _ (by decide), getKey_ite_setKey_ne _ _ _ _ _ (by decide)]
    simp [getKey]
  · exact getKey_setKey_self _ _ _
  · rw [getKey_setKey_ne _ _ _ _ (by decide)]
    split
    · exact getKey_setKey_self _ _ _
    · simp [getKey]

/-! ## C12: the required list of a custom job tool -/

/-- C12: the `required` list in the `inputSchema` of the tool of a custom job is the sorted
list of exactly the input names whose `Required` flag is true: it is in lexicographic order,
has the required names and no other, has no duplicate (the names of a Go map are distinct),
and is the same for every iteration order of the inputs; the key `required` is absent when no
input is required. -/
theorem custom_job_required_sorted (jobName : String) (job : SafeJobConfig) :
    (requiredInputs job = [] →
      getKey (inputSchemaOf (generateCustomJobToolDefinition jobName job)) "required" = none) ∧
    (requiredInputs job ≠ [] →
      getKey (inputSchemaOf (generateCustomJobToolDefinition jobName job)) "required" =
        some (strList (sortStrings (requiredInputs job)))) ∧
    List.Pairwise (fun a b => strLe a b = true) (sortStrings (requiredInputs job)) ∧
    (∀ x, x ∈ sortStrings (requiredInputs job) ↔
      ∃ e ∈ job.Inputs, e.1 = x ∧ e.2.Required = true) ∧
    ((job.Inputs.map Prod.fst).Nodup → (sortStrings (requiredInputs job)).Nodup) ∧
    (∀ job' : SafeJobConfig, job'.Inputs.Perm job.Inputs →
      sortStrings (requiredInputs job') = sortStrings (requiredInputs job)) := by
  obtain ⟨_, _, _, hreq⟩ := getKey_inputSchemaOf_customJob jobName job
  refine ⟨?_, ?_, sortStrings_sorted _, ?_, ?_, ?_⟩
  · intro h
    rw [hreq, h]
    simp
  · intro h
    rw [hreq]
    simp [List.length_pos, h]
  · intro x
    rw [mem_sortStrings]
    unfold requiredInputs
    simp only [List.mem_map, List.mem_filter]
    constructor
    · rintro ⟨e, ⟨he, hr⟩, rfl⟩
      exact ⟨e, he, rfl, hr⟩
    · rintro ⟨e, he, rfl, hr⟩
      exact ⟨e, ⟨he, hr⟩, rfl⟩
  · intro hnd
    apply (sortStrings_perm _).nodup_iff.2
    unfold requiredInputs
    exact (List.Nodup.sublist (List.Sublist.map Prod.fst (List.filter_sublist _)) hnd)
  · intro job' hperm
    apply sortStrings_eq_of_perm
    unfold requiredInputs
    exact (hperm.filter _).map _

/-- Witness for C12: the required inputs `z`, `a`, `m` give the list `a`, `m`, `z`. -/
theorem custom_job_required_sorted_witness :
    requiredInputs { Inputs := [("z", { Required := true }), ("a", { Required := true }),
      ("opt", {}), ("m", { Required := true })] } = ["z", "a", "m"] ∧
    getKey (inputSchemaOf (generateCustomJobToolDefinition "job"
      { Inputs := [("z", { Required := true }), ("a", { Required := true }),
        ("opt", {}), ("m", { Required := true })] })) "required" =
      some (strList (sortStrings (requiredInputs
        { Inputs := [("z", { Required := true }), ("a", { Required := true }),
          ("opt", {}), ("m", { Required := true })] }))) ∧
    sortStrings ["z", "a", "m"] = ["a", "m", "z"] :=
  ⟨rfl,
   (custom_job_required_sorted "job"
      { Inputs := [("z", { Required := true }), ("a", { Required := true }),
        ("opt", {}), ("m", { Required := true })] }).2.1 (by decide),
   by decide⟩

/-! ## C13: the type mapping of custom job inputs -/

theorem propertiesOf_customJob (jobName : String) (job : SafeJobConfig) :
    propertiesOf (generateCustomJobToolDefinition jobName job) = customJobProperties job := by
  unfold propertiesOf
  rw [(getKey_inputSchemaOf_customJob jobName job).2.1]
  rfl

/-- C13: the property generated for an input of a custom job has `type` `boolean` for the
declared type boolean, `number` for number and `string` for choice, string, the empty type
and every other declared type; it has `enum`, equal to the declared options, exactly when the
declared type is choice and the options are non-empty; and it is the entry of the input in
the `properties` of the tool (the names of a Go map are distinct). -/
theorem custom_job_type_mapping (d : InputDefinition) :
    getKey (customJobProperty d) "type" = some (JVal.str (schemaType d.Type_)) ∧
    getKey (customJobProperty d) "enum" =
      (if d.Type_ = "choice" ∧ d.Options ≠ [] then some (strList d.Options) else none) ∧
    (∀ (jobName : String) (job : SafeJobConfig), (job.Inputs.map Prod.fst).Nodup →
      ∀ name, (name, d) ∈ job.Inputs →
        getKey (propertiesOf (generateCustomJobToolDefinition jobName job)) name =
          some (JVal.obj (customJobProperty d))) := by
  refine ⟨?_, ?_, ?_⟩
  · unfold customJobProperty schemaType
    rw [getKey_ite_setKey_ne _ _ _ _ _ (by decide)]
    by_cases h1 : d.Type_ = "choice"
    · simp only [h1, if_true]
      rw [getKey_ite_setKey_ne _ _ _ _ _ (by decide)]
      simp [getKey_setKey_self]
    · by_cases h2 : d.Type_ = "boolean"
      · simp [h2, getKey_setKey_self]
      · by_cases h3 : d.Type_ = "number"
        · simp [h3, getKey_setKey_self]
        · simp [h1, h2, h3, getKey_setKey_self]
  · unfold customJobProperty
    rw [getKey_ite_setKey_ne _ _ _ _ _ (by decide)]
    by_cases h1 : d.Type_ = "choice"
    · by_cases h2 : d.Options = []
      · simp [h1, h2, getKey_setKey_ne, getKey_ite_setKey_ne_right, getKey]
      · simp [h1, h2, List.length_pos, getKey_setKey_self]
    · by_cases h2 : d.Type_ = "boolean"
      · simp [h2, getKey_setKey_ne, getKey_ite_setKey_ne_right, getKey]
      · by_cases h3 : d.Type_ = "number"
        · simp [h3, getKey_setKey_ne, getKey_ite_setKey_ne_right, getKey]
        · simp [h1, h2, h3, getKey_setKey_ne, getKey_ite_setKey_ne_right, getKey]
  · intro jobName job hnd name hmem
    rw [propertiesOf_customJob]
    unfold customJobProperties
    exact getKey_foldl_setKey_mem (fun x => JVal.obj (customJobProperty x)) job.Inputs []
      hnd (name, d) hmem

/-- Witness for C13: a choice input with two options in a job with two inputs. -/
theorem custom_job_type_mapping_witness :
    customJobProperty { Type_ := "choice", Options := ["a", "b"] } =
      [("type", JVal.str "string"), ("enum", strList ["a", "b"])] ∧
    getKey (propertiesOf (generateCustomJobToolDefinition "job"
      { Inputs := [("mode", { Type_ := "choice", Options := ["a", "b"] }),
        ("dry", { Type_ := "boolean" })] })) "mode" =
      some (JVal.obj (customJobProperty { Type_ := "choice", Options := ["a", "b"] })) :=
  ⟨rfl,
   (custom_job_type_mapping { Type_ := "choice", Options := ["a", "b"] }).2.2 "job"
     { Inputs := [("mode", { Type_ := "choice", Options := ["a", "b"] }),
       ("dry", { Type_ := "boolean" })] } (by decide) "mode" (by simp)⟩

/-! ## Lemmas on `generateDispatchWorkflowTool` -/

/-- One iteration of the input loop on an input whose definition is a map. -/
theorem dispatchInputStep_obj (workflowName : String) (st : JMap × List String)
    (name : String) (m : JMap) :
    dispatchInputStep workflowName st (name, JVal.obj m) =
      (setKey st.1 name (JVal.obj (dispatchProperty workflowName name m)),
       if dispatchRequired m = true then st.2 ++ [name] else st.2) := by
  unfold dispatchInputStep dispatchProperty dispatchDescription dispatchRequired declaredType
    declaredOptions schemaType
  simp only [asMap]
  cases h1 : asString (getKey m "type") with
  | none =>
    cases h3 : getKey m "default" <;> cases h4 : asBool (getKey m "required") <;>
      cases h5 : asString (getKey m "description") <;> simp [setKey]
  | some t =>
    by_cases hn : t = "number"
    · subst hn
      cases h3 : getKey m "default" <;> cases h4 : asBool (getKey m "required") <;>
        cases h5 : asString (getKey m "description") <;> simp [setKey]
    · by_cases hb : t = "boolean"
      · subst hb
        cases h3 : getKey m "default" <;> cases h4 : asBool (getKey m "required") <;>
          cases h5 : asString (getKey m "description") <;> simp [setKey]
      · by_cases hc : t = "choice"
        · subst hc
          cases h2 : asArr (getKey m "options") with
          | none =>
            cases h3 : getKey m "default" <;> cases h4 : asBool (getKey m "required") <;>
              cases h5 : asString (getKey m "description") <;> simp [setKey]
          | some opts =>
            cases opts with
            | nil =>
              cases h3 : getKey m "default" <;> cases h4 : asBool (getKey m "required") <;>
                cases h5 : asString (getKey m "description") <;> simp [setKey]
            | cons o rest =>
              cases h3 : getKey m "default" <;> cases h4 : asBool (getKey m "required") <;>
                cases h5 : asString (getKey m "description") <;> simp
        · cases h3 : getKey m "default" <;> cases h4 : asBool (getKey m "required") <;>
            cases h5 : asString (getKey m "description") <;> simp [setKey, hn, hb, hc]

theorem dispatchInputStep_not_map (workflowName : String) (st : JMap × List String)
    (e : String × JVal) (h : asMap (some e.2) = none) :
    dispatchInputStep workflowName st e = st := by
  unfold dispatchInputStep
  simp [h]

theorem dispatchInputStep_cases (workflowName : String) (st : JMap × List String)
    (e : String × JVal) :
    (asMap (some e.2) = none ∧ dispatchInputStep workflowName st e = st) ∨
    ∃ m, e.2 = JVal.obj m ∧ dispatchInputStep workflowName st e =
      (setKey st.1 e.1 (JVal.obj (dispatchProperty workflowName e.1 m)),
       if dispatchRequired m = true then st.2 ++ [e.1] else st.2) := by
  obtain ⟨name, v⟩ := e
  cases v with
  | obj m => exact Or.inr ⟨m, rfl, dispatchInputStep_obj workflowName st name m⟩
  | _ => exact Or.inl ⟨rfl, dispatchInputStep_not_map workflowName st _ rfl⟩

theorem getKey_dispatchInputStep_ne (workflowName : String) (st : JMap × List String)
    (e : String × JVal) (k : String) (h : k ≠ e.1) :
    getKey (dispatchInputStep workflowName st e).1 k = getKey st.1 k := by
  rcases dispatchInputStep_cases workflowName st e with ⟨_, h'⟩ | ⟨m, _, h'⟩
  · rw [h']
  · rw [h']
    exact getKey_setKey_ne _ _ _ _ h

theorem getKey_foldl_dispatchInputStep_ne (workflowName : String) (k : String)
    (inputs : JMap) :
    ∀ (st : JMap × List String), (∀ e ∈ inputs, e.1 ≠ k) →
      getKey (inputs.foldl (dispatchInputStep workflowName) st).1 k = getKey st.1 k := by
  induction inputs with
  | nil => intro st _; rfl
  | cons e rest ih =>
    intro st h
    rw [List.foldl_cons, ih _ (fun e' he' => h e' (List.mem_cons_of_mem _ he'))]
    exact getKey_dispatchInputStep_ne _ _ _ _ (Ne.symm (h e (List.mem_cons_self _ _)))

theorem getKey_foldl_dispatchInputStep_mem (workflowName : String) (name : String) (m : JMap)
    (inputs : JMap) :
    ∀ (st : JMap × List String), (inputs.map Prod.fst).Nodup → (name, JVal.obj m) ∈ inputs →
      getKey (inputs.foldl (dispatchInputStep workflowName) st).1 name =
        some (JVal.obj (dispatchProperty workflowName name m)) := by
  induction inputs with
  | nil => intro st _ h; simp at h
  | cons e rest ih =>
    intro st hnd hmem
    rw [List.foldl_cons]
    rw [List.map_cons, List.nodup_cons] at hnd
    rcases List.mem_cons.1 hmem with h | h
    · subst h
      have hrest : ∀ x ∈ rest, x.1 ≠ name := by
        intro x hx hk
        apply hnd.1
        have := List.mem_map_of_mem Prod.fst hx
        rw [hk] at this
        exact this
      rw [getKey_foldl_dispatchInputStep_ne _ _ _ _ hrest]
      rw [dispatchInputStep_obj]
      exact getKey_setKey_self _ _ _
    · exact ih _ hnd.2 h

theorem foldl_dispatchInputStep_required (workflowName : String) (inputs : JMap) :
    ∀ (st : JMap × List String),
      (inputs.foldl (dispatchInputStep workflowName) st).2 =
        st.2 ++ dispatchRequiredInputs inputs := by
  induction inputs with
  | nil => intro st; simp [dispatchRequiredInputs]
  | cons e rest ih =>
    intro st
    rw [List.foldl_cons, ih]
    rcases dispatchInputStep_cases workflowName st e with ⟨hm, h'⟩ | ⟨m, hm, h'⟩
    · rw [h']
      simp [dispatchRequiredInputs, List.filterMap_cons, hm]
    · rw [h']
      by_cases hr : dispatchRequired m = true
      · simp [dispatchRequiredInputs, List.filterMap_cons, hm, asMap, hr]
      · simp [dispatchRequiredInputs, List.filterMap_cons, hm, asMap, hr]

/-- The `inputSchema` of a dispatch tool in closed form. -/
theorem inputSchemaOf_dispatch (norm : String → String) (workflowName : String)
    (inputs : JMap) :
    inputSchemaOf (generateDispatchWorkflowTool norm workflowName inputs) =
      (if (dispatchRequiredInputs inputs).length > 0 then
        setKey [("type", JVal.str "object"),
            ("properties", JVal.obj (dispatchProperties workflowName inputs)),
            ("additionalProperties", JVal.bool false)]
          "required" (strList (dispatchRequiredInputs inputs))
      else
        [("type", JVal.str "object"),
         ("properties", JVal.obj (dispatchProperties workflowName inputs)),
         ("additionalProperties", JVal.bool false)]) := by
  have hreq := foldl_dispatchInputStep_required workflowName inputs ([], [])
  simp only [List.nil_append] at hreq
  unfold inputSchemaOf generateDispatchWorkflowTool dispatchProperties
  simp only [hreq]
  simp [getKey, asMap]

theorem getKey_inputSchemaOf_dispatch (norm : String → String) (workflowName : String)
    (inputs : JMap) :
    getKey (inputSchemaOf (generateDispatchWorkflowTool norm workflowName inputs)) "type" =
      some (JVal.str "object") ∧
    getKey (inputSchemaOf (generateDispatchWorkflowTool norm workflowName inputs))
      "properties" = some (JVal.obj (dispatchProperties workflowName inputs)) ∧
    getKey (inputSchemaOf (generateDispatchWorkflowTool norm workflowName inputs))
      "additionalProperties" = some (JVal.bool false) ∧
    getKey (inputSchemaOf (generateDispatchWorkflowTool norm workflowName inputs))
      "required" =
      (if (dispatchRequiredInputs inputs).length > 0 then
        some (strList (dispatchRequiredInputs inputs)) else none) := by
  rw [inputSchemaOf_dispatch]
  refine ⟨?_, ?_, ?_, ?_⟩
  · rw [getKey_ite_setKey_ne _ _ _ _ _ (by decide)]
    simp [getKey]
  · rw [getKey_ite_setKey_ne _ _ _ _ _ (by decide)]
    simp [getKey]
  · rw [getKey_ite_setKey_ne _ _ _ _ _ (by decide)]
    simp [getKey]
  · split
    · exact getKey_setKey_self _ _ _
    · simp [getKey]

theorem propertiesOf_dispatch (norm : String → String) (workflowName : String)
    (inputs : JMap) :
    propertiesOf (generateDispatchWorkflowTool norm workflowName inputs) =
      dispatchProperties workflowName inputs := by
  unfold propertiesOf
  rw [(getKey_inputSchemaOf_dispatch norm workflowName inputs).2.1]
  rfl

/-! ## C14: the type mapping of dispatch inputs -/

/-- C14: for a workflow input whose definition is a map, the property that
`generateDispatchWorkflowTool` emits has `type` `number` for the type number, `boolean` for
boolean and `string` for choice, environment, string, a missing or non-string type and any
other type; it has `enum` exactly when the type is choice and `options` is a non-empty list;
and it is the entry of the input in the `properties` of the tool (the names of a Go map are
distinct). -/
theorem dispatch_type_mapping (workflowName name : String) (m : JMap) :
    getKey (dispatchProperty workflowName name m) "type" =
      some (JVal.str (schemaType (declaredType m))) ∧
    ((getKey (dispatchProperty workflowName name m) "enum").isSome = true ↔
      (declaredType m = "choice" ∧ declaredOptions m ≠ [])) ∧
    (∀ (norm : String → String) (inputs : JMap), (inputs.map Prod.fst).Nodup →
      (name, JVal.obj m) ∈ inputs →
        getKey (propertiesOf (generateDispatchWorkflowTool norm workflowName inputs)) name =
          some (JVal.obj (dispatchProperty workflowName name m))) := by
  refine ⟨?_, ?_, ?_⟩
  · unfold dispatchProperty
    split
    · rename_i h
      simp [getKey, schemaType, h.1]
    · split <;> simp [getKey]
  · unfold dispatchProperty
    split
    · rename_i h
      simp [getKey, h.1, List.length_pos.1 h.2]
    · rename_i h
      have hne : ¬ (declaredType m = "choice" ∧ declaredOptions m ≠ []) := by
        intro h'
        exact h ⟨h'.1, List.length_pos.2 h'.2⟩
      split
      · rw [getKey, if_neg (by decide), getKey, if_neg (by decide), getKey, if_neg (by decide),
          getKey]
        simp [hne]
      · rw [getKey, if_neg (by decide), getKey, if_neg (by decide), getKey]
        simp [hne]
  · intro norm inputs hnd hmem
    rw [propertiesOf_dispatch]
    exact getKey_foldl_dispatchInputStep_mem workflowName name m inputs _ hnd hmem

/-- Witness for C14: an `environment` input and a choice input with options. -/
theorem dispatch_type_mapping_witness :
    schemaType (declaredType [("type", JVal.str "environment")]) = "string" ∧
    getKey (propertiesOf (generateDispatchWorkflowTool
        sampleCollaborators.NormalizeSafeOutputIdentifier "deploy"
        [("target", JVal.obj [("type", JVal.str "environment")]),
         ("mode", JVal.obj [("type", JVal.str "choice"),
           ("options", JVal.arr [JVal.str "fast", JVal.str "safe"])])])) "target" =
      some (JVal.obj (dispatchProperty "deploy" "target" [("type", JVal.str "environment")])) ∧
    getKey (dispatchProperty "deploy" "mode" [("type", JVal.str "choice"),
        ("options", JVal.arr [JVal.str "fast", JVal.str "safe"])]) "enum" =
      some (JVal.arr [JVal.str "fast", JVal.str "safe"]) :=
  ⟨by decide,
   (dispatch_type_mapping "deploy" "target" [("type", JVal.str "environment")]).2.2
     sampleCollaborators.NormalizeSafeOutputIdentifier _ (by decide) (by simp),
   rfl⟩

/-! ## C15: the required list of a dispatch tool -/

/-- C15, the code at the failing input: for two required inputs `zone` and `app`, the
`required` list of the dispatch tool is in iteration order, `zone` before `app` when the map
is iterated that way and `app` before `zone` for the other order, so it is not sorted and it
depends on the iteration order; `generateCustomJobToolDefinition` sorts the same names. -/
theorem dispatch_required_in_iteration_order :
    getKey (inputSchemaOf (generateDispatchWorkflowTool
        sampleCollaborators.NormalizeSafeOutputIdentifier "deploy"
        [("zone", JVal.obj [("required", JVal.bool true)]),
         ("app", JVal.obj [("required", JVal.bool true)])])) "required" =
      some (strList ["zone", "app"]) ∧
    strLe "zone" "app" = false ∧
    getKey (inputSchemaOf (generateDispatchWorkflowTool
        sampleCollaborators.NormalizeSafeOutputIdentifier "deploy"
        [("app", JVal.obj [("required", JVal.bool true)]),
         ("zone", JVal.obj [("required", JVal.bool true)])])) "required" =
      some (strList ["app", "zone"]) ∧
    getKey (inputSchemaOf (generateCustomJobToolDefinition "deploy"
        { Inputs := [("zone", { Required := true }), ("app", { Required := true })] }))
      "required" = some (strList ["app", "zone"]) :=
  ⟨rfl, rfl, rfl, rfl⟩

/-- What the code does for every input map: the `required` list of a dispatch tool is the
list of the required inputs in iteration order, without sorting. -/
theorem dispatch_required_list (norm : String → String) (workflowName : String)
    (inputs : JMap) :
    getKey (inputSchemaOf (generateDispatchWorkflowTool norm workflowName inputs))
      "required" =
      (if (dispatchRequiredInputs inputs).length > 0 then
        some (strList (dispatchRequiredInputs inputs)) else none) :=
  (getKey_inputSchemaOf_dispatch norm workflowName inputs).2.2.2

/-! ## C16: the routing metadata of a dispatch tool -/

/-- C16: the tool that `generateDispatchWorkflowTool` returns for a workflow identifier `w`
has `_workflow_name` equal to `w` unchanged, `name` equal to the normalised `w`, and a
description that contains `w`. -/
theorem dispatch_routing_metadata (norm : String → String) (w : String) (inputs : JMap) :
    getKey (generateDispatchWorkflowTool norm w inputs) "_workflow_name" = some (JVal.str w) ∧
    getKey (generateDispatchWorkflowTool norm w inputs) "name" = some (JVal.str (norm w)) ∧
    ∃ before after,
      getKey (generateDispatchWorkflowTool norm w inputs) "description" =
        some (JVal.str (before ++ w ++ after)) := by
  refine ⟨by simp [generateDispatchWorkflowTool, getKey],
    by simp [generateDispatchWorkflowTool, getKey], ?_⟩
  exact ⟨_, _, by simp [generateDispatchWorkflowTool, getKey]; rfl⟩

/-! ## C17: strictness of the generated schemas -/

/-- C17: the `inputSchema` of the tool of a custom job and of a dispatch tool has `type`
`object`, a `properties` map, which is empty when there are no inputs, and
`additionalProperties` false. -/
theorem schema_strictness (jobName : String) (job : SafeJobConfig) (norm : String → String)
    (workflowName : String) (inputs : JMap) :
    (getKey (inputSchemaOf (generateCustomJobToolDefinition jobName job)) "type" =
        some (JVal.str "object") ∧
      getKey (inputSchemaOf (generateCustomJobToolDefinition jobName job)) "properties" =
        some (JVal.obj (customJobProperties job)) ∧
      (job.Inputs.isEmpty = true → customJobProperties job = []) ∧
      getKey (inputSchemaOf (generateCustomJobToolDefinition jobName job))
        "additionalProperties" = some (JVal.bool false)) ∧
    (getKey (inputSchemaOf (generateDispatchWorkflowTool norm workflowName inputs)) "type" =
        some (JVal.str "object") ∧
      getKey (inputSchemaOf (generateDispatchWorkflowTool norm workflowName inputs))
        "properties" = some (JVal.obj (dispatchProperties workflowName inputs)) ∧
      (inputs.isEmpty = true → dispatchProperties workflowName inputs = []) ∧
      getKey (inputSchemaOf (generateDispatchWorkflowTool norm workflowName inputs))
        "additionalProperties" = some (JVal.bool false)) := by
  obtain ⟨h1, h2, h3, _⟩ := getKey_inputSchemaOf_customJob jobName job
  obtain ⟨h4, h5, h6, _⟩ := getKey_inputSchemaOf_dispatch norm workflowName inputs
  refine ⟨⟨h1, h2, ?_, h3⟩, ⟨h4, h5, ?_, h6⟩⟩
  · intro h
    rw [List.isEmpty_iff] at h
    simp [customJobProperties, h]
  · intro h
    rw [List.isEmpty_iff] at h
    simp [dispatchProperties, h]

/-- Witness for C17: a custom job and a dispatch target without inputs. -/
theorem schema_strictness_witness :
    customJobProperties {} = [] ∧ dispatchProperties "deploy" [] = [] ∧
    inputSchemaOf (generateCustomJobToolDefinition "job" {}) =
      [("type", JVal.str "object"), ("properties", JVal.obj []),
       ("additionalProperties", JVal.bool false)] :=
  ⟨(schema_strictness "job" {} sampleCollaborators.NormalizeSafeOutputIdentifier "deploy"
      []).1.2.2.1 rfl,
   (schema_strictness "job" {} sampleCollaborators.NormalizeSafeOutputIdentifier "deploy"
      []).2.2.2.1 rfl,
   rfl⟩

/-! ## Lemmas on `addRepoParameterIfNeeded` -/

/-- The `switch` of `addRepoParameterIfNeeded` reads the two fields of the policy that the
table associates with the tool name. -/
theorem repoSwitch_eq (toolName : String) (s : SafeOutputsConfig) :
    repoSwitch toolName s = repoFields (repoPolicy toolName s) := by
  by_cases h0 : toolName = "create_issue"
  · subst h0
    simp [repoSwitch, repoPolicy]
  by_cases h1 : toolName = "create_discussion"
  · subst h1
    simp [repoSwitch, repoPolicy]
  by_cases h2 : toolName = "add_comment"
  · subst h2
    simp [repoSwitch, repoPolicy]
  by_cases h3 : toolName = "create_pull_request"
  · subst h3
    simp [repoSwitch, repoPolicy]
  by_cases h4 : toolName = "create_pull_request_review_comment"
  · subst h4
    simp [repoSwitch, repoPolicy]
  by_cases h5 : toolName = "create_agent_session"
  · subst h5
    simp [repoSwitch, repoPolicy]
  by_cases h6 : toolName = "close_issue"
  · subst h6
    cases hf : s.CloseIssues <;> simp [repoSwitch, repoPolicy, repoFields, hf]
  by_cases h7 : toolName = "update_issue"
  · subst h7
    cases hf : s.UpdateIssues <;> simp [repoSwitch, repoPolicy, repoFields, hf]
  by_cases h8 : toolName = "close_discussion"
  · subst h8
    cases hf : s.CloseDiscussions <;> simp [repoSwitch, repoPolicy, repoFields, hf]
  by_cases h9 : toolName = "update_discussion"
  · subst h9
    cases hf : s.UpdateDiscussions <;> simp [repoSwitch, repoPolicy, repoFields, hf]
  by_cases h10 : toolName = "close_pull_request"
  · subst h10
    cases hf : s.ClosePullRequests <;> simp [repoSwitch, repoPolicy, repoFields, hf]
  by_cases h11 : toolName = "update_pull_request"
  · subst h11
    cases hf : s.UpdatePullRequests <;> simp [repoSwitch, repoPolicy, repoFields, hf]
  by_cases h12 : toolName = "add_labels"
  · subst h12
    simp [repoSwitch, repoPolicy]
  by_cases h13 : toolName = "remove_labels"
  · subst h13
    simp [repoSwitch, repoPolicy]
  by_cases h14 : toolName = "hide_comment"
  · subst h14
    simp [repoSwitch, repoPolicy]
  by_cases h15 : toolName = "link_sub_issue"
  · subst h15
    simp [repoSwitch, repoPolicy]
  by_cases h16 : toolName = "mark_pull_request_as_ready_for_review"
  · subst h16
    simp [repoSwitch, repoPolicy]
  by_cases h17 : toolName = "add_reviewer"
  · subst h17
    simp [repoSwitch, repoPolicy]
  by_cases h18 : toolName = "assign_milestone"
  · subst h18
    simp [repoSwitch, repoPolicy]
  by_cases h19 : toolName = "assign_to_agent"
  · subst h19
    simp [repoSwitch, repoPolicy]
  by_cases h20 : toolName = "assign_to_user"
  · subst h20
    simp [repoSwitch, repoPolicy]
  simp [repoSwitch, repoPolicy, repoFields, h0, h1, h2, h3, h4, h5, h6, h7, h8, h9, h10, h11, h12, h13, h14, h15, h16, h17, h18, h19, h20]

theorem addRepoParameterIfNeeded_skip (wide : Char → Bool) (tool : JMap) (toolName : String)
    (s : SafeOutputsConfig)
    (h : ¬ ∃ p, repoPolicy toolName s = some p ∧ p.AllowedRepos ≠ []) :
    addRepoParameterIfNeeded wide tool toolName (some s) = tool := by
  unfold addRepoParameterIfNeeded
  simp only [repoSwitch_eq]
  cases hp : repoPolicy toolName s with
  | none => simp [repoFields]
  | some p =>
    have hal : p.AllowedRepos = [] := by
      by_contra hne
      exact h ⟨p, hp, hne⟩
    simp [repoFields, hal]

theorem addRepoParameterIfNeeded_inject (wide : Char → Bool) (tool : JMap) (toolName : String)
    (s : SafeOutputsConfig) (schema props : JMap) (p : OutputPolicy)
    (hs : asMap (getKey tool "inputSchema") = some schema)
    (hp : asMap (getKey schema "properties") = some props)
    (hpol : repoPolicy toolName s = some p) (hal : p.AllowedRepos ≠ []) :
    addRepoParameterIfNeeded wide tool toolName (some s) =
      setKey tool "inputSchema" (JVal.obj (setKey schema "properties"
        (JVal.obj (setKey props "repo" (repoProperty wide p.TargetRepoSlug))))) := by
  unfold addRepoParameterIfNeeded
  simp only [repoSwitch_eq, hpol, repoFields, hs, hp]
  simp [List.length_pos, hal, repoProperty]

theorem propertiesOf_inject (tool schema props : JMap) (v : JVal) :
    propertiesOf (setKey tool "inputSchema" (JVal.obj (setKey schema "properties"
      (JVal.obj (setKey props "repo" v))))) = setKey props "repo" v := by
  unfold propertiesOf inputSchemaOf
  simp [getKey_setKey_self, asMap]

theorem goQuoteChar_plain (wide : Char → Bool) (c : Char) (h : plainChar wide c = true) :
    goQuoteChar wide c = [c] := by
  unfold plainChar at h
  simp only [Bool.and_eq_true, Bool.not_eq_true', Bool.or_eq_false_iff,
    decide_eq_false_iff_not] at h
  obtain ⟨⟨h1, h2⟩, h3⟩ := h
  unfold goQuoteChar
  rw [if_neg h1, if_neg h2, if_pos h3]

theorem goQuote_plain (wide : Char → Bool) (x : String)
    (h : ∀ c ∈ x.data, plainChar wide c = true) :
    goQuote wide x = "\"" ++ x ++ "\"" := by
  have hflat : ∀ (l : List Char), (∀ c ∈ l, plainChar wide c = true) →
      l.flatMap (goQuoteChar wide) = l := by
    intro l
    induction l with
    | nil => intro _; rfl
    | cons c rest ih =>
      intro hl
      rw [List.flatMap_cons, goQuoteChar_plain wide c (hl c (List.mem_cons_self _ _)),
        ih (fun c' hc' => hl c' (List.mem_cons_of_mem _ hc'))]
      rfl
  unfold goQuote
  rw [hflat x.data h]
  apply String.ext
  simp [String.data_append]

/-- Runes that `%q` escapes whatever the table is: the no-break space U+00A0, the soft hyphen
U+00AD and the control U+0085 are not printable and are written with `\u` and four digits;
the tabulator has its named escape; a letter stays as it is. -/
theorem goQuoteChar_escapes (wide : Char → Bool) :
    goQuoteChar wide (Char.ofNat 160) = [Char.ofNat 92, 'u', '0', '0', 'a', '0'] ∧
    goQuoteChar wide (Char.ofNat 173) = [Char.ofNat 92, 'u', '0', '0', 'a', 'd'] ∧
    goQuoteChar wide (Char.ofNat 133) = [Char.ofNat 92, 'u', '0', '0', '8', '5'] ∧
    goQuoteChar wide (Char.ofNat 9) = [Char.ofNat 92, 't'] ∧
    goQuoteChar wide 'a' = ['a'] ∧
    goQuoteChar wide (Char.ofNat 233) = [Char.ofNat 233] :=
  ⟨rfl, rfl, rfl, rfl, rfl, rfl⟩

/-- The runes from space to `~` other than the double quote and the backslash are plain
whatever the table is. -/
theorem plainChar_ascii (wide : Char → Bool) (c : Char) (h1 : 32 ≤ c.toNat)
    (h2 : c.toNat ≤ 126) (h3 : c.toNat ≠ 34) (h4 : c.toNat ≠ 92) : plainChar wide c = true := by
  unfold plainChar IsPrint
  have h255 : c.toNat ≤ 255 := by omega
  simp [h1, h2, h3, h4, h255]

/-! ## C18: gating of the repo parameter -/

/-- C18: for a tool with an `inputSchema.properties` map, a tool name and a non-nil
aggregate, `addRepoParameterIfNeeded` injects the string property `repo` into the properties
(and changes no other property) when the policy associated with the tool name is non-nil and
its `AllowedRepos` list is non-empty, and returns the tool unchanged otherwise; in particular
a tool whose policy has an empty `AllowedRepos` list never gains `repo`. -/
theorem repo_parameter_gating (wide : Char → Bool) (tool : JMap) (toolName : String)
    (s : SafeOutputsConfig)
    (schema props : JMap) (hs : asMap (getKey tool "inputSchema") = some schema)
    (hp : asMap (getKey schema "properties") = some props) :
    (∀ p, repoPolicy toolName s = some p → p.AllowedRepos ≠ [] →
      getKey (propertiesOf (addRepoParameterIfNeeded wide tool toolName (some s))) "repo" =
        some (repoProperty wide p.TargetRepoSlug) ∧
      ∀ k, k ≠ "repo" →
        getKey (propertiesOf (addRepoParameterIfNeeded wide tool toolName (some s))) k =
          getKey props k) ∧
    ((¬ ∃ p, repoPolicy toolName s = some p ∧ p.AllowedRepos ≠ []) →
      addRepoParameterIfNeeded wide tool toolName (some s) = tool) ∧
    (∀ p, repoPolicy toolName s = some p → p.AllowedRepos = [] →
      addRepoParameterIfNeeded wide tool toolName (some s) = tool) := by
  refine ⟨?_, addRepoParameterIfNeeded_skip wide tool toolName s, ?_⟩
  · intro p hpol hal
    rw [addRepoParameterIfNeeded_inject wide tool toolName s schema props p hs hp hpol hal,
      propertiesOf_inject]
    exact ⟨getKey_setKey_self _ _ _, fun k hk => getKey_setKey_ne _ _ _ _ hk⟩
  · intro p hpol hal
    apply addRepoParameterIfNeeded_skip
    rintro ⟨p', hp', hne⟩
    rw [hpol] at hp'
    cases hp'
    exact hne hal

/-- Witness for C18: `create_issue` gains `repo` with a non-empty allow-list and is returned
unchanged with an empty one. -/
theorem repo_parameter_gating_witness :
    getKey (propertiesOf (addRepoParameterIfNeeded sampleWide sampleTool "create_issue"
        (some { CreateIssues := some { AllowedRepos := ["octo/app"] } }))) "repo" =
      some (repoProperty sampleWide "") ∧
    addRepoParameterIfNeeded sampleWide sampleTool "create_issue"
        (some { CreateIssues := some { AllowedRepos := [] } }) = sampleTool :=
  ⟨((repo_parameter_gating sampleWide sampleTool "create_issue"
      { CreateIssues := some { AllowedRepos := ["octo/app"] } }
      [("type", JVal.str "object"),
       ("properties", JVal.obj [("title", JVal.obj [("type", JVal.str "string")])])]
      [("title", JVal.obj [("type", JVal.str "string")])] rfl rfl).1
      { AllowedRepos := ["octo/app"] } rfl (by decide)).1,
   (repo_parameter_gating sampleWide sampleTool "create_issue"
      { CreateIssues := some { AllowedRepos := [] } }
      [("type", JVal.str "object"),
       ("properties", JVal.obj [("title", JVal.obj [("type", JVal.str "string")])])]
      [("title", JVal.obj [("type", JVal.str "string")])] rfl rfl).2.2
      { AllowedRepos := [] } rfl rfl⟩

/-! ## C19: the description of the repo parameter -/

/-- C19: whenever `addRepoParameterIfNeeded` injects `repo`, the injected property is
`type` `string` with a description that, for a non-empty `TargetRepoSlug`, contains the slug
quoted by `%q` as the default (the slug itself between double quotes when every rune of it
is printable and none is the double quote or the backslash; the other runes are written as
their escapes) and, for an empty `TargetRepoSlug`, is the fixed generic text, which mentions
no default.  The statement holds for every table of `strconv.IsPrint`. -/
theorem repo_parameter_description (wide : Char → Bool) (tool : JMap) (toolName : String)
    (s : SafeOutputsConfig)
    (schema props : JMap) (p : OutputPolicy)
    (hs : asMap (getKey tool "inputSchema") = some schema)
    (hp : asMap (getKey schema "properties") = some props)
    (hpol : repoPolicy toolName s = some p) (hal : p.AllowedRepos ≠ []) :
    getKey (propertiesOf (addRepoParameterIfNeeded wide tool toolName (some s))) "repo" =
      some (JVal.obj [("type", JVal.str "string"),
        ("description", JVal.str (repoDescription wide p.TargetRepoSlug))]) ∧
    (p.TargetRepoSlug ≠ "" →
      repoDescription wide p.TargetRepoSlug =
        "Target repository for this operation in \'owner/repo\' format. Default is " ++
          goQuote wide p.TargetRepoSlug ++
          ". Must be the target-repo or in the allowed-repos list.") ∧
    ((∀ c ∈ p.TargetRepoSlug.data, plainChar wide c = true) →
      goQuote wide p.TargetRepoSlug = "\"" ++ p.TargetRepoSlug ++ "\"") ∧
    (p.TargetRepoSlug = "" →
      repoDescription wide p.TargetRepoSlug =
        "Target repository for this operation in \'owner/repo\' format. Must be the target-repo or in the allowed-repos list.") := by
  refine ⟨?_, ?_, goQuote_plain wide _, ?_⟩
  · rw [addRepoParameterIfNeeded_inject wide tool toolName s schema props p hs hp hpol hal,
      propertiesOf_inject]
    exact getKey_setKey_self _ _ _
  · intro h
    simp [repoDescription, h]
  · intro h
    simp [repoDescription, h]

/-- Witness for C19: the description for the target slug `octo/app`. -/
theorem repo_parameter_description_witness :
    getKey (propertiesOf (addRepoParameterIfNeeded sampleWide sampleTool "add_comment"
        (some { AddComments := some { AllowedRepos := ["octo/lib"],
                                      TargetRepoSlug := "octo/app" } }))) "repo" =
      some (JVal.obj [("type", JVal.str "string"),
        ("description", JVal.str (repoDescription sampleWide "octo/app"))]) ∧
    repoDescription sampleWide "octo/app" =
      "Target repository for this operation in \'owner/repo\' format. Default is \"octo/app\". Must be the target-repo or in the allowed-repos list." :=
  ⟨(repo_parameter_description sampleWide sampleTool "add_comment"
      { AddComments := some { AllowedRepos := ["octo/lib"], TargetRepoSlug := "octo/app" } }
      [("type", JVal.str "object"),
       ("properties", JVal.obj [("title", JVal.obj [("type", JVal.str "string")])])]
      [("title", JVal.obj [("type", JVal.str "string")])]
      { AllowedRepos := ["octo/lib"], TargetRepoSlug := "octo/app" } rfl rfl rfl
      (by decide)).1,
   by decide⟩

/-! ## C20: precedence of the dispatch workflow files -/

theorem populateStep_eq (env : Collaborators) (path : String) (files : List (String × String))
    (w : String) :
    populateStep env path files w =
      (match resolvedExtension env path w with
       | some ext => setKey files w ext
       | none => files) := by
  unfold populateStep resolvedExtension
  cases env.findWorkflowFile w path with
  | none => rfl
  | some r =>
    by_cases h1 : r.lockExists = true
    · simp [h1]
    · by_cases h2 : r.ymlExists = true
      · simp [h1, h2]
      · simp [h1, h2]

theorem getKey_foldl_populateStep (env : Collaborators) (path : String) (k : String)
    (workflows : List String) :
    ∀ (files : List (String × String)),
      getKey (workflows.foldl (populateStep env path) files) k =
        (if k ∈ workflows then
          (match resolvedExtension env path k with
           | some ext => some ext
           | none => getKey files k)
        else getKey files k) := by
  induction workflows with
  | nil => intro files; simp
  | cons w rest ih =>
    intro files
    rw [List.foldl_cons, ih, populateStep_eq]
    by_cases hkw : k = w
    · subst hkw
      cases hr : resolvedExtension env path k with
      | none => simp
      | some ext => simp [getKey_setKey_self]
    · have hstep : getKey (match resolvedExtension env path w with
          | some ext => setKey files w ext
          | none => files) k = getKey files k := by
        cases resolvedExtension env path w with
        | none => rfl
        | some ext => exact getKey_setKey_ne _ _ _ _ hkw
      rw [hstep]
      simp [hkw]

/-- The files map after `populateDispatchWorkflowFiles`. -/
theorem workflowFilesOf_populate (env : Collaborators) (path : String) (s : SafeOutputsConfig)
    (d : DispatchWorkflowConfig) (hd : s.DispatchWorkflow = some d) :
    workflowFilesOf (populateDispatchWorkflowFiles env { SafeOutputs := some s } path) =
      d.Workflows.foldl (populateStep env path) d.WorkflowFiles := by
  unfold populateDispatchWorkflowFiles
  simp only [hd]
  cases hw : d.Workflows with
  | nil => simp [workflowFilesOf, hd]
  | cons w rest => simp [workflowFilesOf]

/-- C20: for every configured workflow `w`, after `populateDispatchWorkflowFiles` the entry
`WorkflowFiles[w]` is `.lock.yml` when the lock artifact exists, whether or not the raw
artifact exists, is `.yml` when only the raw artifact exists, and is left as it was, hence
unset when it was unset, when neither exists or the lookup fails. -/
theorem dispatch_precedence (env : Collaborators) (path : String) (s : SafeOutputsConfig)
    (d : DispatchWorkflowConfig) (hd : s.DispatchWorkflow = some d) (w : String)
    (hw : w ∈ d.Workflows) :
    (∀ r, env.findWorkflowFile w path = some r → r.lockExists = true →
      getKey (workflowFilesOf (populateDispatchWorkflowFiles env { SafeOutputs := some s } path))
        w = some ".lock.yml") ∧
    (∀ r, env.findWorkflowFile w path = some r → r.lockExists = false → r.ymlExists = true →
      getKey (workflowFilesOf (populateDispatchWorkflowFiles env { SafeOutputs := some s } path))
        w = some ".yml") ∧
    ((env.findWorkflowFile w path = none ∨
        ∃ r, env.findWorkflowFile w path = some r ∧ r.lockExists = false ∧
          r.ymlExists = false) →
      getKey (workflowFilesOf (populateDispatchWorkflowFiles env { SafeOutputs := some s } path))
          w = getKey d.WorkflowFiles w ∧
        (getKey d.WorkflowFiles w = none →
          getKey (workflowFilesOf
            (populateDispatchWorkflowFiles env { SafeOutputs := some s } path)) w = none)) := by
  rw [workflowFilesOf_populate env path s d hd, getKey_foldl_populateStep]
  simp only [hw, if_true]
  refine ⟨?_, ?_, ?_⟩
  · intro r hr hl
    simp [resolvedExtension, hr, hl]
  · intro r hr hl hy
    simp [resolvedExtension, hr, hl, hy]
  · intro h
    have hres : resolvedExtension env path w = none := by
      rcases h with h | ⟨r, hr, hl, hy⟩
      · simp [resolvedExtension, h]
      · simp [resolvedExtension, hr, hl, hy]
    simp [hres]

/-- Witness for C20: both artifacts give `.lock.yml`, the raw artifact alone gives `.yml`,
and a workflow with neither artifact and a failed lookup stay unset. -/
theorem dispatch_precedence_witness :
    workflowFilesOf (populateDispatchWorkflowFiles sampleLocator
      { SafeOutputs := some
          { DispatchWorkflow := some { Workflows := ["both", "raw", "source", "gone"] } } }
      "wf.md") = [("both", ".lock.yml"), ("raw", ".yml")] ∧
    getKey (workflowFilesOf (populateDispatchWorkflowFiles sampleLocator
      { SafeOutputs := some
          { DispatchWorkflow := some { Workflows := ["both", "raw", "source", "gone"] } } }
      "wf.md")) "both" = some ".lock.yml" :=
  ⟨by decide,
   (dispatch_precedence sampleLocator "wf.md"
      { DispatchWorkflow := some { Workflows := ["both", "raw", "source", "gone"] } }
      { Workflows := ["both", "raw", "source", "gone"] } rfl "both" (by decide)).1
      { lockExists := true, lockPath := "both.lock.yml", ymlExists := true,
        ymlPath := "both.yml" } rfl rfl⟩

/-! ## C21: partial success of the dispatch tools -/

theorem dispatchToolStep_eq (env : Collaborators) (path : String)
    (st : List JMap × List (String × String)) (w : String) :
    dispatchToolStep env path st w =
      (st.1 ++ [dispatchToolOf env path w], populateStep env path st.2 w) := by
  unfold dispatchToolStep dispatchToolOf dispatchInputsOf populateStep
  cases hf : env.findWorkflowFile w path with
  | none => rfl
  | some r =>
    by_cases h1 : r.lockExists = true
    · cases he : env.extractWorkflowDispatchInputs r.lockPath <;> simp [h1, he]
    · by_cases h2 : r.ymlExists = true
      · cases he : env.extractWorkflowDispatchInputs r.ymlPath <;> simp [h1, h2, he]
      · simp [h1, h2]

theorem foldl_dispatchToolStep (env : Collaborators) (path : String) (ws : List String) :
    ∀ (st : List JMap × List (String × String)),
      ws.foldl (dispatchToolStep env path) st =
        (st.1 ++ ws.map (dispatchToolOf env path), ws.foldl (populateStep env path) st.2) := by
  induction ws with
  | nil => intro st; simp
  | cons w rest ih =>
    intro st
    rw [List.foldl_cons, ih, dispatchToolStep_eq]
    simp

/-- The tool list that `addDispatchWorkflowTools` returns. -/
theorem addDispatchWorkflowTools_tools (env : Collaborators) (acc : List JMap)
    (s : SafeOutputsConfig) (path : String) :
    (addDispatchWorkflowTools env acc s path).1 = acc ++ dispatchToolsOf env s path := by
  unfold addDispatchWorkflowTools dispatchToolsOf
  cases hd : s.DispatchWorkflow with
  | none => simp
  | some d =>
    by_cases h0 : d.Workflows.length = 0
    · have hnil : d.Workflows = [] := List.length_eq_zero.1 h0
      simp [hnil]
    · simp only [h0, if_false]
      rw [foldl_dispatchToolStep]

theorem dispatchToolOf_of_fails (env : Collaborators) (path w : String)
    (h : dispatchResolutionFails env path w) : dispatchInputsOf env path w = [] := by
  unfold dispatchInputsOf
  rcases h with h | ⟨r, hr, hl, hy⟩ | ⟨r, hr, hl, he⟩ | ⟨r, hr, hl, hy, he⟩
  · simp [h]
  · simp [hr, hl, hy]
  · simp [hr, hl, he]
  · simp [hr, hl, hy, he]

/-- C21: `addDispatchWorkflowTools` appends exactly one tool per configured workflow, in the
configured list order, whatever the locator and the extractor return: the list after the call
is the list before it followed by the tools of the workflows, the `_workflow_name` of the
i-th appended tool is the i-th identifier, and a workflow whose lookup fails, whose artifacts
are both missing or whose input extraction fails gets a tool with empty properties and no
`required` key. -/
theorem dispatch_tools_partial_success (env : Collaborators) (acc : List JMap)
    (s : SafeOutputsConfig) (d : DispatchWorkflowConfig) (path : String)
    (hd : s.DispatchWorkflow = some d) :
    (addDispatchWorkflowTools env acc s path).1 =
      acc ++ d.Workflows.map (dispatchToolOf env path) ∧
    ((addDispatchWorkflowTools env acc s path).1.drop acc.length).map
      (fun t => getKey t "_workflow_name") = d.Workflows.map (fun w => some (JVal.str w)) ∧
    (∀ w, dispatchResolutionFails env path w →
      propertiesOf (dispatchToolOf env path w) = [] ∧
      getKey (inputSchemaOf (dispatchToolOf env path w)) "required" = none) := by
  have htools : (addDispatchWorkflowTools env acc s path).1 =
      acc ++ d.Workflows.map (dispatchToolOf env path) := by
    rw [addDispatchWorkflowTools_tools]
    simp [dispatchToolsOf, hd]
  refine ⟨htools, ?_, ?_⟩
  · rw [htools, List.drop_left, List.map_map]
    apply List.map_congr_left
    intro w _
    simp [dispatchToolOf, generateDispatchWorkflowTool, getKey]
  · intro w hw
    unfold dispatchToolOf
    rw [dispatchToolOf_of_fails env path w hw, propertiesOf_dispatch]
    refine ⟨rfl, ?_⟩
    rw [dispatch_required_list]
    rfl

/-- Witness for C21: four workflows, of which one has no artifact and one fails the lookup. -/
theorem dispatch_tools_partial_success_witness :
    ((addDispatchWorkflowTools sampleLocator [sampleTool]
        { DispatchWorkflow := some { Workflows := ["both", "raw", "source", "gone"] } }
        "wf.md").1.drop [sampleTool].length).map (fun t => getKey t "_workflow_name") =
      ["both", "raw", "source", "gone"].map (fun w => some (JVal.str w)) ∧
    dispatchResolutionFails sampleLocator "wf.md" "gone" ∧
    propertiesOf (dispatchToolOf sampleLocator "wf.md" "gone") = [] :=
  ⟨(dispatch_tools_partial_success sampleLocator [sampleTool]
      { DispatchWorkflow := some { Workflows := ["both", "raw", "source", "gone"] } }
      { Workflows := ["both", "raw", "source", "gone"] } "wf.md" rfl).2.1,
   Or.inl rfl,
   ((dispatch_tools_partial_success sampleLocator [sampleTool]
      { DispatchWorkflow := some { Workflows := ["both", "raw", "source", "gone"] } }
      { Workflows := ["both", "raw", "source", "gone"] } "wf.md" rfl).2.2 "gone"
      (Or.inl rfl)).1⟩

/-! ## Lemmas on maps with distinct keys -/

theorem getKey_eq_some_of_mem {β : Type} (l : List (String × β)) (k : String) (v : β)
    (hnd : (l.map Prod.fst).Nodup) (h : (k, v) ∈ l) : getKey l k = some v := by
  induction l with
  | nil => simp at h
  | cons e rest ih =>
    obtain ⟨k', v'⟩ := e
    rw [List.map_cons, List.nodup_cons] at hnd
    rcases List.mem_cons.1 h with h | h
    · cases h
      simp [getKey]
    · have hne : k' ≠ k := by
        intro hk
        apply hnd.1
        rw [hk]
        exact List.mem_map.2 ⟨(k, v), h, rfl⟩
      simp [getKey, hne, ih hnd.2 h]

theorem mem_of_getKey_eq_some {β : Type} (l : List (String × β)) (k : String) (v : β)
    (h : getKey l k = some v) : (k, v) ∈ l := by
  induction l with
  | nil => simp [getKey] at h
  | cons e rest ih =>
    obtain ⟨k', v'⟩ := e
    by_cases hk : k' = k
    · simp [getKey, hk] at h
      simp [hk, h]
    · simp [getKey, hk] at h
      exact List.mem_cons_of_mem _ (ih h)

theorem getKey_isSome_iff_mem_keys {β : Type} (l : List (String × β)) (k : String) :
    (getKey l k).isSome = true ↔ k ∈ l.map Prod.fst := by
  induction l with
  | nil => simp [getKey]
  | cons e rest ih =>
    obtain ⟨k', v'⟩ := e
    by_cases hk : k' = k
    · simp [getKey, hk]
    · simp only [getKey, hk, if_false, ih, List.map_cons, List.mem_cons]
      constructor
      · exact Or.inr
      · rintro (h | h)
        · exact absurd h.symm hk
        · exact h

theorem getKey_perm {β : Type} (l l' : List (String × β)) (k : String)
    (hnd : (l.map Prod.fst).Nodup) (hp : l.Perm l') : getKey l k = getKey l' k := by
  have hnd' : (l'.map Prod.fst).Nodup := (hp.map Prod.fst).nodup_iff.1 hnd
  cases h : getKey l k with
  | some v =>
    exact (getKey_eq_some_of_mem l' k v hnd' (hp.subset (mem_of_getKey_eq_some l k v h))).symm
  | none =>
    cases h' : getKey l' k with
    | none => rfl
    | some v =>
      have := getKey_eq_some_of_mem l k v hnd (hp.symm.subset (mem_of_getKey_eq_some l' k v h'))
      rw [h] at this
      exact Option.noConfusion this

/-! ## C22: the order of the custom job tools -/

theorem foldl_customJob (env : Collaborators) (jobs : List (String × SafeJobConfig))
    (names : List String) :
    ∀ (acc : List JMap),
      names.foldl
        (fun acc jobName =>
          match getKey jobs jobName with
          | some jobConfig =>
            acc ++ [generateCustomJobToolDefinition (env.NormalizeSafeOutputIdentifier jobName)
              jobConfig]
          | none => acc) acc =
      acc ++ names.filterMap (fun jobName =>
        (getKey jobs jobName).map (fun jobConfig =>
          generateCustomJobToolDefinition (env.NormalizeSafeOutputIdentifier jobName)
            jobConfig)) := by
  induction names with
  | nil => intro acc; simp
  | cons n rest ih =>
    intro acc
    rw [List.foldl_cons, ih]
    cases h : getKey jobs n with
    | none => simp [List.filterMap_cons, h]
    | some jc => simp [List.filterMap_cons, h]

/-- The list that `addCustomJobTools` returns. -/
theorem addCustomJobTools_eq (env : Collaborators) (acc : List JMap) (s : SafeOutputsConfig) :
    addCustomJobTools env acc s = acc ++ customJobToolsOf env s.Jobs := by
  unfold addCustomJobTools customJobToolsOf
  by_cases h0 : s.Jobs.length = 0
  · have hnil : s.Jobs = [] := List.length_eq_zero.1 h0
    simp [hnil, sortStrings]
  · simp only [h0, if_false]
    exact foldl_customJob env s.Jobs _ acc

theorem customJobToolsOf_eq_map (env : Collaborators) (jobs : List (String × SafeJobConfig)) :
    customJobToolsOf env jobs =
      (sortedJobs jobs).map (fun j =>
        generateCustomJobToolDefinition (env.NormalizeSafeOutputIdentifier j.1) j.2) := by
  unfold customJobToolsOf sortedJobs
  rw [List.map_filterMap]
  apply List.filterMap_congr
  intro n _
  cases getKey jobs n <;> rfl

theorem sortedJobs_keys (jobs : List (String × SafeJobConfig)) :
    (sortedJobs jobs).map Prod.fst = sortStrings (jobs.map Prod.fst) := by
  unfold sortedJobs
  have hgen : ∀ (names : List String), (∀ n ∈ names, n ∈ jobs.map Prod.fst) →
      (names.filterMap (fun jobName =>
        (getKey jobs jobName).map (fun jobConfig => (jobName, jobConfig)))).map Prod.fst =
        names := by
    intro names
    induction names with
    | nil => intro _; rfl
    | cons n rest ih =>
      intro h
      obtain ⟨jc, hjc⟩ := Option.isSome_iff_exists.1
        ((getKey_isSome_iff_mem_keys jobs n).2 (h n (List.mem_cons_self _ _)))
      simp [List.filterMap_cons, hjc, ih (fun x hx => h x (List.mem_cons_of_mem _ hx))]
  exact hgen _ (fun n hn => (mem_sortStrings n _).1 hn)

theorem mem_sortedJobs (jobs : List (String × SafeJobConfig))
    (hnd : (jobs.map Prod.fst).Nodup) (j : String × SafeJobConfig) :
    j ∈ sortedJobs jobs ↔ j ∈ jobs := by
  unfold sortedJobs
  simp only [List.mem_filterMap, Option.map_eq_some']
  constructor
  · rintro ⟨n, _, jc, hjc, rfl⟩
    exact mem_of_getKey_eq_some jobs n jc hjc
  · intro hj
    refine ⟨j.1, (mem_sortStrings _ _).2 (List.mem_map_of_mem Prod.fst hj), j.2, ?_, rfl⟩
    exact getKey_eq_some_of_mem jobs j.1 j.2 hnd hj

theorem sortedJobs_perm (jobs : List (String × SafeJobConfig))
    (hnd : (jobs.map Prod.fst).Nodup) : (sortedJobs jobs).Perm jobs := by
  classical
  apply (List.perm_ext_iff_of_nodup ?_ (List.Nodup.of_map Prod.fst hnd)).2
  · intro j
    exact mem_sortedJobs jobs hnd j
  · apply List.Nodup.of_map Prod.fst
    rw [sortedJobs_keys]
    exact (sortStrings_perm _).nodup_iff.2 hnd

/-- C22: `addCustomJobTools` keeps the existing entries in front and appends exactly one tool
per job (the names of a Go map are distinct), in lexicographic order of the original job
names, whatever the iteration order of the `Jobs` map is. -/
theorem custom_job_tool_order (env : Collaborators) (acc : List JMap) (s : SafeOutputsConfig)
    (hnd : (s.Jobs.map Prod.fst).Nodup) :
    addCustomJobTools env acc s =
      acc ++ (sortedJobs s.Jobs).map (fun j =>
        generateCustomJobToolDefinition (env.NormalizeSafeOutputIdentifier j.1) j.2) ∧
    (sortedJobs s.Jobs).Perm s.Jobs ∧
    List.Pairwise (fun a b => strLe a.1 b.1 = true) (sortedJobs s.Jobs) ∧
    (∀ s' : SafeOutputsConfig, s'.Jobs.Perm s.Jobs →
      addCustomJobTools env acc s' = addCustomJobTools env acc s) := by
  refine ⟨?_, sortedJobs_perm s.Jobs hnd, ?_, ?_⟩
  · rw [addCustomJobTools_eq, customJobToolsOf_eq_map]
  · have h := sortStrings_sorted (s.Jobs.map Prod.fst)
    rw [← sortedJobs_keys, List.pairwise_map] at h
    exact h
  · intro s' hp
    rw [addCustomJobTools_eq, addCustomJobTools_eq]
    congr 1
    unfold customJobToolsOf
    rw [sortStrings_eq_of_perm _ _ (hp.map Prod.fst)]
    apply List.filterMap_congr
    intro n _
    rw [getKey_perm s.Jobs s'.Jobs n hnd hp.symm]

/-- Witness for C22: the jobs `zeta`, `alpha`, `mid-job` give the tools `alpha`, `mid_job`,
`zeta` after the existing entry. -/
theorem custom_job_tool_order_witness :
    (addCustomJobTools sampleCollaborators [sampleTool]
      { Jobs := [("zeta", {}), ("alpha", {}), ("mid-job", {})] }).map toolName =
      [some "create_issue", some "alpha", some "mid_job", some "zeta"] ∧
    addCustomJobTools sampleCollaborators [sampleTool]
        { Jobs := [("zeta", {}), ("alpha", {}), ("mid-job", {})] } =
      [sampleTool] ++ (sortedJobs [("zeta", {}), ("alpha", {}), ("mid-job", {})]).map (fun j =>
        generateCustomJobToolDefinition
          (sampleCollaborators.NormalizeSafeOutputIdentifier j.1) j.2) :=
  ⟨by decide,
   (custom_job_tool_order sampleCollaborators [sampleTool]
      { Jobs := [("zeta", {}), ("alpha", {}), ("mid-job", {})] } (by decide)).1⟩

/-! ## C23: composition of the catalog -/

theorem foldl_filterStep (env : Collaborators) (s : SafeOutputsConfig) (enabled : List String)
    (allTools : List JMap) :
    ∀ (acc : List JMap),
      allTools.foldl (filterStep env s enabled) acc =
        acc ++ allTools.filterMap (fun tool =>
          match toolName tool with
          | some name =>
            if enabled.contains name then some (enhanceTool env s name tool) else none
          | none => none) := by
  induction allTools with
  | nil => intro acc; simp
  | cons u rest ih =>
    intro acc
    rw [List.foldl_cons, ih]
    unfold filterStep toolName
    cases hn : asString (getKey u "name") with
    | none => simp [List.filterMap_cons, toolName, hn]
    | some n =>
      by_cases hen : n ∈ enabled
      · simp [List.filterMap_cons, toolName, hn, hen]
      · simp [List.filterMap_cons, toolName, hn, hen]

/-- The tool list that is encoded, in closed form. -/
theorem filteredToolsList_eq (env : Collaborators) (allTools : List JMap)
    (s : SafeOutputsConfig) (path : String) :
    (filteredToolsList env allTools s path).1 =
      enabledUniverseTools env s allTools ++ customJobToolsOf env s.Jobs ++
        dispatchToolsOf env s path := by
  unfold filteredToolsList
  simp only []
  rw [addDispatchWorkflowTools_tools, addCustomJobTools_eq, foldl_filterStep]
  simp [enabledUniverseTools]

theorem mem_enabledUniverseTools (env : Collaborators) (s : SafeOutputsConfig)
    (allTools : List JMap) (t : JMap) (h : t ∈ enabledUniverseTools env s allTools) :
    ∃ u ∈ allTools, ∃ name, toolName u = some name ∧
      name ∈ buildEnabledToolsSet (some s) ∧ t = enhanceTool env s name u ∧
      toolName t = some name := by
  unfold enabledUniverseTools at h
  rw [List.mem_filterMap] at h
  obtain ⟨u, hu, ht⟩ := h
  cases hn : toolName u with
  | none => simp [hn] at ht
  | some n =>
    simp only [hn] at ht
    by_cases hen : n ∈ buildEnabledToolsSet (some s)
    · simp [hen] at ht
      refine ⟨u, hu, n, hn, hen, ht.symm, ?_⟩
      rw [← ht, toolName_enhanceTool, hn]
    · simp [hen] at ht

theorem enabledUniverseTools_names (env : Collaborators) (s : SafeOutputsConfig)
    (allTools : List JMap) :
    (enabledUniverseTools env s allTools).map toolName =
      ((allTools.filterMap toolName).filter
        (fun name => (buildEnabledToolsSet (some s)).contains name)).map some := by
  unfold enabledUniverseTools
  induction allTools with
  | nil => rfl
  | cons u rest ih =>
    cases hn : toolName u with
    | none =>
      rw [List.filterMap_cons, List.filterMap_cons]
      simp only [hn]
      exact ih
    | some n =>
      rw [List.filterMap_cons, List.filterMap_cons]
      simp only [hn]
      by_cases hen : (buildEnabledToolsSet (some s)).contains n = true
      · rw [if_pos hen, List.filter_cons_of_pos hen, List.map_cons, List.map_cons, ih,
          toolName_enhanceTool, hn]
      · rw [if_neg hen, List.filter_cons_of_neg hen]
        exact ih

/-- C23: for every static universe and non-nil aggregate, the catalog that
`generateFilteredToolsJSON` encodes consists of the (enhanced) universe descriptors whose name
is in `buildEnabledToolsSet`, in universe order, followed by the custom job tools, followed
by the dispatch tools; every entry of the first part comes from a universe descriptor with an
enabled name, so that no descriptor whose name is not enabled appears. -/
theorem catalog_composition (env : Collaborators) (allTools : List JMap)
    (s : SafeOutputsConfig) (path : String) :
    (filteredToolsList env allTools s path).1 =
      enabledUniverseTools env s allTools ++ customJobToolsOf env s.Jobs ++
        dispatchToolsOf env s path ∧
    (enabledUniverseTools env s allTools).map toolName =
      ((allTools.filterMap toolName).filter
        (fun name => (buildEnabledToolsSet (some s)).contains name)).map some ∧
    (∀ t ∈ enabledUniverseTools env s allTools,
      ∃ u ∈ allTools, ∃ name, toolName u = some name ∧
        name ∈ buildEnabledToolsSet (some s) ∧ t = enhanceTool env s name u) ∧
    (env.allTools = some allTools →
      (generateFilteredToolsJSON env { SafeOutputs := some s } path).1 =
        encodeCatalog (filteredToolsList env allTools s path).1) := by
  refine ⟨filteredToolsList_eq env allTools s path, enabledUniverseTools_names env s allTools,
    ?_, ?_⟩
  · intro t ht
    obtain ⟨u, hu, n, hn, hen, hte, _⟩ := mem_enabledUniverseTools env s allTools t ht
    exact ⟨u, hu, n, hn, hen, hte⟩
  · intro h
    unfold generateFilteredToolsJSON encodeCatalog
    simp only [h]
    cases (if (filteredToolsList env allTools s path).1.isEmpty = true then some "null"
      else marshalIndent 0 (JVal.arr (List.map JVal.obj
        (filteredToolsList env allTools s path).1))) <;> rfl

/-- Witness for C23: one enabled universe descriptor, one custom job and one dispatch
target. -/
theorem catalog_composition_witness :
    sampleCollaborators.allTools = some sampleUniverse ∧
    (generateFilteredToolsJSON sampleCollaborators
      { SafeOutputs := some
          { MissingTool := some {}, Jobs := [("deploy", {})],
            DispatchWorkflow := some { Workflows := ["ci"] } } } "wf.md").1 =
      encodeCatalog (filteredToolsList sampleCollaborators sampleUniverse
          { MissingTool := some {}, Jobs := [("deploy", {})],
            DispatchWorkflow := some { Workflows := ["ci"] } } "wf.md").1 ∧
    (filteredToolsList sampleCollaborators sampleUniverse
          { MissingTool := some {}, Jobs := [("deploy", {})],
            DispatchWorkflow := some { Workflows := ["ci"] } } "wf.md").1.map toolName =
      [some "missing_tool", some "deploy", some "ci"] :=
  ⟨rfl,
   (catalog_composition sampleCollaborators sampleUniverse
      { MissingTool := some {}, Jobs := [("deploy", {})],
        DispatchWorkflow := some { Workflows := ["ci"] } } "wf.md").2.2.2 rfl,
   by decide⟩

/-! ## C24: uniqueness of the tool names -/

/-- C24, counterexample: with a `CreateIssues` policy and a custom job named `create_issue`
the catalog has two descriptors named `create_issue`; a dispatch list that repeats `ci` gives
two descriptors named `ci`; and the jobs `a-b` and `a_b` give two descriptors named `a_b`. -/
theorem duplicate_tool_names :
    (filteredToolsList sampleCollaborators sampleUniverse
      { CreateIssues := some {}, Jobs := [("create_issue", {})] } "wf.md").1.map toolName =
      [some "create_issue", some "create_issue"] ∧
    (filteredToolsList sampleCollaborators sampleUniverse
      { DispatchWorkflow := some { Workflows := ["ci", "ci"] } } "wf.md").1.map toolName =
      [some "ci", some "ci"] ∧
    (filteredToolsList sampleCollaborators sampleUniverse
      { Jobs := [("a-b", {}), ("a_b", {})] } "wf.md").1.map toolName =
      [some "a_b", some "a_b"] :=
  ⟨by decide, by decide, by decide⟩

theorem customJobToolsOf_names (env : Collaborators) (jobs : List (String × SafeJobConfig)) :
    (customJobToolsOf env jobs).map toolName =
      (sortedJobs jobs).map (fun j => some (env.NormalizeSafeOutputIdentifier j.1)) := by
  rw [customJobToolsOf_eq_map, List.map_map]
  apply List.map_congr_left
  intro j _
  exact toolName_generateCustomJobToolDefinition _ _

theorem dispatchToolsOf_names (env : Collaborators) (s : SafeOutputsConfig) (path : String) :
    (dispatchToolsOf env s path).map toolName =
      (match s.DispatchWorkflow with
       | some d => d.Workflows.map (fun w => some (env.NormalizeSafeOutputIdentifier w))
       | none => []) := by
  unfold dispatchToolsOf
  cases s.DispatchWorkflow with
  | none => rfl
  | some d =>
    simp only [List.map_map]
    apply List.map_congr_left
    intro w _
    exact toolName_generateDispatchWorkflowTool _ _ _

theorem catalog_names (env : Collaborators) (allTools : List JMap) (s : SafeOutputsConfig)
    (path : String) :
    (filteredToolsList env allTools s path).1.map toolName =
      (enabledUniverseNames s allTools ++
        (sortedJobs s.Jobs).map (fun j => env.NormalizeSafeOutputIdentifier j.1) ++
        (configuredWorkflows s).map env.NormalizeSafeOutputIdentifier).map some := by
  rw [filteredToolsList_eq, List.map_append, List.map_append, enabledUniverseTools_names,
    customJobToolsOf_names, dispatchToolsOf_names]
  unfold enabledUniverseNames configuredWorkflows
  cases s.DispatchWorkflow with
  | none => simp [List.map_map, Function.comp_def]
  | some d => simp [List.map_map, Function.comp_def]

/-- C24, amended: the generator does no de-duplication.  For an aggregate whose `Jobs` map
has distinct keys, the tool names of the catalog are pairwise distinct if and only if the
names of the enabled universe descriptors are distinct, the normalised names of the custom
jobs are distinct from each other and from the names of the enabled universe descriptors,
and the normalised identifiers of the dispatch list are distinct from each other, from the
names of the enabled universe descriptors and from the normalised job names. -/
theorem tool_names_unique (env : Collaborators) (allTools : List JMap) (s : SafeOutputsConfig)
    (path : String) (hJk : (s.Jobs.map Prod.fst).Nodup) :
    ((filteredToolsList env allTools s path).1.map toolName).Nodup ↔
      ((enabledUniverseNames s allTools).Nodup ∧
        ((s.Jobs.map Prod.fst).map env.NormalizeSafeOutputIdentifier).Nodup ∧
        ((configuredWorkflows s).map env.NormalizeSafeOutputIdentifier).Nodup ∧
        (∀ j ∈ s.Jobs,
          env.NormalizeSafeOutputIdentifier j.1 ∉ enabledUniverseNames s allTools) ∧
        (∀ w ∈ configuredWorkflows s,
          env.NormalizeSafeOutputIdentifier w ∉ enabledUniverseNames s allTools ∧
          ∀ j ∈ s.Jobs,
            env.NormalizeSafeOutputIdentifier w ≠ env.NormalizeSafeOutputIdentifier j.1)) := by
  have hinj : Function.Injective (some : String → Option String) :=
    fun _ _ h => Option.some.inj h
  have hperm : ((sortedJobs s.Jobs).map
      (fun j => env.NormalizeSafeOutputIdentifier j.1)).Perm
      ((s.Jobs.map Prod.fst).map env.NormalizeSafeOutputIdentifier) := by
    have hp := ((sortedJobs_perm s.Jobs hJk).map Prod.fst).map env.NormalizeSafeOutputIdentifier
    rw [List.map_map] at hp
    exact hp
  have hmemB : ∀ x, x ∈ (sortedJobs s.Jobs).map
      (fun j => env.NormalizeSafeOutputIdentifier j.1) ↔
      ∃ j ∈ s.Jobs, env.NormalizeSafeOutputIdentifier j.1 = x := by
    intro x
    rw [List.mem_map]
    constructor
    · rintro ⟨j, hj, hx⟩
      exact ⟨j, (mem_sortedJobs s.Jobs hJk j).1 hj, hx⟩
    · rintro ⟨j, hj, hx⟩
      exact ⟨j, (mem_sortedJobs s.Jobs hJk j).2 hj, hx⟩
  rw [catalog_names, List.nodup_map_iff hinj, List.nodup_append, List.nodup_append,
    hperm.nodup_iff]
  constructor
  · rintro ⟨⟨hA, hB, hAB⟩, hC, hABC⟩
    refine ⟨hA, hB, hC, ?_, ?_⟩
    · intro j hj hmem
      exact hAB hmem ((hmemB _).2 ⟨j, hj, rfl⟩)
    · intro w hw
      have hwC : env.NormalizeSafeOutputIdentifier w ∈
          (configuredWorkflows s).map env.NormalizeSafeOutputIdentifier :=
        List.mem_map.2 ⟨w, hw, rfl⟩
      refine ⟨?_, ?_⟩
      · intro hmem
        exact hABC (List.mem_append_left _ hmem) hwC
      · intro j hj heq
        refine hABC (List.mem_append_right _ ((hmemB _).2 ⟨j, hj, heq.symm⟩)) hwC
  · rintro ⟨hA, hB, hC, hJU, hD⟩
    refine ⟨⟨hA, hB, ?_⟩, hC, ?_⟩
    · intro x hxA hxB
      obtain ⟨j, hj, hx⟩ := (hmemB x).1 hxB
      exact hJU j hj (hx ▸ hxA)
    · intro x hxAB hxC
      obtain ⟨w, hw, hx⟩ := List.mem_map.1 hxC
      rcases List.mem_append.1 hxAB with hxA | hxB
      · exact (hD w hw).1 (hx ▸ hxA)
      · obtain ⟨j, hj, hxj⟩ := (hmemB x).1 hxB
        exact (hD w hw).2 j hj (hx.trans hxj.symm)

/-- Witness for C24 (amended): an enabled kind, two custom jobs and two dispatch targets with
distinct normalised names. -/
theorem tool_names_unique_witness :
    ((filteredToolsList sampleCollaborators sampleUniverse
      { CreateIssues := some {}, Jobs := [("deploy", {}), ("a-b", {})],
        DispatchWorkflow := some { Workflows := ["ci", "nightly"] } } "wf.md").1.map
      toolName).Nodup :=
  (tool_names_unique sampleCollaborators sampleUniverse
    { CreateIssues := some {}, Jobs := [("deploy", {}), ("a-b", {})],
      DispatchWorkflow := some { Workflows := ["ci", "nightly"] } } "wf.md"
    (by decide)).2 (by decide)

/-! ## C26: the error of `json.Marshal` -/

/-- C26, the code at the failing input: for a custom job input whose declared default is a
value that `encoding/json` rejects, the encoding of the assembled map fails and
`generateSafeOutputsConfig` returns the empty string, the same result as for a nil aggregate,
with nothing that reports the failure; on the same aggregate `generateFilteredToolsJSON`
returns the error of its encoder. -/
theorem marshal_error_not_surfaced :
    marshal (JVal.obj (safeOutputsConfigMap
      { Jobs := [("report", { Inputs := [("ratio",
          { Type_ := "number", Default := JVal.unsupported })] })] })) = none ∧
    generateSafeOutputsConfig
      { SafeOutputs := some
          { Jobs := [("report", { Inputs := [("ratio",
              { Type_ := "number", Default := JVal.unsupported })] })] } } =
      generateSafeOutputsConfig { SafeOutputs := none } ∧
    (generateFilteredToolsJSON sampleCollaborators
      { SafeOutputs := some
          { Jobs := [("report", { Inputs := [("ratio",
              { Type_ := "number", Default := JVal.unsupported })] })] } } "wf.md").1 =
      ("", some "failed to marshal filtered tools") :=
  ⟨rfl, rfl, rfl⟩

/-- What the code does for every aggregate: the result of `generateSafeOutputsConfig` is the
empty string exactly when the aggregate is nil or the encoding fails, and the function has
no other result that could carry the failure. -/
theorem generateSafeOutputsConfig_on_failure (s : SafeOutputsConfig)
    (h : marshal (JVal.obj (safeOutputsConfigMap s)) = none) :
    generateSafeOutputsConfig { SafeOutputs := some s } = "" := by
  simp [generateSafeOutputsConfig, h]

/-! ## C27: name and description of a custom job tool -/

/-- C27: the tool that `generateCustomJobToolDefinition` returns has `name` equal to the
given job name and `description` equal to the description of the job when that is non-empty,
and to `Execute the <jobName> custom job` otherwise. -/
theorem custom_job_description_default (jobName : String) (job : SafeJobConfig) :
    getKey (generateCustomJobToolDefinition jobName job) "name" = some (JVal.str jobName) ∧
    getKey (generateCustomJobToolDefinition jobName job) "description" =
      some (JVal.str (if job.Description = "" then "Execute the " ++ jobName ++ " custom job"
        else job.Description)) := by
  unfold generateCustomJobToolDefinition
  simp only []
  constructor
  · rw [getKey_setKey_ne _ _ _ _ (by decide)]
    split <;> rw [getKey_setKey_ne _ _ _ _ (by decide)] <;> simp [getKey]
  · rw [getKey_setKey_ne _ _ _ _ (by decide)]
    by_cases h : job.Description = ""
    · simp [h, getKey_setKey_self]
    · simp [h, getKey_setKey_self]

/-! ## C28: the frame of `addRepoParameterIfNeeded` -/

theorem repoPolicy_of_not_handled (toolName : String) (s : SafeOutputsConfig)
    (h : toolName ∉ repoToolNames) : repoPolicy toolName s = none := by
  unfold repoToolNames at h
  simp only [List.mem_cons, List.mem_singleton, List.mem_nil_iff, or_false, not_or] at h
  obtain ⟨h0, h1, h2, h3, h4, h5, h6, h7, h8, h9, h10, h11, h12, h13, h14, h15, h16, h17, h18,
    h19, h20⟩ := h
  simp [repoPolicy, h0, h1, h2, h3, h4, h5, h6, h7, h8, h9, h10, h11, h12, h13, h14, h15, h16,
    h17, h18, h19, h20]

/-- The function either returns the tool as it is or writes the `repo` entry of the
properties. -/
theorem addRepoParameterIfNeeded_cases (wide : Char → Bool) (tool : JMap) (toolName : String)
    (so : Option SafeOutputsConfig) :
    addRepoParameterIfNeeded wide tool toolName so = tool ∨
    ∃ schema props v, asMap (getKey tool "inputSchema") = some schema ∧
      asMap (getKey schema "properties") = some props ∧
      addRepoParameterIfNeeded wide tool toolName so =
        setKey tool "inputSchema" (JVal.obj (setKey schema "properties"
          (JVal.obj (setKey props "repo" v)))) := by
  cases so with
  | none => exact Or.inl rfl
  | some s =>
    by_cases h : ∃ p, repoPolicy toolName s = some p ∧ p.AllowedRepos ≠ []
    · obtain ⟨p, hp, hal⟩ := h
      cases hs : asMap (getKey tool "inputSchema") with
      | none =>
        left
        unfold addRepoParameterIfNeeded
        simp only [hs]
        split <;> rfl
      | some schema =>
        cases hpr : asMap (getKey schema "properties") with
        | none =>
          left
          unfold addRepoParameterIfNeeded
          simp only [hs, hpr]
          split <;> rfl
        | some props =>
          exact Or.inr ⟨schema, props, _, rfl, hpr,
            addRepoParameterIfNeeded_inject wide tool toolName s schema props p hs hpr hp hal⟩
    · exact Or.inl (addRepoParameterIfNeeded_skip wide tool toolName s h)

/-- C28: `addRepoParameterIfNeeded` returns the tool map unchanged for every tool name that
its `switch` does not handle and for a nil aggregate; and in every case every top-level field
other than `inputSchema`, every field of the `inputSchema` other than `properties` and every
property other than `repo` is unchanged. -/
theorem repo_parameter_frame (wide : Char → Bool) (tool : JMap) (toolName : String)
    (so : Option SafeOutputsConfig) :
    (toolName ∉ repoToolNames → addRepoParameterIfNeeded wide tool toolName so = tool) ∧
    addRepoParameterIfNeeded wide tool toolName none = tool ∧
    (∀ k, k ≠ "inputSchema" →
      getKey (addRepoParameterIfNeeded wide tool toolName so) k = getKey tool k) ∧
    (∀ k, k ≠ "properties" →
      getKey (inputSchemaOf (addRepoParameterIfNeeded wide tool toolName so)) k =
        getKey (inputSchemaOf tool) k) ∧
    (∀ k, k ≠ "repo" →
      getKey (propertiesOf (addRepoParameterIfNeeded wide tool toolName so)) k =
        getKey (propertiesOf tool) k) := by
  refine ⟨?_, rfl, fun k hk => getKey_addRepoParameterIfNeeded_ne wide tool toolName so k hk, ?_, ?_⟩
  · intro h
    cases so with
    | none => rfl
    | some s =>
      apply addRepoParameterIfNeeded_skip
      rintro ⟨p, hp, _⟩
      rw [repoPolicy_of_not_handled toolName s h] at hp
      exact Option.noConfusion hp
  · intro k hk
    rcases addRepoParameterIfNeeded_cases wide tool toolName so with h | ⟨schema, props, v, hs, hp, h⟩
    · rw [h]
    · rw [h]
      unfold inputSchemaOf
      rw [getKey_setKey_self, hs]
      simp only [asMap, Option.getD_some]
      exact getKey_setKey_ne _ _ _ _ hk
  · intro k hk
    rcases addRepoParameterIfNeeded_cases wide tool toolName so with h | ⟨schema, props, v, hs, hp, h⟩
    · rw [h]
    · rw [h, propertiesOf_inject]
      unfold propertiesOf inputSchemaOf
      rw [hs]
      simp only [Option.getD_some, hp]
      exact getKey_setKey_ne _ _ _ _ hk

/-- Witness for C28: `noop` is not handled, so the sample tool is returned unchanged even
with an allow-list on another policy. -/
theorem repo_parameter_frame_witness :
    "noop" ∉ repoToolNames ∧
    addRepoParameterIfNeeded sampleWide sampleTool "noop"
      (some { CreateIssues := some { AllowedRepos := ["octo/app"] } }) = sampleTool ∧
    getKey (propertiesOf (addRepoParameterIfNeeded sampleWide sampleTool "create_issue"
      (some { CreateIssues := some { AllowedRepos := ["octo/app"] } }))) "title" =
      getKey (propertiesOf sampleTool) "title" :=
  ⟨by decide,
   (repo_parameter_frame sampleWide sampleTool "noop"
      (some { CreateIssues := some { AllowedRepos := ["octo/app"] } })).1 (by decide),
   (repo_parameter_frame sampleWide sampleTool "create_issue"
      (some { CreateIssues := some { AllowedRepos := ["octo/app"] } })).2.2.2.2 "title"
      (by decide)⟩

/-! ## C29 and C30: `validateCampaignProject` -/

theorem validateCampaignProject_of_campaign (frontmatter : JMap) (markdownContent : String)
    (h : (detectCampaignWorkflow frontmatter).1 = true) :
    (validateCampaignProject frontmatter markdownContent = none ↔
      (match getKey frontmatter "project" with
       | some projectData =>
         if neNil projectData then validProjectValue projectData
         else hasProjectURLInMarkdown markdownContent
       | none => hasProjectURLInMarkdown markdownContent) = true) := by
  unfold validateCampaignProject
  rcases hd : detectCampaignWorkflow frontmatter with ⟨isC, src⟩
  rw [hd] at h
  simp only at h
  subst h
  simp only [Bool.not_true, Bool.false_eq_true, if_false]
  cases hp : getKey frontmatter "project" with
  | none =>
    by_cases hm : hasProjectURLInMarkdown markdownContent = true <;> simp [hm]
  | some v =>
    cases v with
    | null =>
      by_cases hm : hasProjectURLInMarkdown markdownContent = true <;> simp [neNil, hm]
    | str x =>
      by_cases hx : TrimSpace x = "" <;> simp [neNil, validProjectValue, hx]
    | obj m =>
      simp only [neNil, if_true, validProjectValue]
      cases hu : getKey m "url" with
      | none => simp
      | some u =>
        cases u with
        | str x => by_cases hx : TrimSpace x = "" <;> simp [neNil, asString, hx]
        | null => simp [neNil]
        | bool b => simp [neNil, asString]
        | num n => simp [neNil, asString]
        | arr xs => simp [neNil, asString]
        | obj kvs => simp [neNil, asString]
        | unsupported => simp [neNil, asString]
    | bool b => simp [neNil, validProjectValue]
    | num n => simp [neNil, validProjectValue]
    | arr xs => simp [neNil, validProjectValue]
    | unsupported => simp [neNil, validProjectValue]

/-- C29: for a frontmatter detected as a campaign, `validateCampaignProject` returns nil if
and only if either the `project` value is non-nil and valid (a string that is non-blank after
trimming, or a map whose `url` is a non-blank string), or the `project` key is absent or nil
and the markdown has a project URL; a non-nil `project` that is not valid yields an error
whatever the markdown is. -/
theorem campaign_project_validation (frontmatter : JMap) (markdownContent : String)
    (h : (detectCampaignWorkflow frontmatter).1 = true) :
    (validateCampaignProject frontmatter markdownContent = none ↔
      ((∃ v, getKey frontmatter "project" = some v ∧ v ≠ JVal.null ∧
          validProjectValue v = true) ∨
        ((getKey frontmatter "project" = none ∨ getKey frontmatter "project" = some JVal.null) ∧
          hasProjectURLInMarkdown markdownContent = true))) ∧
    (∀ v, getKey frontmatter "project" = some v → v ≠ JVal.null →
      validProjectValue v = false →
      validateCampaignProject frontmatter markdownContent ≠ none) := by
  have hiff := validateCampaignProject_of_campaign frontmatter markdownContent h
  have hnil : ∀ v : JVal, neNil v = true ↔ v ≠ JVal.null := by
    intro v
    cases v <;> simp [neNil]
  constructor
  · rw [hiff]
    cases hp : getKey frontmatter "project" with
    | none => simp
    | some v =>
      by_cases hv : neNil v = true
      · have hne := (hnil v).1 hv
        simp [hv, hne]
      · have heq : v = JVal.null := by
          by_contra hne
          exact hv ((hnil v).2 hne)
        subst heq
        simp [neNil]
  · intro v hp hne hinv
    rw [Ne, hiff, hp]
    simp [(hnil v).2 hne, hinv]

/-- Witness for C29: a campaign with a blank `project` fails although the markdown has a
project URL, and a campaign without `project` passes through the markdown fallback. -/
theorem campaign_project_validation_witness :
    (detectCampaignWorkflow (sampleCampaign (some (JVal.str "  ")))).1 = true ∧
    validateCampaignProject (sampleCampaign (some (JVal.str "  ")))
      "Board: https://github.com/orgs/octo/projects/7" ≠ none ∧
    validateCampaignProject (sampleCampaign none)
      "Board: https://github.com/orgs/octo/projects/7" = none :=
  ⟨by decide,
   (campaign_project_validation (sampleCampaign (some (JVal.str "  ")))
      "Board: https://github.com/orgs/octo/projects/7" (by decide)).2 (JVal.str "  ") rfl
      (by simp) (by decide),
   (campaign_project_validation (sampleCampaign none)
      "Board: https://github.com/orgs/octo/projects/7" (by decide)).1.2
      (Or.inr ⟨Or.inl rfl, by decide⟩)⟩

/-- C30: `validateCampaignProject` returns nil for every frontmatter that
`detectCampaignWorkflow` does not classify as a campaign, whatever the `project` field and
the markdown are. -/
theorem non_campaign_is_valid (frontmatter : JMap) (markdownContent : String)
    (h : (detectCampaignWorkflow frontmatter).1 = false) :
    validateCampaignProject frontmatter markdownContent = none := by
  unfold validateCampaignProject
  rcases hd : detectCampaignWorkflow frontmatter with ⟨isC, src⟩
  rw [hd] at h
  simp only at h
  subst h
  simp

/-- Witness for C30: a workflow with ordinary labels, a blank `project` and no URL in the
markdown. -/
theorem non_campaign_is_valid_witness :
    (detectCampaignWorkflow
      [("safe-outputs", JVal.obj [("create-issue",
          JVal.obj [("labels", JVal.arr [JVal.str "bug", JVal.str "enhancement"])])]),
       ("project", JVal.str "")]).1 = false ∧
    validateCampaignProject
      [("safe-outputs", JVal.obj [("create-issue",
          JVal.obj [("labels", JVal.arr [JVal.str "bug", JVal.str "enhancement"])])]),
       ("project", JVal.str "")] "No project URL here" = none :=
  ⟨by decide, non_campaign_is_valid _ _ (by decide)⟩

/-! ## Lemmas on the encoder and the order of maps -/

theorem insertField_perm (p : String × String) (l : List (String × String)) :
    (insertField p l).Perm (p :: l) := by
  induction l with
  | nil => simp [insertField]
  | cons q rest ih =>
    unfold insertField
    split
    · exact List.Perm.refl _
    · exact (List.Perm.cons q ih).trans (List.Perm.swap p q rest)

theorem sortFields_perm (l : List (String × String)) : (sortFields l).Perm l := by
  induction l with
  | nil => simp [sortFields]
  | cons p rest ih =>
    unfold sortFields
    exact (insertField_perm p _).trans (List.Perm.cons p ih)

theorem insertField_sorted (p : String × String) (l : List (String × String))
    (h : List.Pairwise (fun x y => strLe x.1 y.1 = true) l) :
    List.Pairwise (fun x y => strLe x.1 y.1 = true) (insertField p l) := by
  induction l with
  | nil => simp [insertField]
  | cons q rest ih =>
    rw [List.pairwise_cons] at h
    unfold insertField
    split
    · rename_i hpq
      refine List.pairwise_cons.2 ⟨?_, List.pairwise_cons.2 h⟩
      intro x hx
      rcases List.mem_cons.1 hx with rfl | hx
      · exact hpq
      · exact strLe_trans _ _ _ hpq (h.1 x hx)
    · rename_i hpq
      have hqp : strLe q.1 p.1 = true := by
        rcases strLe_total p.1 q.1 with h' | h'
        · exact absurd h' hpq
        · exact h'
      refine List.pairwise_cons.2 ⟨?_, ih h.2⟩
      intro x hx
      rcases List.mem_cons.1 ((insertField_perm p rest).subset hx) with h1 | h1
      · rw [h1]; exact hqp
      · exact h.1 x h1

theorem sortFields_sorted (l : List (String × String)) :
    List.Pairwise (fun x y => strLe x.1 y.1 = true) (sortFields l) := by
  induction l with
  | nil => simp [sortFields]
  | cons p rest ih =>
    unfold sortFields
    exact insertField_sorted p _ ih

/-- Sorting the rendered fields of a map with distinct keys gives a result that does not
depend on their order. -/
theorem sortFields_eq_of_perm (l₁ l₂ : List (String × String)) (hp : l₁.Perm l₂)
    (hnd : (l₁.map Prod.fst).Nodup) : sortFields l₁ = sortFields l₂ := by
  let r : String × String → String × String → Prop :=
    fun x y => strLe x.1 y.1 = true ∧ x.1 ≠ y.1
  have hanti : IsAntisymm (String × String) r :=
    ⟨fun a b hab hba => absurd (strLe_antisymm _ _ hab.1 hba.1) hab.2⟩
  have hsorted : ∀ l : List (String × String), (l.map Prod.fst).Nodup →
      List.Pairwise r (sortFields l) := by
    intro l hl
    have h1 := sortFields_sorted l
    have h2 : ((sortFields l).map Prod.fst).Nodup :=
      ((sortFields_perm l).map Prod.fst).nodup_iff.2 hl
    have h3 : List.Pairwise (fun x y : String × String => x.1 ≠ y.1) (sortFields l) := by
      rw [List.Nodup, List.pairwise_map] at h2
      exact h2
    exact List.Pairwise.and h1 h3
  have hnd₂ : (l₂.map Prod.fst).Nodup := (hp.map Prod.fst).nodup_iff.1 hnd
  exact List.eq_of_perm_of_sorted
    (((sortFields_perm l₁).trans hp).trans (sortFields_perm l₂).symm)
    (hsorted l₁ hnd) (hsorted l₂ hnd₂)

/-- The rendered fields of a map: every key with the encoding of its value. -/
theorem marshalFields_eq (m : JMap) :
    marshalFields m =
      (if ∀ e ∈ m, (marshal e.2).isSome = true then
        some (m.filterMap (fun e => (marshal e.2).map (fun r => (e.1, r))))
      else none) := by
  induction m with
  | nil => simp [marshalFields]
  | cons e rest ih =>
    obtain ⟨k, v⟩ := e
    rw [marshalFields, ih]
    cases hv : marshal v with
    | none => simp [hv]
    | some r =>
      by_cases hall : ∀ e ∈ rest, (marshal e.2).isSome = true
      · have hall2 : ∀ e ∈ (k, v) :: rest, (marshal e.2).isSome = true := by
          intro e he
          rcases List.mem_cons.1 he with rfl | he
          · simp [hv]
          · exact hall e he
        rw [if_pos hall, if_pos hall2, List.filterMap_cons]
        simp [hv]
      · have hall2 : ¬ ∀ e ∈ (k, v) :: rest, (marshal e.2).isSome = true :=
          fun h => hall (fun e he => h e (List.mem_cons_of_mem _ he))
        rw [if_neg hall, if_neg hall2]

theorem nodup_of_nodup_keys {β : Type} (l : List (String × β))
    (h : (l.map Prod.fst).Nodup) : l.Nodup := List.Nodup.of_map Prod.fst h

/-- Two maps with distinct keys and the same lookups have the same entries. -/
theorem perm_of_getKey_eq {β : Type} (l₁ l₂ : List (String × β))
    (h₁ : (l₁.map Prod.fst).Nodup) (h₂ : (l₂.map Prod.fst).Nodup)
    (h : ∀ k, getKey l₁ k = getKey l₂ k) : l₁.Perm l₂ := by
  classical
  apply (List.perm_ext_iff_of_nodup (nodup_of_nodup_keys l₁ h₁) (nodup_of_nodup_keys l₂ h₂)).2
  intro e
  obtain ⟨k, v⟩ := e
  constructor
  · intro he
    apply mem_of_getKey_eq_some
    rw [← h k]
    exact getKey_eq_some_of_mem l₁ k v h₁ he
  · intro he
    apply mem_of_getKey_eq_some
    rw [h k]
    exact getKey_eq_some_of_mem l₂ k v h₂ he

theorem getKey_map_value {β γ : Type} (f : β → γ) (l : List (String × β)) (k : String) :
    getKey (l.map (fun e => (e.1, f e.2))) k = (getKey l k).map f := by
  induction l with
  | nil => rfl
  | cons e rest ih =>
    obtain ⟨k', v⟩ := e
    by_cases hk : k' = k
    · simp [getKey, hk]
    · simp [getKey, hk, ih]

/-- The encoding of a map with distinct keys depends only on the encodings of the values
under each key. -/
theorem marshal_obj_congr (m₁ m₂ : JMap) (h₁ : (m₁.map Prod.fst).Nodup)
    (h₂ : (m₂.map Prod.fst).Nodup) (h : sameEncodings m₁ m₂) :
    marshal (JVal.obj m₁) = marshal (JVal.obj m₂) := by
  have hkeys : ∀ (m : JMap), (m.map (fun e => (e.1, marshal e.2))).map Prod.fst =
      m.map Prod.fst := by
    intro m
    rw [List.map_map]
    rfl
  have hperm : (m₁.map (fun e => (e.1, marshal e.2))).Perm
      (m₂.map (fun e => (e.1, marshal e.2))) := by
    apply perm_of_getKey_eq
    · rw [hkeys]; exact h₁
    · rw [hkeys]; exact h₂
    · intro k
      rw [getKey_map_value, getKey_map_value]
      exact h k
  have hall : (∀ e ∈ m₁, (marshal e.2).isSome = true) ↔
      (∀ e ∈ m₂, (marshal e.2).isSome = true) := by
    constructor
    · intro hm e he
      have : (e.1, marshal e.2) ∈ m₁.map (fun e => (e.1, marshal e.2)) :=
        hperm.symm.subset (List.mem_map.2 ⟨e, he, rfl⟩)
      obtain ⟨e', he', heq⟩ := List.mem_map.1 this
      have h2 : marshal e'.2 = marshal e.2 := congrArg Prod.snd heq
      rw [← h2]
      exact hm e' he'
    · intro hm e he
      have : (e.1, marshal e.2) ∈ m₂.map (fun e => (e.1, marshal e.2)) :=
        hperm.subset (List.mem_map.2 ⟨e, he, rfl⟩)
      obtain ⟨e', he', heq⟩ := List.mem_map.1 this
      have h2 : marshal e'.2 = marshal e.2 := congrArg Prod.snd heq
      rw [← h2]
      exact hm e' he'
  have hfm : ∀ (m : JMap), m.filterMap (fun e => (marshal e.2).map (fun r => (e.1, r))) =
      (m.map (fun e => (e.1, marshal e.2))).filterMap
        (fun p => p.2.map (fun r => (p.1, r))) := by
    intro m
    rw [List.filterMap_map]
    rfl
  rw [marshal, marshal, marshalFields_eq, marshalFields_eq]
  by_cases hok : ∀ e ∈ m₁, (marshal e.2).isSome = true
  · have hok₂ := hall.1 hok
    rw [if_pos hok, if_pos hok₂, Option.map_some', Option.map_some']
    have hps : (m₁.filterMap (fun e => (marshal e.2).map (fun r => (e.1, r)))).Perm
        (m₂.filterMap (fun e => (marshal e.2).map (fun r => (e.1, r)))) := by
      rw [hfm, hfm]
      exact hperm.filterMap _
    have hnd : ((m₁.filterMap (fun e => (marshal e.2).map (fun r => (e.1, r)))).map
        Prod.fst).Nodup := by
      have hsub : ((m₁.filterMap (fun e => (marshal e.2).map (fun r => (e.1, r)))).map
          Prod.fst).Sublist (m₁.map Prod.fst) := by
        rw [List.map_filterMap]
        have : (fun e : String × JVal =>
            Option.map Prod.fst ((marshal e.2).map (fun r => (e.1, r)))) =
            (fun e => if (marshal e.2).isSome then some e.1 else none) := by
          funext e
          cases marshal e.2 <;> rfl
        rw [this]
        have hgen : ∀ (l : JMap),
            (l.filterMap (fun e => if (marshal e.2).isSome then some e.1 else none)).Sublist
              (l.map Prod.fst) := by
          intro l
          induction l with
          | nil => exact List.Sublist.slnil
          | cons e rest ih =>
            rw [List.filterMap_cons, List.map_cons]
            cases hm : (marshal e.2).isSome
            · simp only [Bool.false_eq_true, if_false]
              exact List.Sublist.cons _ ih
            · simp only [if_true]
              exact List.Sublist.cons₂ _ ih
        exact hgen m₁
      exact List.Nodup.sublist hsub h₁
    rw [sortFields_eq_of_perm _ _ hps hnd]
  · have hok₂ : ¬ ∀ e ∈ m₂, (marshal e.2).isSome = true := fun h' => hok (hall.2 h')
    rw [if_neg hok, if_neg hok₂]

theorem keys_setKey {β : Type} (m : List (String × β)) (k : String) (v : β) :
    (setKey m k v).map Prod.fst =
      (if k ∈ m.map Prod.fst then m.map Prod.fst else m.map Prod.fst ++ [k]) := by
  induction m with
  | nil => simp [setKey]
  | cons e rest ih =>
    obtain ⟨k', v'⟩ := e
    unfold setKey
    by_cases hk : k' = k
    · subst hk
      simp
    · have hk' : ¬ k = k' := fun h => hk h.symm
      rw [if_neg hk, List.map_cons, ih]
      by_cases hmem : k ∈ rest.map Prod.fst
      · rw [if_pos hmem, if_pos (by simp [hmem])]
        rfl
      · rw [if_neg hmem, if_neg (by simp [hmem, hk'])]
        rfl

theorem nodupKeys_setKey {β : Type} (m : List (String × β)) (k : String) (v : β)
    (h : (m.map Prod.fst).Nodup) : ((setKey m k v).map Prod.fst).Nodup := by
  rw [keys_setKey]
  by_cases hmem : k ∈ m.map Prod.fst
  · rw [if_pos hmem]
    exact h
  · rw [if_neg hmem]
    exact List.Nodup.append h (List.nodup_singleton k)
      (by
        intro x hx hx'
        rw [List.mem_singleton] at hx'
        exact hmem (hx' ▸ hx))

theorem nodupKeys_ite_setKey {β : Type} (c : Prop) [Decidable c] (m : List (String × β))
    (k : String) (v : β) (h : (m.map Prod.fst).Nodup) :
    ((if c then setKey m k v else m).map Prod.fst).Nodup := by
  split
  · exact nodupKeys_setKey m k v h
  · exact h

theorem nodupKeys_foldl_setKey {β γ : Type} (f : γ → β) (l : List (String × γ)) :
    ∀ (acc : List (String × β)), (acc.map Prod.fst).Nodup →
      ((l.foldl (fun acc e => setKey acc e.1 (f e.2)) acc).map Prod.fst).Nodup := by
  induction l with
  | nil => intro acc h; exact h
  | cons e rest ih =>
    intro acc h
    rw [List.foldl_cons]
    exact ih _ (nodupKeys_setKey _ _ _ h)

theorem nodupKeys_foldl_registryStep (s : SafeOutputsConfig)
    (l : List (String × SafeOutputToolHandler)) :
    ∀ (acc : JMap), (acc.map Prod.fst).Nodup →
      ((l.foldl (registryStep s) acc).map Prod.fst).Nodup := by
  induction l with
  | nil => intro acc h; exact h
  | cons e rest ih =>
    intro acc h
    rw [List.foldl_cons]
    apply ih
    unfold registryStep
    exact nodupKeys_ite_setKey _ _ _ _ h

theorem nodupKeys_inputsConfig (inputs : List (String × InputDefinition)) :
    ((inputsConfig inputs).map Prod.fst).Nodup :=
  nodupKeys_foldl_setKey (fun d => JVal.obj (inputConfig d)) inputs [] List.nodup_nil

theorem nodupKeys_safeJobConfig (job : SafeJobConfig) :
    ((safeJobConfig job).map Prod.fst).Nodup := by
  unfold safeJobConfig
  exact nodupKeys_ite_setKey _ _ _ _
    (nodupKeys_ite_setKey _ _ _ _ (nodupKeys_ite_setKey _ _ _ _ List.nodup_nil))

theorem nodupKeys_safeOutputsConfigMapIn (registry : List (String × SafeOutputToolHandler))
    (s : SafeOutputsConfig) : ((safeOutputsConfigMapIn registry s).map Prod.fst).Nodup := by
  have h1 := nodupKeys_foldl_registryStep s registry [] List.nodup_nil
  have h2 : ((addJobsConfig s (registry.foldl (registryStep s) [])).map Prod.fst).Nodup := by
    unfold addJobsConfig
    split
    · exact nodupKeys_foldl_setKey (fun j => JVal.obj (safeJobConfig j)) s.Jobs _ h1
    · exact h1
  have h3 : ((addMentionsConfig s
      (addJobsConfig s (registry.foldl (registryStep s) []))).map Prod.fst).Nodup := by
    unfold addMentionsConfig
    split
    · exact nodupKeys_ite_setKey _ _ _ _ h2
    · exact h2
  unfold safeOutputsConfigMapIn addDispatchConfig
  split
  · exact nodupKeys_ite_setKey _ _ _ _ h3
  · exact h3

/-- The lookups of a map filled from a map with distinct keys. -/
theorem getKey_foldl_setKey_lookup {β γ : Type} (f : γ → β) (l : List (String × γ))
    (acc : List (String × β)) (k : String) (hnd : (l.map Prod.fst).Nodup) :
    getKey (l.foldl (fun acc e => setKey acc e.1 (f e.2)) acc) k =
      (match getKey l k with
       | some x => some (f x)
       | none => getKey acc k) := by
  cases hg : getKey l k with
  | some x =>
    have hmem := mem_of_getKey_eq_some l k x hg
    exact getKey_foldl_setKey_mem f l acc hnd (k, x) hmem
  | none =>
    apply getKey_foldl_setKey_ne
    intro e he hk
    have := getKey_eq_some_of_mem l e.1 e.2 hnd he
    rw [hk, hg] at this
    cases this

theorem sameEncodings_setKey (m₁ m₂ : JMap) (k : String) (v₁ v₂ : JVal)
    (h : sameEncodings m₁ m₂) (hv : marshal v₁ = marshal v₂) :
    sameEncodings (setKey m₁ k v₁) (setKey m₂ k v₂) := by
  intro k'
  by_cases hk : k' = k
  · subst hk
    rw [getKey_setKey_self, getKey_setKey_self]
    exact congrArg some hv
  · rw [getKey_setKey_ne _ _ _ _ hk, getKey_setKey_ne _ _ _ _ hk]
    exact h k'

theorem sameEncodings_ite_setKey (c : Prop) [Decidable c] (m₁ m₂ : JMap) (k : String)
    (v : JVal) (h : sameEncodings m₁ m₂) :
    sameEncodings (if c then setKey m₁ k v else m₁) (if c then setKey m₂ k v else m₂) := by
  split
  · exact sameEncodings_setKey _ _ _ _ _ h rfl
  · exact h

/-- The encoding of the `inputs` map of a custom job does not depend on the order of the
inputs. -/
theorem marshal_inputsConfig_perm (i₁ i₂ : List (String × InputDefinition))
    (hp : i₁.Perm i₂) (hnd : (i₁.map Prod.fst).Nodup) :
    marshal (JVal.obj (inputsConfig i₁)) = marshal (JVal.obj (inputsConfig i₂)) := by
  have hnd₂ : (i₂.map Prod.fst).Nodup := (hp.map Prod.fst).nodup_iff.1 hnd
  apply marshal_obj_congr _ _ (nodupKeys_inputsConfig i₁) (nodupKeys_inputsConfig i₂)
  intro k
  unfold inputsConfig
  rw [getKey_foldl_setKey_lookup (fun d => JVal.obj (inputConfig d)) i₁ [] k hnd,
    getKey_foldl_setKey_lookup (fun d => JVal.obj (inputConfig d)) i₂ [] k hnd₂,
    getKey_perm i₁ i₂ k hnd hp]

/-- The encoding of the configuration of a custom job does not depend on the order of its
inputs. -/
theorem marshal_safeJobConfig_congr (j j' : SafeJobConfig) (h : sameJobUpToOrder j j')
    (hnd : (j.Inputs.map Prod.fst).Nodup) :
    marshal (JVal.obj (safeJobConfig j')) = marshal (JVal.obj (safeJobConfig j)) := by
  obtain ⟨hd, ho, hi⟩ := h
  have hnd' : (j'.Inputs.map Prod.fst).Nodup := (hi.map Prod.fst).nodup_iff.2 hnd
  apply marshal_obj_congr _ _ (nodupKeys_safeJobConfig j') (nodupKeys_safeJobConfig j)
  intro k
  obtain ⟨a1, a2, a3, a4⟩ := safeJobConfig_fields j
  obtain ⟨b1, b2, b3, b4⟩ := safeJobConfig_fields j'
  by_cases hk1 : k = "description"
  · rw [hk1, a1, b1, hd]
  by_cases hk2 : k = "output"
  · rw [hk2, a2, b2, ho]
  by_cases hk3 : k = "inputs"
  · rw [hk3, a3, b3]
    have hemp : j'.Inputs.isEmpty = j.Inputs.isEmpty := by
      have := hi.length_eq
      cases h1 : j'.Inputs <;> cases h2 : j.Inputs <;> simp [h1, h2] at this ⊢
    rw [hemp]
    cases j.Inputs.isEmpty
    · simp only [Bool.false_eq_true, if_false, Option.map_some']
      exact congrArg some (marshal_inputsConfig_perm _ _ hi hnd')
    · rfl
  · have hn : ∀ job : SafeJobConfig, (∀ k, (getKey (safeJobConfig job) k).isSome = true →
        k ∈ ["description", "output", "inputs"]) → getKey (safeJobConfig job) k = none := by
      intro job hjob
      cases hg : getKey (safeJobConfig job) k with
      | none => rfl
      | some x =>
        have := hjob k (by rw [hg]; rfl)
        simp [hk1, hk2, hk3] at this
    rw [hn j a4, hn j' b4]

/-- No handler of the registry reads the `Jobs` map. -/
theorem handler_ignores_jobs (s : SafeOutputsConfig) (jobs' : List (String × SafeJobConfig)) :
    ∀ e ∈ toolRegistry, e.2 { s with Jobs := jobs' } = e.2 s := by
  unfold toolRegistry
  simp only [List.forall_mem_cons]
  repeat' constructor
  all_goals first
    | rfl
    | (intro e he; cases he)

theorem foldl_registryStep_congr (s s' : SafeOutputsConfig)
    (l : List (String × SafeOutputToolHandler)) (h : ∀ e ∈ l, e.2 s' = e.2 s) :
    ∀ (acc : JMap), l.foldl (registryStep s') acc = l.foldl (registryStep s) acc := by
  induction l with
  | nil => intro acc; rfl
  | cons e rest ih =>
    intro acc
    rw [List.foldl_cons, List.foldl_cons, ih (fun e' he' => h e' (List.mem_cons_of_mem _ he'))]
    have : registryStep s' acc e = registryStep s acc e := by
      unfold registryStep
      rw [h e (List.mem_cons_self _ _)]
    rw [this]

/-- The lookups of the map filled by the registry loop do not depend on the order of the
registry. -/
theorem getKey_foldl_registryStep_perm (s : SafeOutputsConfig)
    (l l' : List (String × SafeOutputToolHandler)) (hp : l.Perm l')
    (hnd : (l.map Prod.fst).Nodup) (k : String) :
    getKey (l.foldl (registryStep s) []) k = getKey (l'.foldl (registryStep s) []) k := by
  have hnd' : (l'.map Prod.fst).Nodup := (hp.map Prod.fst).nodup_iff.1 hnd
  by_cases hex : ∃ e ∈ l, e.1 = k ∧ (e.2 s).2 = true
  · obtain ⟨e, he, hk, hinc⟩ := hex
    rw [← hk, getKey_foldl_registryStep_included s e l [] hnd he hinc,
      getKey_foldl_registryStep_included s e l' [] hnd' (hp.subset he) hinc]
  · have hskip : ∀ e ∈ l, e.1 = k → (e.2 s).2 = false := by
      intro e he hk
      cases hinc : (e.2 s).2
      · rfl
      · exact absurd ⟨e, he, hk, hinc⟩ hex
    rw [getKey_foldl_registryStep_skip s k l [] hskip,
      getKey_foldl_registryStep_skip s k l' []
        (fun e he hk => hskip e (hp.symm.subset he) hk)]

theorem addJobsConfig_eq_foldl (s : SafeOutputsConfig) (cfg : JMap) :
    addJobsConfig s cfg =
      s.Jobs.foldl (fun acc e => setKey acc e.1 (JVal.obj (safeJobConfig e.2))) cfg := by
  unfold addJobsConfig
  split
  · rfl
  · rename_i h
    have h0 : s.Jobs = [] := List.length_eq_zero.1 (by omega)
    rw [h0]
    rfl

theorem keys_of_sameJobs (l jobs' : List (String × SafeJobConfig))
    (h : List.Forall₂ (fun a b => a.1 = b.1 ∧ sameJobUpToOrder a.2 b.2) l jobs') :
    jobs'.map Prod.fst = l.map Prod.fst := by
  induction h with
  | nil => rfl
  | cons hab _ ih => rw [List.map_cons, List.map_cons, ih, hab.1]

theorem getKey_of_sameJobs_aligned (k : String) (l : List (String × SafeJobConfig)) :
    ∀ (jobs' : List (String × SafeJobConfig)),
      List.Forall₂ (fun a b => a.1 = b.1 ∧ sameJobUpToOrder a.2 b.2) l jobs' →
      ((getKey l k = none ∧ getKey jobs' k = none) ∨
        ∃ j j', getKey l k = some j ∧ getKey jobs' k = some j' ∧ sameJobUpToOrder j j') := by
  induction l with
  | nil =>
    intro jobs' hf
    cases hf
    exact Or.inl ⟨rfl, rfl⟩
  | cons a rest ih =>
    intro jobs' hf
    cases hf with
    | cons hab htail =>
      rename_i b rest'
      obtain ⟨ka, ja⟩ := a
      obtain ⟨kb, jb⟩ := b
      have hkk : ka = kb := hab.1
      subst hkk
      by_cases hk : ka = k
      · refine Or.inr ⟨ja, jb, ?_, ?_, hab.2⟩
        · unfold getKey
          rw [if_pos hk]
        · unfold getKey
          rw [if_pos hk]
      · have e1 : getKey ((ka, ja) :: rest) k = getKey rest k := by
          rw [getKey, if_neg hk]
        have e2 : getKey ((ka, jb) :: rest') k = getKey rest' k := by
          rw [getKey, if_neg hk]
        rw [e1, e2]
        exact ih rest' htail

/-- The lookups of a `Jobs` map and of the same map in another order. -/
theorem getKey_sameJobs (jobs jobs' : List (String × SafeJobConfig))
    (h : sameJobsUpToOrder jobs jobs') (hnd : (jobs.map Prod.fst).Nodup) (k : String) :
    (getKey jobs k = none ∧ getKey jobs' k = none) ∨
      ∃ j j', getKey jobs k = some j ∧ getKey jobs' k = some j' ∧ sameJobUpToOrder j j' := by
  obtain ⟨l, hp, hf⟩ := h
  rw [getKey_perm jobs l k hnd hp]
  exact getKey_of_sameJobs_aligned k l jobs' hf

theorem nodupKeys_of_sameJobs (jobs jobs' : List (String × SafeJobConfig))
    (h : sameJobsUpToOrder jobs jobs') (hnd : (jobs.map Prod.fst).Nodup) :
    (jobs'.map Prod.fst).Nodup := by
  obtain ⟨l, hp, hf⟩ := h
  rw [keys_of_sameJobs l jobs' hf]
  exact (hp.map Prod.fst).nodup_iff.1 hnd

theorem sameEncodings_addMentionsConfig (s : SafeOutputsConfig) (m₁ m₂ : JMap)
    (h : sameEncodings m₁ m₂) :
    sameEncodings (addMentionsConfig s m₁) (addMentionsConfig s m₂) := by
  unfold addMentionsConfig
  split
  · exact sameEncodings_ite_setKey _ _ _ _ _ h
  · exact h

theorem sameEncodings_addDispatchConfig (s : SafeOutputsConfig) (m₁ m₂ : JMap)
    (h : sameEncodings m₁ m₂) :
    sameEncodings (addDispatchConfig s m₁) (addDispatchConfig s m₂) := by
  unfold addDispatchConfig
  split
  · exact sameEncodings_ite_setKey _ _ _ _ _ h
  · exact h

/-- The assembled map has the same encodings under every key for every order of the registry,
of the `Jobs` map and of the `Inputs` maps. -/
theorem sameEncodings_safeOutputsConfigMapIn (s : SafeOutputsConfig)
    (registry' : List (String × SafeOutputToolHandler))
    (jobs' : List (String × SafeJobConfig)) (hreg : registry'.Perm toolRegistry)
    (hjobs : sameJobsUpToOrder s.Jobs jobs') (hnd : (s.Jobs.map Prod.fst).Nodup)
    (hin : ∀ j ∈ s.Jobs, (j.2.Inputs.map Prod.fst).Nodup) :
    sameEncodings (safeOutputsConfigMapIn registry' { s with Jobs := jobs' })
      (safeOutputsConfigMap s) := by
  have hreg_nd : (registry'.map Prod.fst).Nodup :=
    (hreg.map Prod.fst).nodup_iff.2 registryKinds_nodup
  have h1 : sameEncodings (registry'.foldl (registryStep { s with Jobs := jobs' }) [])
      (registryConfig s) := by
    intro k
    rw [foldl_registryStep_congr s { s with Jobs := jobs' } registry'
      (fun e he => handler_ignores_jobs s jobs' e (hreg.subset he)) [],
      getKey_foldl_registryStep_perm s registry' toolRegistry hreg hreg_nd k]
    rfl
  have h2 : sameEncodings
      (addJobsConfig { s with Jobs := jobs' }
        (registry'.foldl (registryStep { s with Jobs := jobs' }) []))
      (addJobsConfig s (registryConfig s)) := by
    intro k
    rw [addJobsConfig_eq_foldl, addJobsConfig_eq_foldl,
      getKey_foldl_setKey_lookup (fun j => JVal.obj (safeJobConfig j)) _ _ k
        (nodupKeys_of_sameJobs s.Jobs jobs' hjobs hnd),
      getKey_foldl_setKey_lookup (fun j => JVal.obj (safeJobConfig j)) _ _ k hnd]
    rcases getKey_sameJobs s.Jobs jobs' hjobs hnd k with ⟨ha, hb⟩ | ⟨j, j', ha, hb, hsame⟩
    · have hb' : getKey ({ s with Jobs := jobs' } : SafeOutputsConfig).Jobs k = none := hb
      rw [ha, hb']
      exact h1 k
    · have hb' : getKey ({ s with Jobs := jobs' } : SafeOutputsConfig).Jobs k = some j' := hb
      rw [ha, hb']
      exact congrArg some (marshal_safeJobConfig_congr j j' hsame
        (hin (k, j) (mem_of_getKey_eq_some s.Jobs k j ha)))
  have h3 := sameEncodings_addDispatchConfig s _ _
    (sameEncodings_addMentionsConfig s _ _ h2)
  exact h3

/-- C25: for a fixed aggregate whose maps have distinct keys, the string returned by
`generateSafeOutputsConfig` is the same for every iteration order of the registry, of the
`Jobs` map and of the `Inputs` map of each job. -/
theorem config_deterministic (s : SafeOutputsConfig)
    (registry' : List (String × SafeOutputToolHandler))
    (jobs' : List (String × SafeJobConfig)) (hreg : registry'.Perm toolRegistry)
    (hjobs : sameJobsUpToOrder s.Jobs jobs') (hnd : (s.Jobs.map Prod.fst).Nodup)
    (hin : ∀ j ∈ s.Jobs, (j.2.Inputs.map Prod.fst).Nodup) :
    generateSafeOutputsConfigIn registry' { SafeOutputs := some { s with Jobs := jobs' } } =
      generateSafeOutputsConfig { SafeOutputs := some s } := by
  have h := marshal_obj_congr _ _
    (nodupKeys_safeOutputsConfigMapIn registry' { s with Jobs := jobs' })
    (nodupKeys_safeOutputsConfigMapIn toolRegistry s)
    (sameEncodings_safeOutputsConfigMapIn s registry' jobs' hreg hjobs hnd hin)
  have h' : marshal (JVal.obj (safeOutputsConfigMapIn registry' { s with Jobs := jobs' })) =
      marshal (JVal.obj (safeOutputsConfigMap s)) := h
  show (match marshal (JVal.obj (safeOutputsConfigMapIn registry' { s with Jobs := jobs' })) with
    | some configJSON => configJSON
    | none => "") =
    (match marshal (JVal.obj (safeOutputsConfigMap s)) with
    | some configJSON => configJSON
    | none => "")
  rw [h']

/-- Witness for C25: the registry read backwards, the two jobs of `sampleOrdered` swapped and
the inputs of `deploy` swapped give the same text. -/
theorem config_deterministic_witness :
    toolRegistry.reverse.Perm toolRegistry ∧
    sameJobsUpToOrder sampleOrdered.Jobs sampleReorderedJobs ∧
    generateSafeOutputsConfigIn toolRegistry.reverse
        { SafeOutputs := some { sampleOrdered with Jobs := sampleReorderedJobs } } =
      generateSafeOutputsConfig { SafeOutputs := some sampleOrdered } :=
  have hjobs : sameJobsUpToOrder sampleOrdered.Jobs sampleReorderedJobs :=
    ⟨sampleOrdered.Jobs.reverse, (List.reverse_perm _).symm,
      List.Forall₂.cons ⟨rfl, rfl, rfl, List.Perm.refl _⟩
        (List.Forall₂.cons ⟨rfl, rfl, rfl, List.Perm.swap _ _ _⟩ List.Forall₂.nil)⟩
  ⟨List.reverse_perm _, hjobs,
   config_deterministic sampleOrdered toolRegistry.reverse sampleReorderedJobs
     (List.reverse_perm _) hjobs (by decide)
     (by
       intro j hj
       simp only [sampleOrdered, List.mem_cons, List.mem_singleton, List.not_mem_nil,
         or_false] at hj
       rcases hj with rfl | rfl <;> decide)⟩

/-! ## C31: the project URL test on the markdown -/

theorem afterLeading_eq_some (pre : List Char) :
    ∀ (cs rest : List Char), afterLeading pre cs = some rest → cs = pre ++ rest := by
  induction pre with
  | nil =>
    intro cs rest h
    simp only [afterLeading, Option.some.injEq] at h
    simp [h]
  | cons p pre ih =>
    intro cs rest h
    cases cs with
    | nil => simp [afterLeading] at h
    | cons c cs =>
      by_cases hpc : p = c
      · subst hpc
        rw [afterLeading, if_pos rfl] at h
        rw [ih cs rest h]
        rfl
      · rw [afterLeading, if_neg hpc] at h
        cases h

theorem containsChars_of_suffix (sub : List Char) :
    ∀ (l t : List Char), t <:+ l → sub <+: t → containsChars l sub = true := by
  intro l
  induction l with
  | nil =>
    intro t ht hs
    have ht0 : t = [] := List.suffix_nil.1 ht
    subst ht0
    have hs0 : sub = [] := List.prefix_nil.1 hs
    subst hs0
    rfl
  | cons c rest ih =>
    intro t ht hs
    rw [containsChars, Bool.or_eq_true]
    rcases List.suffix_cons_iff.1 ht with h | h
    · left
      rw [h] at hs
      exact List.isPrefixOf_iff_prefix.2 hs
    · right
      exact ih t h hs

theorem contains_of_projectURLAt (base : String) (l cs : List Char) (hcs : cs <:+ l)
    (h : projectURLAt base cs = true) :
    containsChars l base.data = true ∧ containsChars l "/projects/".data = true := by
  unfold projectURLAt at h
  cases ha : afterLeading base.data cs with
  | none => simp [ha] at h
  | some rest =>
    rw [ha] at h
    simp only [Bool.and_eq_true] at h
    have hcs_eq := afterLeading_eq_some _ _ _ ha
    constructor
    · exact containsChars_of_suffix _ l cs hcs ⟨rest, hcs_eq.symm⟩
    · cases hb : afterLeading "/projects/".data (rest.dropWhile ownerChar) with
      | none => simp [hb] at h
      | some tail =>
        have htail := afterLeading_eq_some _ _ _ hb
        have hsuf : rest.dropWhile ownerChar <:+ l :=
          ((List.dropWhile_suffix ownerChar).trans ⟨base.data, hcs_eq.symm⟩).trans hcs
        exact containsChars_of_suffix _ l _ hsuf ⟨tail, htail.symm⟩

/-- C31, counterexample: a markdown that names an organisation page and, elsewhere, a
`/projects/` folder contains no URL of the form `https://github.com/orgs/{org}/projects/{n}`
or `https://github.com/users/{user}/projects/{n}`, and `hasProjectURLInMarkdown` returns
true for it; so it does for the two substrings in the reverse order. -/
theorem project_url_false_positive :
    containsProjectURL "See https://github.com/orgs/acme and the /projects/ folder" = false ∧
    hasProjectURLInMarkdown "See https://github.com/orgs/acme and the /projects/ folder" =
      true ∧
    containsProjectURL "/projects/ https://github.com/users/" = false ∧
    hasProjectURLInMarkdown "/projects/ https://github.com/users/" = true := by
  refine ⟨?_, ?_, ?_, ?_⟩ <;> decide

/-- C31, amended: `hasProjectURLInMarkdown` returns true if and only if the markdown contains
the substring `/projects/` and one of the substrings `https://github.com/orgs/` and
`https://github.com/users/`, anywhere and in any order; in particular it returns true for
every markdown that contains a URL of the form `https://github.com/orgs/{org}/projects/{n}`
or `https://github.com/users/{user}/projects/{n}`. -/
theorem project_url_substring_test (markdownContent : String) :
    (hasProjectURLInMarkdown markdownContent = true ↔
      (Contains markdownContent "/projects/" = true ∧
        (Contains markdownContent "https://github.com/orgs/" = true ∨
          Contains markdownContent "https://github.com/users/" = true))) ∧
    (containsProjectURL markdownContent = true →
      hasProjectURLInMarkdown markdownContent = true) := by
  have hiff : hasProjectURLInMarkdown markdownContent = true ↔
      (Contains markdownContent "/projects/" = true ∧
        (Contains markdownContent "https://github.com/orgs/" = true ∨
          Contains markdownContent "https://github.com/users/" = true)) := by
    unfold hasProjectURLInMarkdown
    cases Contains markdownContent "/projects/" <;>
      cases Contains markdownContent "https://github.com/orgs/" <;>
      cases Contains markdownContent "https://github.com/users/" <;> simp
  refine ⟨hiff, ?_⟩
  intro h
  rw [hiff]
  unfold containsProjectURL at h
  rw [List.any_eq_true] at h
  obtain ⟨cs, hmem, hcs⟩ := h
  have hsuf : cs <:+ markdownContent.data := (List.mem_tails _ _).1 hmem
  rw [Bool.or_eq_true] at hcs
  rcases hcs with hcs | hcs
  · have := contains_of_projectURLAt _ _ _ hsuf hcs
    exact ⟨this.2, Or.inl this.1⟩
  · have := contains_of_projectURLAt _ _ _ hsuf hcs
    exact ⟨this.2, Or.inr this.1⟩

/-- Witness for the amended C31: a markdown with an organisation project URL. -/
theorem project_url_substring_test_witness :
    containsProjectURL "Track at https://github.com/orgs/myorg/projects/123" = true ∧
    hasProjectURLInMarkdown "Track at https://github.com/orgs/myorg/projects/123" = true :=
  ⟨by decide,
   (project_url_substring_test "Track at https://github.com/orgs/myorg/projects/123").2
     (by decide)⟩

/-! ## C32-C34: campaign detection -/

/-- C32: `detectCampaignWorkflow` returns true with a source text if and only if
`hasCampaignLabels` or `hasCampaignID` holds, and `(false, "")` otherwise; when the labels
hold (also together with the campaign id) the source text names the campaign labels, and when
only the campaign id holds it names `campaign-id`. -/
theorem detect_campaign_sources (frontmatter : JMap) :
    ((detectCampaignWorkflow frontmatter).1 = true ↔
      (hasCampaignLabels frontmatter = true ∨ hasCampaignID frontmatter = true)) ∧
    ((detectCampaignWorkflow frontmatter).1 = false →
      detectCampaignWorkflow frontmatter = (false, "")) ∧
    (hasCampaignLabels frontmatter = true →
      detectCampaignWorkflow frontmatter =
        (true, "campaign labels in safe-outputs (agentic-campaign or z_campaign_*)")) ∧
    (hasCampaignLabels frontmatter = false → hasCampaignID frontmatter = true →
      detectCampaignWorkflow frontmatter = (true, "campaign-id in repo-memory configuration")) ∧
    Contains "campaign labels in safe-outputs (agentic-campaign or z_campaign_*)"
      "campaign labels" = true ∧
    Contains "campaign-id in repo-memory configuration" "campaign-id" = true := by
  unfold detectCampaignWorkflow
  refine ⟨?_, ?_, ?_, ?_, by decide, by decide⟩
  · cases hasCampaignLabels frontmatter <;> cases hasCampaignID frontmatter <;> simp
  · cases hasCampaignLabels frontmatter <;> cases hasCampaignID frontmatter <;> simp
  · intro h
    simp [h]
  · intro h1 h2
    simp [h1, h2]

theorem HasPrefix_iff (s pre : String) :
    HasPrefix s pre = true ↔ ∃ rest : String, s = pre ++ rest := by
  unfold HasPrefix
  rw [List.isPrefixOf_iff_prefix]
  constructor
  · rintro ⟨t, ht⟩
    refine ⟨String.mk t, ?_⟩
    apply String.ext
    rw [String.data_append, ht]
  · rintro ⟨rest, hrest⟩
    refine ⟨rest.data, ?_⟩
    rw [hrest, String.data_append]

/-- C33: `isCampaignLabel` is true if and only if the label is `agentic-campaign` or starts
with `z_campaign_`; it is false for the empty string, for `my-agentic-campaign` and for
`z_test`. -/
theorem campaign_label_iff (label : String) :
    (isCampaignLabel label = true ↔
      (label = "agentic-campaign" ∨ ∃ rest : String, label = "z_campaign_" ++ rest)) ∧
    isCampaignLabel "" = false ∧
    isCampaignLabel "my-agentic-campaign" = false ∧
    isCampaignLabel "z_test" = false := by
  refine ⟨?_, by decide, by decide, by decide⟩
  unfold isCampaignLabel
  rw [← HasPrefix_iff]
  unfold AgenticCampaignLabel CampaignLabelPrefix
  by_cases h1 : label = "agentic-campaign"
  · simp [h1]
  · cases h2 : HasPrefix label "z_campaign_" <;> simp [h1, h2]

theorem TrimSpace_of_blank (s : String) (h : ∀ c ∈ s.data, isSpace c = true) :
    TrimSpace s = "" := by
  unfold TrimSpace
  have : s.data.dropWhile isSpace = [] := List.dropWhile_eq_nil_iff.2 h
  rw [this]
  rfl

theorem hasCampaignIDEntry_iff (config : JMap) :
    hasCampaignIDEntry config = true ↔ hasValidCampaignID config := by
  unfold hasCampaignIDEntry hasValidCampaignID
  cases hg : getKey config "campaign-id" with
  | none => simp
  | some v =>
    cases v <;> simp [neNil, asString]

theorem not_hasValidCampaignID (config : JMap)
    (h : getKey config "campaign-id" = none ∨ getKey config "campaign-id" = some JVal.null ∨
      (∃ idStr, getKey config "campaign-id" = some (JVal.str idStr) ∧
        ∀ c ∈ idStr.data, isSpace c = true) ∨
      (∃ v, getKey config "campaign-id" = some v ∧ ∀ idStr, v ≠ JVal.str idStr)) :
    ¬ hasValidCampaignID config := by
  rintro ⟨idStr, hid, hne⟩
  rcases h with h | h | ⟨s, hs, hblank⟩ | ⟨v, hv, hns⟩
  · rw [h] at hid; cases hid
  · rw [h] at hid; cases hid
  · rw [hs] at hid
    cases hid
    exact hne (TrimSpace_of_blank _ hblank)
  · rw [hv] at hid
    cases hid
    exact hns idStr rfl

/-- C34: `hasCampaignID` is true if and only if `tools` is a map whose `repo-memory` is either
a map whose `campaign-id` is a string that is not blank after trimming, or a list that
contains such a map; it is false when `tools` or `repo-memory` is missing, and when
`repo-memory` is a map whose `campaign-id` is missing, nil, empty or blank, or not a
string. -/
theorem campaign_id_detection (frontmatter : JMap) :
    (hasCampaignID frontmatter = true ↔
      ∃ tools, getKey frontmatter "tools" = some (JVal.obj tools) ∧
        ((∃ v, getKey tools "repo-memory" = some (JVal.obj v) ∧ hasValidCampaignID v) ∨
          (∃ items v, getKey tools "repo-memory" = some (JVal.arr items) ∧
            JVal.obj v ∈ items ∧ hasValidCampaignID v))) ∧
    (getKey frontmatter "tools" = none → hasCampaignID frontmatter = false) ∧
    (∀ tools, getKey frontmatter "tools" = some (JVal.obj tools) →
      getKey tools "repo-memory" = none → hasCampaignID frontmatter = false) ∧
    (∀ tools config, getKey frontmatter "tools" = some (JVal.obj tools) →
      getKey tools "repo-memory" = some (JVal.obj config) →
      (getKey config "campaign-id" = none ∨ getKey config "campaign-id" = some JVal.null ∨
        (∃ idStr, getKey config "campaign-id" = some (JVal.str idStr) ∧
          ∀ c ∈ idStr.data, isSpace c = true) ∨
        (∃ v, getKey config "campaign-id" = some v ∧ ∀ idStr, v ≠ JVal.str idStr)) →
      hasCampaignID frontmatter = false) := by
  refine ⟨?_, ?_, ?_, ?_⟩
  · unfold hasCampaignID
    cases ht : getKey frontmatter "tools" with
    | none => simp [asMap]
    | some tv =>
      cases tv with
      | obj tools =>
        simp only [asMap, Option.some.injEq, JVal.obj.injEq, exists_eq_left']
        cases hr : getKey tools "repo-memory" with
        | none => simp
        | some rv =>
          cases rv with
          | obj v => simp [hasCampaignIDEntry_iff]
          | arr items =>
            simp only [Option.some.injEq, JVal.arr.injEq, false_and, exists_false, false_or,
              List.any_eq_true, reduceCtorEq]
            constructor
            · rintro ⟨item, hmem, hitem⟩
              cases item with
              | obj v =>
                exact ⟨items, v, rfl, hmem,
                  (hasCampaignIDEntry_iff v).1 (by simpa [asMap] using hitem)⟩
              | _ => simp [asMap] at hitem
            · rintro ⟨items', v, hitems, hmem, hv⟩
              subst hitems
              exact ⟨JVal.obj v, hmem, by simpa [asMap] using (hasCampaignIDEntry_iff v).2 hv⟩
          | _ => simp
      | _ => simp [asMap]
  · intro h
    simp [hasCampaignID, h, asMap]
  · intro tools ht hr
    simp [hasCampaignID, ht, hr, asMap]
  · intro tools config ht hr h
    have hnot := not_hasValidCampaignID config h
    have : hasCampaignIDEntry config = false := by
      cases he : hasCampaignIDEntry config
      · rfl
      · exact absurd ((hasCampaignIDEntry_iff config).1 he) hnot
    simp [hasCampaignID, ht, hr, asMap, this]

/-! ## C35: the two dispatch resolvers -/

theorem resolvedExtension_values (env : Collaborators) (path w : String) :
    resolvedExtension env path w = none ∨ resolvedExtension env path w = some ".lock.yml" ∨
      resolvedExtension env path w = some ".yml" := by
  unfold resolvedExtension
  cases env.findWorkflowFile w path with
  | none => exact Or.inl rfl
  | some r =>
    by_cases h1 : r.lockExists = true
    · simp [h1]
    · by_cases h2 : r.ymlExists = true
      · simp [h1, h2]
      · simp [h1, h2]

theorem populate_eq_addDispatchWorkflowTools (env : Collaborators) (acc : List JMap)
    (s : SafeOutputsConfig) (path : String) :
    populateDispatchWorkflowFiles env { SafeOutputs := some s } path =
      { SafeOutputs := some (addDispatchWorkflowTools env acc s path).2 } := by
  unfold populateDispatchWorkflowFiles addDispatchWorkflowTools
  rcases hd : s.DispatchWorkflow with _ | d
  · simp only [hd]
  · simp only [hd]
    by_cases h0 : d.Workflows.length = 0
    · simp only [h0, if_true]
    · simp only [h0, if_false]
      rw [foldl_dispatchToolStep]

theorem workflowFilesOf_populate_eq (env : Collaborators) (s : SafeOutputsConfig)
    (path : String) :
    workflowFilesOf (populateDispatchWorkflowFiles env { SafeOutputs := some s } path) =
      (configuredWorkflows s).foldl (populateStep env path)
        (workflowFilesOf { SafeOutputs := some s }) := by
  unfold configuredWorkflows
  cases hd : s.DispatchWorkflow with
  | none => simp [populateDispatchWorkflowFiles, workflowFilesOf, hd]
  | some d =>
    rw [workflowFilesOf_populate env path s d hd]
    simp [workflowFilesOf, hd]

/-- C35: for every aggregate, tool list and locator, `populateDispatchWorkflowFiles` and
`addDispatchWorkflowTools` started on the same aggregate leave the same aggregate, hence the
same `WorkflowFiles` map; and every entry of that map is either the entry it had before or
`.lock.yml` or `.yml` under one of the configured workflow identifiers. -/
theorem dispatch_resolvers_agree (env : Collaborators) (acc : List JMap)
    (s : SafeOutputsConfig) (path : String) :
    populateDispatchWorkflowFiles env { SafeOutputs := some s } path =
      { SafeOutputs := some (addDispatchWorkflowTools env acc s path).2 } ∧
    workflowFilesOf (populateDispatchWorkflowFiles env { SafeOutputs := some s } path) =
      workflowFilesOf { SafeOutputs := some (addDispatchWorkflowTools env acc s path).2 } ∧
    (∀ k,
      getKey (workflowFilesOf { SafeOutputs := some (addDispatchWorkflowTools env acc s path).2 })
          k = getKey (workflowFilesOf { SafeOutputs := some s }) k ∨
      (k ∈ configuredWorkflows s ∧
        (getKey (workflowFilesOf
            { SafeOutputs := some (addDispatchWorkflowTools env acc s path).2 }) k =
            some ".lock.yml" ∨
          getKey (workflowFilesOf
            { SafeOutputs := some (addDispatchWorkflowTools env acc s path).2 }) k =
            some ".yml"))) := by
  have heq := populate_eq_addDispatchWorkflowTools env acc s path
  refine ⟨heq, by rw [heq], ?_⟩
  intro k
  rw [← heq, workflowFilesOf_populate_eq, getKey_foldl_populateStep]
  by_cases hk : k ∈ configuredWorkflows s
  · rw [if_pos hk]
    rcases resolvedExtension_values env path k with h | h | h
    · rw [h]
      exact Or.inl rfl
    · rw [h]
      exact Or.inr ⟨hk, Or.inl rfl⟩
    · rw [h]
      exact Or.inr ⟨hk, Or.inr rfl⟩
  · rw [if_neg hk]
    exact Or.inl rfl

/-! ## C36: defaults of workflow inputs -/

/-- C36, the code at the failing input: for the workflow input `env` of type `choice` with the
options `dev` and `prod` and the default `dev`, the property that
`generateDispatchWorkflowTool` emits has `type`, `description` and `enum` and no `default`
key; the same input without options keeps its default, and `generateCustomJobToolDefinition`
emits the default of the same choice input next to `enum`. -/
theorem dispatch_choice_default_dropped :
    getKey (propertiesOf (generateDispatchWorkflowTool (fun n => n) "deploy"
      [("env", JVal.obj [("type", JVal.str "choice"),
        ("options", JVal.arr [JVal.str "dev", JVal.str "prod"]),
        ("default", JVal.str "dev")])])) "env" =
      some (JVal.obj [("type", JVal.str "string"),
        ("description", JVal.str "Input parameter \'env\' for workflow deploy"),
        ("enum", JVal.arr [JVal.str "dev", JVal.str "prod"])]) ∧
    getKey (propertiesOf (generateDispatchWorkflowTool (fun n => n) "deploy"
      [("env", JVal.obj [("type", JVal.str "choice"), ("default", JVal.str "dev")])])) "env" =
      some (JVal.obj [("type", JVal.str "string"),
        ("description", JVal.str "Input parameter \'env\' for workflow deploy"),
        ("default", JVal.str "dev")]) ∧
    getKey (propertiesOf (generateCustomJobToolDefinition "deploy"
      { Inputs := [("env",
          { Type_ := "choice", Options := ["dev", "prod"], Default := JVal.str "dev" })] }))
      "env" =
      some (JVal.obj [("type", JVal.str "string"),
        ("enum", JVal.arr [JVal.str "dev", JVal.str "prod"]),
        ("default", JVal.str "dev")]) :=
  ⟨rfl, rfl, rfl⟩

/-- What the code does for every input: the property of a choice input with options has no
`default` key, whatever the definition declares; every other input whose definition has a
`default` key keeps that value. -/
theorem dispatchProperty_default (workflowName name : String) (m : JMap) :
    getKey (dispatchProperty workflowName name m) "default" =
      (if declaredType m = "choice" ∧ (declaredOptions m).length > 0 then none
       else getKey m "default") := by
  unfold dispatchProperty
  by_cases h : declaredType m = "choice" ∧ (declaredOptions m).length > 0
  · rw [if_pos h, if_pos h]
    rfl
  · rw [if_neg h, if_neg h]
    cases hd : getKey m "default" with
    | none => rfl
    | some v => rfl

/-! ## C37: required names are declared properties -/

theorem isSome_getKey_foldl_setKey_mem {β γ : Type} (f : γ → β) (l : List (String × γ)) :
    ∀ (acc : List (String × β)) (e : String × γ), e ∈ l →
      (getKey (l.foldl (fun acc e => setKey acc e.1 (f e.2)) acc) e.1).isSome = true := by
  induction l with
  | nil => intro acc e he; simp at he
  | cons e' rest ih =>
    intro acc e he
    rw [List.foldl_cons]
    rcases List.mem_cons.1 he with rfl | hmem
    · apply isSome_getKey_foldl_setKey
      rw [getKey_setKey_self]
      rfl
    · exact ih _ e hmem

theorem mem_strList (xs : List String) (x : String) :
    JVal.str x ∈ (asArr (some (strList xs))).getD [] ↔ x ∈ xs := by
  unfold strList
  simp [asArr]

theorem requiredOf_customJob (jobName : String) (job : SafeJobConfig) (x : String) :
    JVal.str x ∈ requiredOf (generateCustomJobToolDefinition jobName job) ↔
      x ∈ sortStrings (requiredInputs job) := by
  unfold requiredOf
  rw [(getKey_inputSchemaOf_customJob jobName job).2.2.2]
  by_cases h : (requiredInputs job).length > 0
  · rw [if_pos h]
    exact mem_strList _ x
  · rw [if_neg h]
    have h0 : requiredInputs job = [] := List.length_eq_zero.1 (by omega)
    rw [h0]
    simp [asArr, sortStrings]

theorem requiredOf_dispatch (norm : String → String) (workflowName : String) (inputs : JMap)
    (x : String) :
    JVal.str x ∈ requiredOf (generateDispatchWorkflowTool norm workflowName inputs) ↔
      x ∈ dispatchRequiredInputs inputs := by
  unfold requiredOf
  rw [(getKey_inputSchemaOf_dispatch norm workflowName inputs).2.2.2]
  by_cases h : (dispatchRequiredInputs inputs).length > 0
  · rw [if_pos h]
    exact mem_strList _ x
  · rw [if_neg h]
    have h0 : dispatchRequiredInputs inputs = [] := List.length_eq_zero.1 (by omega)
    rw [h0]
    simp [asArr]

/-- The keys of the `properties` map that the input loop of `generateDispatchWorkflowTool`
builds: the keys it started with and the names of the inputs whose definition is a map. -/
theorem isSome_getKey_foldl_dispatchInputStep (workflowName : String) (k : String)
    (inputs : JMap) :
    ∀ (st : JMap × List String),
      ((getKey (inputs.foldl (dispatchInputStep workflowName) st).1 k).isSome = true ↔
        ((getKey st.1 k).isSome = true ∨ ∃ m, (k, JVal.obj m) ∈ inputs)) := by
  induction inputs with
  | nil => intro st; simp
  | cons e rest ih =>
    intro st
    rw [List.foldl_cons, ih]
    rcases dispatchInputStep_cases workflowName st e with ⟨hnone, hst⟩ | ⟨m, hm, hst⟩
    · rw [hst]
      constructor
      · rintro (h | ⟨m, hm⟩)
        · exact Or.inl h
        · exact Or.inr ⟨m, List.mem_cons_of_mem _ hm⟩
      · rintro (h | ⟨m, hm⟩)
        · exact Or.inl h
        · rcases List.mem_cons.1 hm with heq | hmem
          · rw [← heq] at hnone
            simp [asMap] at hnone
          · exact Or.inr ⟨m, hmem⟩
    · rw [hst]
      obtain ⟨name, v⟩ := e
      simp only at hm
      subst hm
      by_cases hk : k = name
      · subst hk
        simp [getKey_setKey_self]
      · simp only [getKey_setKey_ne _ _ _ _ hk]
        constructor
        · rintro (h | ⟨m', hm'⟩)
          · exact Or.inl h
          · exact Or.inr ⟨m', List.mem_cons_of_mem _ hm'⟩
        · rintro (h | ⟨m', hm'⟩)
          · exact Or.inl h
          · rcases List.mem_cons.1 hm' with heq | hmem
            · exact absurd (congrArg Prod.fst heq) hk
            · exact Or.inr ⟨m', hmem⟩

/-- C37: in the tool of `generateCustomJobToolDefinition` and in the tool of
`generateDispatchWorkflowTool` every name of the `required` list is a key of `properties`;
the keys of the `properties` of the dispatch tool are exactly the names of the inputs whose
definition is a map. -/
theorem required_names_declared (jobName : String) (job : SafeJobConfig)
    (norm : String → String) (workflowName : String) (inputs : JMap) :
    (∀ x, JVal.str x ∈ requiredOf (generateCustomJobToolDefinition jobName job) →
      (getKey (propertiesOf (generateCustomJobToolDefinition jobName job)) x).isSome = true) ∧
    (∀ x, JVal.str x ∈ requiredOf (generateDispatchWorkflowTool norm workflowName inputs) →
      (getKey (propertiesOf (generateDispatchWorkflowTool norm workflowName inputs))
        x).isSome = true) ∧
    (∀ k, (getKey (propertiesOf (generateDispatchWorkflowTool norm workflowName inputs))
        k).isSome = true ↔ ∃ m, (k, JVal.obj m) ∈ inputs) ∧
    (∀ v ∈ requiredOf (generateCustomJobToolDefinition jobName job), ∃ x, v = JVal.str x) ∧
    (∀ v ∈ requiredOf (generateDispatchWorkflowTool norm workflowName inputs),
      ∃ x, v = JVal.str x) := by
  have hkeys : ∀ k, (getKey (propertiesOf
      (generateDispatchWorkflowTool norm workflowName inputs)) k).isSome = true ↔
      ∃ m, (k, JVal.obj m) ∈ inputs := by
    intro k
    rw [propertiesOf_dispatch]
    unfold dispatchProperties
    rw [isSome_getKey_foldl_dispatchInputStep]
    simp [getKey]
  have hstr : ∀ (xs : List String), ∀ v ∈ (asArr (some (strList xs))).getD [],
      ∃ x, v = JVal.str x := by
    intro xs v hv
    simp only [strList, asArr, Option.getD_some, List.mem_map] at hv
    obtain ⟨x, _, hx⟩ := hv
    exact ⟨x, hx.symm⟩
  refine ⟨?_, ?_, hkeys, ?_, ?_⟩
  · intro x hx
    rw [requiredOf_customJob] at hx
    have hx' : x ∈ requiredInputs job := (mem_sortStrings _ _).1 hx
    unfold requiredInputs at hx'
    obtain ⟨e, he, hex⟩ := List.mem_map.1 hx'
    have hmem : e ∈ job.Inputs := (List.mem_filter.1 he).1
    rw [propertiesOf_customJob]
    unfold customJobProperties
    rw [← hex]
    exact isSome_getKey_foldl_setKey_mem (fun d => JVal.obj (customJobProperty d)) job.Inputs
      [] e hmem
  · intro x hx
    rw [requiredOf_dispatch] at hx
    rw [hkeys]
    unfold dispatchRequiredInputs at hx
    obtain ⟨e, he, hex⟩ := List.mem_filterMap.1 hx
    obtain ⟨name, v⟩ := e
    cases v with
    | obj m =>
      simp only [asMap] at hex
      by_cases hr : dispatchRequired m = true
      · simp only [hr, if_true, Option.some.injEq] at hex
        subst hex
        exact ⟨m, he⟩
      · simp [hr] at hex
    | _ => simp [asMap] at hex
  · intro v hv
    unfold requiredOf at hv
    rw [(getKey_inputSchemaOf_customJob jobName job).2.2.2] at hv
    by_cases h : (requiredInputs job).length > 0
    · rw [if_pos h] at hv
      exact hstr _ v hv
    · rw [if_neg h] at hv
      simp [asArr] at hv
  · intro v hv
    unfold requiredOf at hv
    rw [(getKey_inputSchemaOf_dispatch norm workflowName inputs).2.2.2] at hv
    by_cases h : (dispatchRequiredInputs inputs).length > 0
    · rw [if_pos h] at hv
      exact hstr _ v hv
    · rw [if_neg h] at hv
      simp [asArr] at hv

/-! ## C38: the names of the repo parameter switch and the registry -/

/-- The names of the `switch` of `addRepoParameterIfNeeded` other than `close_pull_request`
are keys of the registry. -/
theorem repoToolNames_registered :
    ∀ n ∈ repoToolNames, n ≠ "close_pull_request" → n ∈ registryKinds := by
  decide

/-- C38, the code at the failing input: the `switch` of `addRepoParameterIfNeeded`
associates `close_pull_request` with the `ClosePullRequests` policy and would inject the
`repo` property into its descriptor, but `close_pull_request` is not a key of the registry,
so no aggregate enables it and the catalog generated for an aggregate with a
`ClosePullRequests` policy does not contain its descriptor. -/
theorem close_pull_request_not_registered :
    "close_pull_request" ∈ repoToolNames ∧
    repoPolicy "close_pull_request" sampleClosePullRequests =
      sampleClosePullRequests.ClosePullRequests ∧
    getKey (propertiesOf (addRepoParameterIfNeeded sampleWide sampleClosePullRequestTool
      "close_pull_request" (some sampleClosePullRequests))) "repo" =
      some (repoProperty sampleWide "") ∧
    "close_pull_request" ∉ registryKinds ∧
    (∀ s : SafeOutputsConfig, "close_pull_request" ∉ buildEnabledToolsSet (some s)) ∧
    (filteredToolsList { sampleCollaborators with allTools := some [sampleClosePullRequestTool] }
      [sampleClosePullRequestTool] sampleClosePullRequests "wf.md").1 = [] := by
  refine ⟨by decide, rfl, rfl, by decide, ?_, rfl⟩
  intro s hmem
  unfold buildEnabledToolsSet at hmem
  rw [mem_foldl_enabledStep] at hmem
  rcases hmem with h | ⟨e, he, hk, _, _⟩
  · simp at h
  · have : e.1 ∈ registryKinds := List.mem_map.2 ⟨e, he, rfl⟩
    rw [hk] at this
    revert this
    decide

/-! ## C39: the dispatch block of the runtime configuration -/

theorem dispatchWorkflowConfig_fields (d : DispatchWorkflowConfig) :
    getKey (dispatchWorkflowConfig d) "workflows" =
      (if d.Workflows.isEmpty then none else some (strList d.Workflows)) ∧
    getKey (dispatchWorkflowConfig d) "workflow_files" =
      (if d.WorkflowFiles.isEmpty then none else some (strMap d.WorkflowFiles)) ∧
    (∀ k, (getKey (dispatchWorkflowConfig d) k).isSome = true →
      k ∈ ["workflows", "workflow_files", "max"]) := by
  unfold dispatchWorkflowConfig
  refine ⟨?_, ?_, ?_⟩
  · rw [getKey_setKey_ne _ _ _ _ (by decide), getKey_ite_setKey_ne _ _ _ _ _ (by decide)]
    cases h : d.Workflows with
    | nil => simp [getKey]
    | cons w rest => simp [getKey_setKey_self]
  · rw [getKey_setKey_ne _ _ _ _ (by decide)]
    cases h : d.WorkflowFiles with
    | nil =>
      simp only [List.length_nil, gt_iff_lt, lt_self_iff_false, if_false, List.isEmpty_nil,
        if_true]
      rw [getKey_ite_setKey_ne _ _ _ _ _ (by decide)]
      rfl
    | cons w rest => simp [getKey_setKey_self]
  · intro k hk
    by_contra hne
    simp only [List.mem_cons, List.mem_singleton, List.mem_nil_iff, or_false, not_or] at hne
    obtain ⟨h1, h2, h3⟩ := hne
    rw [getKey_setKey_ne _ _ _ _ h3, getKey_ite_setKey_ne _ _ _ _ _ h2,
      getKey_ite_setKey_ne _ _ _ _ _ h1] at hk
    simp [getKey] at hk

/-- C39, counterexample: an aggregate without a dispatch policy and with a custom job named
`dispatch_workflow` has the key `dispatch_workflow` in its runtime configuration. -/
theorem custom_job_named_dispatch_workflow :
    ({ Jobs := [("dispatch_workflow", { Description := "run" })] } :
      SafeOutputsConfig).DispatchWorkflow = none ∧
    getKey (safeOutputsConfigMap { Jobs := [("dispatch_workflow", { Description := "run" })] })
      "dispatch_workflow" = some (JVal.obj [("description", JVal.str "run")]) ∧
    generateSafeOutputsConfig
      { SafeOutputs := some { Jobs := [("dispatch_workflow", { Description := "run" })] } } =
      "\x7b\"dispatch_workflow\":\x7b\"description\":\"run\"\x7d\x7d" :=
  ⟨rfl, rfl, by decide⟩

/-- C39, amended: when `DispatchWorkflow` is non-nil, also with an empty workflow list, the
runtime configuration has the key `dispatch_workflow` with the dispatch block, in which
`workflows` is present exactly when the list is non-empty and `workflow_files` exactly when
the files map is non-empty, each with the value of the field; after
`populateDispatchWorkflowFiles` the files map of the block is the resolved mapping.  When
`DispatchWorkflow` is nil the key is absent unless a custom job is named
`dispatch_workflow`. -/
theorem dispatch_block (s : SafeOutputsConfig) :
    (∀ d, s.DispatchWorkflow = some d →
      getKey (safeOutputsConfigMap s) "dispatch_workflow" =
        some (JVal.obj (dispatchWorkflowConfig d)) ∧
      getKey (dispatchWorkflowConfig d) "workflows" =
        (if d.Workflows.isEmpty then none else some (strList d.Workflows)) ∧
      getKey (dispatchWorkflowConfig d) "workflow_files" =
        (if d.WorkflowFiles.isEmpty then none else some (strMap d.WorkflowFiles)) ∧
      (∀ k, (getKey (dispatchWorkflowConfig d) k).isSome = true →
        k ∈ ["workflows", "workflow_files", "max"])) ∧
    (s.DispatchWorkflow = none → (∀ j ∈ s.Jobs, j.1 ≠ "dispatch_workflow") →
      getKey (safeOutputsConfigMap s) "dispatch_workflow" = none) ∧
    (∀ (env : Collaborators) (path : String) (d : DispatchWorkflowConfig),
      s.DispatchWorkflow = some d →
      ∃ s' d', (populateDispatchWorkflowFiles env { SafeOutputs := some s } path).SafeOutputs =
          some s' ∧ s'.DispatchWorkflow = some d' ∧ d'.Workflows = d.Workflows ∧
        d'.WorkflowFiles = d.Workflows.foldl (populateStep env path) d.WorkflowFiles ∧
        getKey (safeOutputsConfigMap s') "dispatch_workflow" =
          some (JVal.obj (dispatchWorkflowConfig d')) ∧
        getKey (dispatchWorkflowConfig d') "workflow_files" =
          (if d'.WorkflowFiles.isEmpty then none else some (strMap d'.WorkflowFiles))) := by
  have hkey : ∀ (s : SafeOutputsConfig) (d : DispatchWorkflowConfig),
      s.DispatchWorkflow = some d →
      getKey (safeOutputsConfigMap s) "dispatch_workflow" =
        some (JVal.obj (dispatchWorkflowConfig d)) := by
    intro s d h
    have hne : dispatchWorkflowConfig d ≠ [] := by
      intro h0
      have hmax : getKey (dispatchWorkflowConfig d) "max" =
          some (JVal.num (if d.Max > 0 then d.Max else 1)) := by
        unfold dispatchWorkflowConfig
        exact getKey_setKey_self _ _ _
      rw [h0] at hmax
      simp [getKey] at hmax
    unfold safeOutputsConfigMap addDispatchConfig
    simp [h, List.length_pos, hne, getKey_setKey_self]
  refine ⟨?_, ?_, ?_⟩
  · intro d hd
    obtain ⟨h1, h2, h3⟩ := dispatchWorkflowConfig_fields d
    exact ⟨hkey s d hd, h1, h2, h3⟩
  · intro hd hjobs
    have hreg : getKey (registryConfig s) "dispatch_workflow" = none := by
      unfold registryConfig
      rw [getKey_foldl_registryStep_skip]
      · rfl
      · intro e he hk
        exact absurd hk (registry_entry_ne_blocks e he).2
    unfold safeOutputsConfigMap
    have hskip : ∀ cfg, addDispatchConfig s cfg = cfg := by
      intro cfg
      unfold addDispatchConfig
      simp [hd]
    rw [hskip, getKey_addMentionsConfig_ne _ _ _ (by decide),
      getKey_addJobsConfig_ne _ _ _ hjobs, hreg]
  · intro env path d hd
    by_cases h0 : d.Workflows.length = 0
    · have hnil : d.Workflows = [] := List.length_eq_zero.1 h0
      refine ⟨s, d, ?_, hd, rfl, ?_, hkey s d hd, (dispatchWorkflowConfig_fields d).2.1⟩
      · simp [populateDispatchWorkflowFiles, hd, h0]
      · rw [hnil]
        rfl
    · refine ⟨{ s with DispatchWorkflow := some { d with
          WorkflowFiles := d.Workflows.foldl (populateStep env path) d.WorkflowFiles } },
        { d with WorkflowFiles := d.Workflows.foldl (populateStep env path) d.WorkflowFiles },
        ?_, rfl, rfl, rfl, hkey _ _ rfl, (dispatchWorkflowConfig_fields _).2.1⟩
      simp [populateDispatchWorkflowFiles, hd, h0]

/-- Witness for the amended C39: with the workflows `both` and `source` and the resolved
extension of `both` the block has the workflow list, the files map and the cap; with an
empty policy it has the cap only. -/
theorem dispatch_block_witness :
    getKey (safeOutputsConfigMap
      { DispatchWorkflow := some { Workflows := ["both", "source"],
                                   WorkflowFiles := [("both", ".lock.yml")] } })
      "dispatch_workflow" =
      some (JVal.obj [("workflows", strList ["both", "source"]),
        ("workflow_files", strMap [("both", ".lock.yml")]), ("max", JVal.num 1)]) ∧
    getKey (safeOutputsConfigMap { DispatchWorkflow := some {} }) "dispatch_workflow" =
      some (JVal.obj [("max", JVal.num 1)]) :=
  ⟨((dispatch_block
      { DispatchWorkflow := some { Workflows := ["both", "source"],
                                   WorkflowFiles := [("both", ".lock.yml")] } }).1
      { Workflows := ["both", "source"], WorkflowFiles := [("both", ".lock.yml")] } rfl).1,
   ((dispatch_block { DispatchWorkflow := some {} }).1 {} rfl).1⟩

/-! ## C40: the results of `generateFilteredToolsJSON` -/

/-- C40: for a nil aggregate `generateFilteredToolsJSON` returns `[]` and a nil error and
leaves the workflow data as it is, whatever the static universe and the locator are; for a
non-nil aggregate it returns a non-nil error exactly when the static universe does not parse
or the encoding of the catalog fails, and then the returned string is empty. -/
theorem filtered_tools_errors (env : Collaborators) (path : String) :
    generateFilteredToolsJSON env { SafeOutputs := none } path =
      (("[]", none), { SafeOutputs := none }) ∧
    (∀ s : SafeOutputsConfig,
      ((generateFilteredToolsJSON env { SafeOutputs := some s } path).1.2 ≠ none ↔
        (env.allTools = none ∨
          ∃ allTools, env.allTools = some allTools ∧
            marshalIndent 0 (JVal.arr ((filteredToolsList env allTools s path).1.map
              JVal.obj)) = none)) ∧
      ((generateFilteredToolsJSON env { SafeOutputs := some s } path).1.2 ≠ none →
        (generateFilteredToolsJSON env { SafeOutputs := some s } path).1.1 = "")) := by
  refine ⟨rfl, ?_⟩
  intro s
  unfold generateFilteredToolsJSON
  simp only []
  cases hall : env.allTools with
  | none => simp
  | some allTools =>
    simp only [Option.some.injEq, exists_eq_left', false_or, reduceCtorEq]
    by_cases hemp : (filteredToolsList env allTools s path).1.isEmpty = true
    · have hnil : (filteredToolsList env allTools s path).1 = [] := List.isEmpty_iff.1 hemp
      rw [hnil]
      simp [marshalIndent, marshalIndentList]
    · simp only [hemp, if_false, Bool.false_eq_true]
      cases henc : marshalIndent 0
        (JVal.arr ((filteredToolsList env allTools s path).1.map JVal.obj)) with
      | none => simp
      | some text => simp

end SafeOutputs
